import Mathlib

/-!
# The misc device registry (`drivers/char/misc.c`)

A shallow embedding of `misc_register`, `misc_deregister` and `misc_open`.

* The registry is the circular doubly linked list rooted at `misc_list`; it is
  kept at pointer level (`next`/`prev` fields), because the source manipulates
  the nodes through `INIT_LIST_HEAD`, `list_add`, `list_del` and `list_empty`.
* `misc_minors` is the byte array behind the dynamic-minor bitmap.
* The collaborators (`device_create`, `device_destroy`, `request_module`, the
  driver's `open` hook, the mutex) are recorded in a trace of events.
* Loops over the list take a step budget; a dereference of `NULL` or of a list
  poison value, an out-of-bounds array index and a second `mutex_lock` by the
  same caller are faults.
-/

namespace Misc

/-! ## Constants of the kernel headers -/

/-- `EBUSY` of `linux/errno.h`. -/
def EBUSY : Int := 16

/-- `ENODEV` of `linux/errno.h`. -/
def ENODEV : Int := 19

/-- `EINVAL` of `linux/errno.h`. -/
def EINVAL : Int := 22

/-- `MAX_ERRNO` of `linux/err.h`. -/
def MAX_ERRNO : Int := 4095

/-- `#define DYNAMIC_MINORS 64` (misc.c line 63). -/
def DYNAMIC_MINORS : Nat := 64

/-- Modelled from the spec: the sentinel identifier by which a driver requests a
dynamic identifier (`MISC_DYNAMIC_MINOR`, declared in `linux/miscdevice.h`, which
is not among the sources).  The spec treats it as a value that is not an
allocatable identifier; the value of the kernel header, 255, is used. -/
def MISC_DYNAMIC_MINOR : Int := 255

/-! ## Data model -/

/-- Addresses of `struct list_head` objects: the list head `misc_list`, the
`list` member of the `d`-th `struct miscdevice`, `NULL`, and the two poison
values `list_del` leaves behind. -/
inductive Ptr where
  | head
  | node (d : Nat)
  | null
  | poison1
  | poison2
  deriving DecidableEq, Repr

/-- Ways in which an execution fails to return. -/
inductive Fault where
  | bad_pointer
  | out_of_bounds
  | deadlock
  | bad_unlock
  | out_of_fuel
  deriving DecidableEq, Repr

/-- `struct list_head`. -/
structure list_head where
  next : Ptr
  prev : Ptr
  deriving DecidableEq, Repr

/-- Modelled from the spec: `struct miscdevice` (declared in `linux/miscdevice.h`,
not among the sources), restricted to the members misc.c reads or writes: the
identifier `minor`, the operation table `fops` (the spec's DriverEntry always
carries one; tables are named by a number), the list node `list`, and
`this_device`, the pointer returned by `device_create`. -/
structure miscdevice where
  minor : Int
  fops : Nat
  list : list_head
  this_device : Int
  deriving DecidableEq, Repr

/-- Calls to collaborators and lock operations, in the order they happen. -/
inductive Event where
  | lock_kernel
  | unlock_kernel
  | mutex_lock
  | mutex_unlock
  | request_module (major minor : Int)
  | device_create (minor : Int)
  | device_destroy (minor : Int)
  | open_hook (fops : Nat)
  deriving DecidableEq, Repr

/-- What `misc_mtx` protects: the list head `misc_list`, the memory of the
`struct miscdevice` objects (owned by the drivers, indexed by a number), and the
byte array `misc_minors` (index to byte). -/
structure Registry where
  misc_list : list_head
  devs : Nat → miscdevice
  misc_minors : Nat → Nat

/-- The whole state: the registry, the mutex `misc_mtx`, the reference count of
every operation table, and the trace. -/
structure State extends Registry where
  misc_mtx : Bool
  refcount : Nat → Int
  trace : List Event

/-- Modelled from the spec: `struct file_operations` (declared in `linux/fs.h`,
not among the sources), restricted to its `open` member.  A hook is represented
by the value it returns when called. -/
structure file_operations where
  open_hook : Option Int

/-- Modelled from the spec: `struct file`, restricted to `f_op`, the session's
current operation table (`none` is `NULL`). -/
structure file where
  f_op : Option Nat
  deriving DecidableEq, Repr

/-! ## `linux/list.h` -/

/-- Read of the `struct list_head` at address `p`. -/
def Registry.get (r : Registry) : Ptr → Except Fault list_head
  | .head => .ok r.misc_list
  | .node d => .ok (r.devs d).list
  | _ => .error .bad_pointer

/-- Assignment `p->next = q`. -/
def Registry.set_next (r : Registry) (p q : Ptr) : Except Fault Registry :=
  match p with
  | .head => .ok { r with misc_list := { r.misc_list with next := q } }
  | .node d =>
    .ok { r with devs := fun k =>
      if k = d then { r.devs d with list := { (r.devs d).list with next := q } } else r.devs k }
  | _ => .error .bad_pointer

/-- Assignment `p->prev = q`. -/
def Registry.set_prev (r : Registry) (p q : Ptr) : Except Fault Registry :=
  match p with
  | .head => .ok { r with misc_list := { r.misc_list with prev := q } }
  | .node d =>
    .ok { r with devs := fun k =>
      if k = d then { r.devs d with list := { (r.devs d).list with prev := q } } else r.devs k }
  | _ => .error .bad_pointer

/-- Modelled from the spec: `INIT_LIST_HEAD` of `linux/list.h` (not among the
sources): `list->next = list; list->prev = list;`, after which the node is an
empty list, the spec's "not linked". -/
def INIT_LIST_HEAD (r : Registry) (list : Ptr) : Except Fault Registry := do
  let r ← r.set_next list list
  r.set_prev list list

/-- Modelled from the spec: `__list_add` of `linux/list.h` (not among the
sources): `next->prev = new; new->next = next; new->prev = prev;
prev->next = new;`. -/
def __list_add (r : Registry) (new prev next : Ptr) : Except Fault Registry := do
  let r ← r.set_prev next new
  let r ← r.set_next new next
  let r ← r.set_prev new prev
  r.set_next prev new

/-- Modelled from the spec: `list_add` of `linux/list.h` (not among the
sources), the spec's "insert at the front of the ordered collection":
`__list_add(new, head, head->next)`. -/
def list_add (r : Registry) (new hd : Ptr) : Except Fault Registry := do
  let h ← r.get hd
  __list_add r new hd h.next

/-- Modelled from the spec: `__list_del` of `linux/list.h` (not among the
sources): `next->prev = prev; prev->next = next;`. -/
def __list_del (r : Registry) (prev next : Ptr) : Except Fault Registry := do
  let r ← r.set_prev next prev
  r.set_next prev next

/-- Modelled from the spec: `list_del` of `linux/list.h` (not among the
sources), the spec's "remove from the ordered collection":
`__list_del(entry->prev, entry->next); entry->next = LIST_POISON1;
entry->prev = LIST_POISON2;`. -/
def list_del (r : Registry) (entry : Ptr) : Except Fault Registry := do
  let e ← r.get entry
  let r ← __list_del r e.prev e.next
  let r ← r.set_next entry .poison1
  r.set_prev entry .poison2

/-- Modelled from the spec: `list_empty` of `linux/list.h` (not among the
sources): `head->next == head`. -/
def list_empty (r : Registry) (hd : Ptr) : Except Fault Bool := do
  let h ← r.get hd
  pure (decide (h.next = hd))

/-- The loop `list_for_each_entry(c, &misc_list, list) if (c->minor == minor)
break;` of misc.c lines 125-130, 137-142 and 196-201, from the cursor `c`
onwards: the first entry whose `minor` matches, or `none` when the cursor comes
back to `&misc_list`. -/
def list_find_minor (r : Registry) (minor : Int) : Nat → Ptr → Except Fault (Option Nat)
  | _, .head => .ok none
  | 0, _ => .error .out_of_fuel
  | fuel + 1, .node d =>
    if (r.devs d).minor = minor then .ok (some d)
    else list_find_minor r minor fuel (r.devs d).list.next
  | _ + 1, _ => .error .bad_pointer

/-! ## The mutex, the reference counts, the bitmap -/

/-- Appends an event to the trace. -/
def State.log (st : State) (e : Event) : State :=
  { st with trace := st.trace ++ [e] }

/-- Replaces the registry part of the state. -/
def State.with_registry (st : State) (r : Registry) : State :=
  { st with toRegistry := r }

/-- `mutex_lock(&misc_mtx)`; a caller that already holds the mutex never returns. -/
def mutex_lock (st : State) : Except Fault State :=
  if st.misc_mtx then .error .deadlock
  else .ok { st with misc_mtx := true, trace := st.trace ++ [.mutex_lock] }

/-- `mutex_unlock(&misc_mtx)`. -/
def mutex_unlock (st : State) : Except Fault State :=
  if st.misc_mtx then .ok { st with misc_mtx := false, trace := st.trace ++ [.mutex_unlock] }
  else .error .bad_unlock

/-- Modelled from the spec: `fops_get` of `linux/fs.h` (not among the sources),
the spec's `acquire`: increments the table's reference count and returns the
table; `NULL` stays `NULL`. -/
def fops_get (st : State) : Option Nat → Option Nat × State
  | none => (none, st)
  | some t =>
    (some t, { st with refcount := fun k => if k = t then st.refcount t + 1 else st.refcount k })

/-- Modelled from the spec: `fops_put` of `linux/fs.h` (not among the sources),
the spec's `release`: decrements the table's reference count; nothing for
`NULL`. -/
def fops_put (st : State) : Option Nat → State
  | none => st
  | some t =>
    { st with refcount := fun k => if k = t then st.refcount t - 1 else st.refcount k }

/-- `IS_ERR` of `linux/err.h` on a pointer read as a signed number: the last
`MAX_ERRNO` addresses encode an errno. -/
def IS_ERR (p : Int) : Bool := decide (-MAX_ERRNO ≤ p ∧ p < 0)

/-- `PTR_ERR` of `linux/err.h`. -/
def PTR_ERR (p : Int) : Int := p

/-- `MISC_MAJOR` of `linux/major.h`. -/
def MISC_MAJOR : Int := 10

/-- The test `(misc_minors[i>>3] & (1 << (i&7))) == 0` of line 206. -/
def minor_is_free (misc_minors : Nat → Nat) (i : Nat) : Bool :=
  decide (misc_minors (i >>> 3) &&& (1 <<< (i &&& 7)) = 0)

/-- The loop `while (--i >= 0) if (...) break;` of lines 205-207, entered with
the value `i`; the result is the value of `i` after the loop. -/
def find_free_minor (misc_minors : Nat → Nat) : Nat → Int
  | 0 => -1
  | i + 1 =>
    if minor_is_free misc_minors i then (i : Int) else find_free_minor misc_minors i

/-- `misc_minors[i >> 3] |= 1 << (i & 7)` for `0 ≤ i < DYNAMIC_MINORS`, stored
back into an `unsigned char`. -/
def Registry.mark_minor (r : Registry) (i : Nat) : Registry :=
  { r with misc_minors := fun k =>
      if k = i >>> 3 then (r.misc_minors (i >>> 3) ||| (1 <<< (i &&& 7))) % 256
      else r.misc_minors k }

/-- `misc_minors[i >> 3] &= ~(1 << (j & 7))` for `0 ≤ i < DYNAMIC_MINORS`; on
an `unsigned char` the complement is taken within 8 bits. -/
def Registry.clear_minor (r : Registry) (i j : Nat) : Registry :=
  { r with misc_minors := fun k =>
      if k = i >>> 3 then r.misc_minors (i >>> 3) &&& (255 ^^^ (1 <<< (j &&& 7)))
      else r.misc_minors k }

/-- Assignment `misc->minor = i`. -/
def Registry.set_minor (r : Registry) (misc : Nat) (i : Int) : Registry :=
  { r with devs := fun k => if k = misc then { r.devs misc with minor := i } else r.devs k }

/-- Assignment `misc->this_device = p`. -/
def Registry.set_this_device (r : Registry) (misc : Nat) (p : Int) : Registry :=
  { r with devs := fun k => if k = misc then { r.devs misc with this_device := p } else r.devs k }

/-! ## `misc_register` -/

/-- Lines 215-233 of `misc_register`: mark the identifier, create the device,
link the entry at the front.  `device_create` is the pointer the collaborator
returns on this call.  An identifier below 0 passes the test
`misc->minor < DYNAMIC_MINORS` and indexes `misc_minors` out of bounds. -/
def misc_register_tail (misc : Nat) (device_create : Int) (st : State) :
    Except Fault (Int × State) := do
  let minor := (st.devs misc).minor
  let st ←
    if minor < DYNAMIC_MINORS then
      if minor < 0 then .error .out_of_bounds
      else pure (st.with_registry (st.toRegistry.mark_minor minor.toNat))
    else pure st
  let st := st.log (.device_create minor)
  let st := st.with_registry (st.toRegistry.set_this_device misc device_create)
  if IS_ERR (st.devs misc).this_device then
    let err := PTR_ERR (st.devs misc).this_device
    let st ← mutex_unlock st
    pure (err, st)
  else
    let r ← list_add st.toRegistry (.node misc) .head
    let st ← mutex_unlock (st.with_registry r)
    pure (0, st)

/-- `misc_register(misc)` (lines 187-234).  `misc` names the `struct miscdevice`
passed by the driver, `device_create` is what the device-creation collaborator
returns if it is called, `fuel` bounds the collision scan. -/
def misc_register (fuel : Nat) (misc : Nat) (device_create : Int) (st : State) :
    Except Fault (Int × State) := do
  let r ← INIT_LIST_HEAD st.toRegistry (.node misc)
  let st ← mutex_lock (st.with_registry r)
  match ← list_find_minor st.toRegistry (st.devs misc).minor fuel st.misc_list.next with
  | some _ =>
    let st ← mutex_unlock st
    pure (-EBUSY, st)
  | none =>
    if (st.devs misc).minor = MISC_DYNAMIC_MINOR then
      let i := find_free_minor st.misc_minors DYNAMIC_MINORS
      if i < 0 then
        let st ← mutex_unlock st
        pure (-EBUSY, st)
      else
        misc_register_tail misc device_create
          (st.with_registry (st.toRegistry.set_minor misc i))
    else
      misc_register_tail misc device_create st

/-! ## `misc_deregister` -/

/-- `misc_deregister(misc)` (lines 246-261). -/
def misc_deregister (misc : Nat) (st : State) : Except Fault (Int × State) := do
  let i := (st.devs misc).minor
  if ← list_empty st.toRegistry (.node misc) then
    pure (-EINVAL, st)
  else
    let st ← mutex_lock st
    let r ← list_del st.toRegistry (.node misc)
    let st := st.with_registry r
    let st := st.log (.device_destroy (st.devs misc).minor)
    let st :=
      if i < DYNAMIC_MINORS ∧ i > 0 then
        st.with_registry (st.toRegistry.clear_minor i.toNat (st.devs misc).minor.toNat)
      else st
    let st ← mutex_unlock st
    pure (0, st)

/-! ## `misc_open` -/

/-- Lines 147-161 of `misc_open`: bind the session to `new_fops`, call the
driver's own `open` hook if there is one, roll back if it fails. -/
def misc_open_bind (tables : Nat → file_operations) (new_fops : Nat) (f : file)
    (st : State) : Except Fault (Int × file × State) := do
  let old_fops := f.f_op
  let f : file := { f_op := some new_fops }
  match (tables new_fops).open_hook with
  | some err =>
    let st := st.log (.open_hook new_fops)
    if err ≠ 0 then
      let st := fops_put st f.f_op
      let (g, st) := fops_get st old_fops
      let f : file := { f_op := g }
      let st := fops_put st old_fops
      let st ← mutex_unlock st
      pure (err, f, st.log .unlock_kernel)
    else
      let st := fops_put st old_fops
      let st ← mutex_unlock st
      pure (err, f, st.log .unlock_kernel)
  | none =>
    let st := fops_put st old_fops
    let st ← mutex_unlock st
    pure (0, f, st.log .unlock_kernel)

/-- The lookup of `misc_open` (lines 125-130 and 137-142): scan the list for
`minor` and take a reference on the table of the entry found. -/
def misc_open_lookup (fuel : Nat) (minor : Int) (st : State) :
    Except Fault (Option Nat × State) := do
  match ← list_find_minor st.toRegistry minor fuel st.misc_list.next with
  | some c => pure (fops_get st (some (st.devs c).fops))
  | none => pure (none, st)

/-- `misc_open(inode, file)` (lines 115-162).  `minor` is `iminor(inode)`,
`tables` gives the operation tables, `request_module` is the loader: what a
call of it does to the registry. -/
def misc_open (fuel : Nat) (tables : Nat → file_operations)
    (request_module : Int → Int → Registry → Registry)
    (minor : Int) (f : file) (st : State) : Except Fault (Int × file × State) := do
  let st := st.log .lock_kernel
  let st ← mutex_lock st
  let (new_fops, st) ← misc_open_lookup fuel minor st
  match new_fops with
  | some t => misc_open_bind tables t f st
  | none =>
    let st ← mutex_unlock st
    let st := st.log (.request_module MISC_MAJOR minor)
    let st := st.with_registry (request_module MISC_MAJOR minor st.toRegistry)
    let st ← mutex_lock st
    let (new_fops, st) ← misc_open_lookup fuel minor st
    match new_fops with
    | some t => misc_open_bind tables t f st
    | none =>
      let st ← mutex_unlock st
      pure (-ENODEV, f, st.log .unlock_kernel)

/-! ## The abstraction: which entries the list holds -/

/-- The `next` member of the object at `p` (a pointer that is not the address
of an object is given back unchanged). -/
def Registry.next (r : Registry) : Ptr → Ptr
  | .head => r.misc_list.next
  | .node d => (r.devs d).list.next
  | p => p

/-- The `prev` member of the object at `p`. -/
def Registry.prev (r : Registry) : Ptr → Ptr
  | .head => r.misc_list.prev
  | .node d => (r.devs d).list.prev
  | p => p

/-- Following the pointer map `f` from `p` visits exactly `xs`, in this order,
and then arrives at `q`. -/
def Path (f : Ptr → Ptr) : Ptr → List Ptr → Ptr → Prop
  | p, [], q => f p = q
  | p, x :: xs, q => f p = x ∧ Path f x xs q

/-- Decision procedure for `Path`. -/
def Path.decide (f : Ptr → Ptr) : (p : Ptr) → (xs : List Ptr) → (q : Ptr) → Decidable (Path f p xs q)
  | p, [], q => inferInstanceAs (Decidable (f p = q))
  | p, x :: xs, q =>
    match inferInstanceAs (Decidable (f p = x)), Path.decide f x xs q with
    | isTrue h, isTrue t => isTrue ⟨h, t⟩
    | isFalse h, _ => isFalse (fun c => h c.1)
    | _, isFalse t => isFalse (fun c => t c.2)

instance (f : Ptr → Ptr) (p : Ptr) (xs : List Ptr) (q : Ptr) : Decidable (Path f p xs q) :=
  Path.decide f p xs q

/-- The ordered collection: `misc_list` is a well-formed circular doubly linked
list that holds exactly the entries `l`, front to back. -/
def Registry.IsList (r : Registry) (l : List Nat) : Prop :=
  l.Nodup ∧ Path r.next .head (l.map .node) .head ∧
    Path r.prev .head (l.map .node).reverse .head

instance (r : Registry) (l : List Nat) : Decidable (r.IsList l) := by
  unfold Registry.IsList
  exact inferInstance

/-- The identifier `i` is marked used in the bitmap. -/
def Registry.minor_used (r : Registry) (i : Nat) : Prop :=
  minor_is_free r.misc_minors i = false

instance (r : Registry) (i : Nat) : Decidable (r.minor_used i) := by
  unfold Registry.minor_used
  exact inferInstance

/-- The registry agrees with `r` on everything but the list pointers: the
bitmap and each entry's `minor`, `fops` and `this_device`. -/
def Registry.SameData (r s : Registry) : Prop :=
  s.misc_minors = r.misc_minors ∧
    ∀ k, (s.devs k).minor = (r.devs k).minor ∧ (s.devs k).fops = (r.devs k).fops ∧
      (s.devs k).this_device = (r.devs k).this_device

/-! ## Auxiliary definitions for the statements -/

/-- The pointer map `f` after the assignment of `y` to the member at `x`. -/
def upd (f : Ptr → Ptr) (x y : Ptr) : Ptr → Ptr := fun z => if z = x then y else f z

/-- The pointer is the address of an object: the list head or a node. -/
def Ptr.valid : Ptr → Bool
  | .head => true
  | .node _ => true
  | _ => false

/-- What remains of `misc_register` once the node is initialised, the mutex
taken and the collision scan has run over a well-formed list. -/
def misc_register_rest (d : Nat) (dev : Int) (found : Option Nat) (st : State) :
    Except Fault (Int × State) :=
  match found with
  | some _ => do
    let st ← mutex_unlock st
    pure (-EBUSY, st)
  | none =>
    if (st.devs d).minor = MISC_DYNAMIC_MINOR then
      let i := find_free_minor st.misc_minors DYNAMIC_MINORS
      if i < 0 then do
        let st ← mutex_unlock st
        pure (-EBUSY, st)
      else
        misc_register_tail d dev (st.with_registry (st.toRegistry.set_minor d i))
    else
      misc_register_tail d dev st

/-- The identifier an entry is registered under: the requested one, or for the
dynamic sentinel the result of the search through the bitmap. -/
def assigned_minor (st : State) (d : Nat) : Int :=
  if (st.devs d).minor = MISC_DYNAMIC_MINOR then find_free_minor st.misc_minors DYNAMIC_MINORS
  else (st.devs d).minor

/-- The state between two calls: the list is well formed and holds the entries
`l`, and the mutex is free. -/
def State.Wf (st : State) (l : List Nat) : Prop :=
  st.toRegistry.IsList l ∧ st.misc_mtx = false

instance (st : State) (l : List Nat) : Decidable (st.Wf l) := by
  unfold State.Wf
  exact inferInstance

/-- The state at start-up: `LIST_HEAD(misc_list)` is an empty list, the static
array `misc_minors` is zero, the mutex is free; `devs` is the memory of the
drivers' entries and `refcount` the reference counts at that moment. -/
def State.init (devs : Nat → miscdevice) (refcount : Nat → Int) : State :=
  { misc_list := { next := .head, prev := .head }
    devs := devs
    misc_minors := fun _ => 0
    misc_mtx := false
    refcount := refcount
    trace := [] }

/-- A call made by a driver: `register misc minor device_create` stands for the
driver storing `minor` into `misc->minor` and calling `misc_register(misc)`,
with `device_create` the pointer the device-creation collaborator returns if it
is called; `deregister misc` stands for `misc_deregister(misc)`. -/
inductive Call where
  | register (misc : Nat) (minor : Int) (device_create : Int)
  | deregister (misc : Nat)
  deriving DecidableEq, Repr

/-- Executes one call. -/
def Call.exec (fuel : Nat) : Call → State → Except Fault (Int × State)
  | .register misc minor device_create, st =>
    misc_register fuel misc device_create
      (st.with_registry (st.toRegistry.set_minor misc minor))
  | .deregister misc, st => misc_deregister misc st

/-- Executes a sequence of calls and collects the values they return. -/
def run (fuel : Nat) : List Call → State → Except Fault (List Int × State)
  | [], st => .ok ([], st)
  | c :: cs, st => do
    let (ret, st) ← c.exec fuel st
    let (rets, st) ← run fuel cs st
    pure (ret :: rets, st)

/-- Entry memory in which every `struct miscdevice` is zero-initialised static
storage (identifier 0, `NULL` list pointers) with the table `fops = d`. -/
def witness_devs : Nat → miscdevice :=
  fun d => { minor := 0, fops := d, list := { next := .null, prev := .null }, this_device := 0 }

/-- Reference counts that are all zero. -/
def witness_refcount : Nat → Int := fun _ => 0

/-- The state in which entry 0 is registered with the identifier 5 (its bit is
marked in `misc_minors[0]`); the other entries are unregistered storage: entry 1
carries the identifier 5 as well, entry 2 the dynamic sentinel, the others the
identifier 7. -/
def witness_one : State :=
  { misc_list := { next := .node 0, prev := .node 0 }
    devs := fun d =>
      if d = 0 then { minor := 5, fops := 0, list := { next := .head, prev := .head },
                      this_device := 1 }
      else { minor := if d = 1 then 5 else if d = 2 then MISC_DYNAMIC_MINOR else 7, fops := d,
             list := { next := .null, prev := .null }, this_device := 0 }
    misc_minors := fun k => if k = 0 then 32 else 0
    misc_mtx := false
    refcount := fun _ => 0
    trace := [] }

/-- The states reached from the empty registry by calls that keep to the
contract of the two functions: `misc_register` is called on an entry that is
not linked, with an identifier that is not negative, and `misc_deregister` on
an entry that is linked.  Device creation is free to succeed or fail on each
call, and `fuel` is a step budget that suffices for the scan of the list.  `l`
lists the linked entries, the front of the list first. -/
inductive Reachable : State → List Nat → Prop where
  | init (devs : Nat → miscdevice) (refcount : Nat → Int) :
    Reachable (State.init devs refcount) []
  | register {st st' : State} {l : List Nat} (fuel misc : Nat) (minor device_create ret : Int) :
    Reachable st l → misc ∉ l → 0 ≤ minor → l.length ≤ fuel →
    (Call.register misc minor device_create).exec fuel st = .ok (ret, st') →
    Reachable st' (if ret = 0 then misc :: l else l)
  | deregister {st st' : State} {l : List Nat} (fuel misc : Nat) (ret : Int) :
    Reachable st l → misc ∈ l →
    (Call.deregister misc).exec fuel st = .ok (ret, st') →
    Reachable st' (l.erase misc)

/-- What holds of the linked entries in a state reached within the contract:
the list is well formed and the mutex free; every linked entry has an
identifier that is not negative and not the dynamic sentinel, marked used in
the bitmap when it is below `DYNAMIC_MINORS`; no two linked entries have the
same identifier. -/
def State.Inv (st : State) (l : List Nat) : Prop :=
  st.Wf l ∧
  (∀ c ∈ l, 0 ≤ (st.devs c).minor ∧ (st.devs c).minor ≠ MISC_DYNAMIC_MINOR ∧
    ((st.devs c).minor < DYNAMIC_MINORS →
      minor_is_free st.misc_minors (st.devs c).minor.toNat = false)) ∧
  (∀ a ∈ l, ∀ b ∈ l, (st.devs a).minor = (st.devs b).minor → a = b)

/-- The calls of the misuse scenario: entries 0 and 1 register with the
identifiers 2 and 1, entry 2 registers dynamically (and gets 63) and is then
registered a second time while linked; entry 1 is deregistered, entry 2 is
deregistered, registered once more, entry 0 is deregistered, and entry 3
registers dynamically. -/
def misuse_calls : List Call :=
  [.register 0 2 1, .register 1 1 1, .register 2 MISC_DYNAMIC_MINOR 1, .register 2 63 1,
   .deregister 1, .deregister 2, .register 2 63 1, .deregister 0,
   .register 3 MISC_DYNAMIC_MINOR 1]

/-- The first `k` of a series of dynamic registrations: the `j`-th call
registers the entry `e j` with the dynamic sentinel, and `dev j` is what
`device_create` returns to it. -/
def dynamic_calls (e : Nat → Nat) (dev : Nat → Int) (k : Nat) : List Call :=
  (List.range k).map (fun j => Call.register (e j) MISC_DYNAMIC_MINOR (dev j))

/-- The events of lines 150-156 of `misc_open`: the call of the driver's own
`open` hook, when the table `t` has one. -/
def hook_events (tables : Nat → file_operations) (t : Nat) : List Event :=
  match (tables t).open_hook with
  | none => []
  | some _ => [.open_hook t]

/-- Tables without an `open` hook. -/
def witness_tables : Nat → file_operations := fun _ => { open_hook := none }

/-- A loader that registers nothing. -/
def witness_idle_loader : Int → Int → Registry → Registry := fun _ _ r => r

/-- A loader during whose run a driver registers entry 0 with the identifier
5: the registry it leaves is that of `witness_one`. -/
def witness_loader : Int → Int → Registry → Registry := fun _ _ _ => witness_one.toRegistry

/-- Lines 137-161 of `misc_open`: what remains of the call once the loader has
returned and the mutex is taken again: the second scan, then the binding or
the `-ENODEV` exit. -/
def misc_open_retry (fuel : Nat) (tables : Nat → file_operations) (minor : Int) (f : file)
    (st : State) : Except Fault (Int × file × State) := do
  let (new_fops, st) ← misc_open_lookup fuel minor st
  match new_fops with
  | some t => misc_open_bind tables t f st
  | none =>
    let st ← mutex_unlock st
    pure (-ENODEV, f, st.log .unlock_kernel)

/-- Replays the lock operations of a sequence of events, starting with the
mutex held or not as `held` says, and lists, for each call of a driver's `open`
hook, whether the mutex is held at that moment. -/
def hook_lock_states : Bool → List Event → List Bool
  | _, [] => []
  | _, .mutex_lock :: es => hook_lock_states true es
  | _, .mutex_unlock :: es => hook_lock_states false es
  | held, .open_hook _ :: es => held :: hook_lock_states held es
  | held, _ :: es => hook_lock_states held es

/-- Replays the lock operations of a sequence of events and lists, for each
call of the loader, whether the mutex is held at that moment. -/
def loader_lock_states : Bool → List Event → List Bool
  | _, [] => []
  | _, .mutex_lock :: es => loader_lock_states true es
  | _, .mutex_unlock :: es => loader_lock_states false es
  | held, .request_module _ _ :: es => held :: loader_lock_states held es
  | held, _ :: es => loader_lock_states held es

/-- Tables whose `open` hook returns 0. -/
def witness_hook_tables : Nat → file_operations := fun _ => { open_hook := some 0 }

/-- Tables whose `open` hook fails with -5. -/
def witness_failing_tables : Nat → file_operations := fun _ => { open_hook := some (-5) }

/-- Replays the lock operations of a sequence of events, starting with the
mutex held or not as `held` says: `none` if a lock is taken while the mutex is
held or released while it is free, otherwise whether the mutex is held at the
end. -/
def lock_steps : Bool → List Event → Option Bool
  | held, [] => some held
  | false, .mutex_lock :: es => lock_steps true es
  | true, .mutex_lock :: _ => none
  | true, .mutex_unlock :: es => lock_steps false es
  | false, .mutex_unlock :: _ => none
  | held, _ :: es => lock_steps held es

/-- The call that took `st` to `st'` has returned with the mutex free, and in
the events it has logged every `mutex_lock` is followed by its `mutex_unlock`
before the next `mutex_lock` and before the end. -/
def lock_released (st st' : State) : Prop :=
  st'.misc_mtx = false ∧ ∃ evs, st'.trace = st.trace ++ evs ∧ lock_steps false evs = some false

/-- The events of a call of `misc_open`: `lock_kernel` and the lock, then
either the hook of the table found by the first scan; or the unlock, the
loader, the second lock and the hook of the table found by the second scan; or
the same without a hook when the second scan finds nothing; and in each case
the unlock and `unlock_kernel`. -/
def misc_open_events (tables : Nat → file_operations) (minor : Int) (evs : List Event) : Prop :=
  (∃ t, evs = [.lock_kernel, .mutex_lock] ++ hook_events tables t ++
      [.mutex_unlock, .unlock_kernel]) ∨
  (∃ t, evs = [.lock_kernel, .mutex_lock, .mutex_unlock, .request_module MISC_MAJOR minor,
      .mutex_lock] ++ hook_events tables t ++ [.mutex_unlock, .unlock_kernel]) ∨
  evs = [.lock_kernel, .mutex_lock, .mutex_unlock, .request_module MISC_MAJOR minor,
      .mutex_lock, .mutex_unlock, .unlock_kernel]

/-! ## Lemmas: list nodes -/

theorem Registry.SameData.refl (r : Registry) : r.SameData r := ⟨rfl, fun _ => ⟨rfl, rfl, rfl⟩⟩

theorem Registry.SameData.trans {r s t : Registry} (h1 : r.SameData s) (h2 : s.SameData t) :
    r.SameData t := by
  refine ⟨h2.1.trans h1.1, fun k => ?_⟩
  obtain ⟨a, b, c⟩ := h1.2 k
  obtain ⟨a', b', c'⟩ := h2.2 k
  exact ⟨a'.trans a, b'.trans b, c'.trans c⟩

theorem set_next_ok (r : Registry) (x y : Ptr) (hx : x.valid = true) :
    ∃ s, r.set_next x y = .ok s ∧ s.next = upd r.next x y ∧ s.prev = r.prev ∧ r.SameData s := by
  cases x with
  | head =>
    refine ⟨_, rfl, ?_, ?_, rfl, fun _ => ⟨rfl, rfl, rfl⟩⟩
    · funext z; cases z <;> simp [Registry.next, upd]
    · funext z; cases z <;> simp [Registry.prev]
  | node d =>
    refine ⟨_, rfl, ?_, ?_, rfl, fun k => ?_⟩
    · funext z
      cases z <;> simp [Registry.next, upd]
      split <;> simp_all
    · funext z
      cases z <;> simp [Registry.prev]
      split <;> simp_all
    · by_cases h : k = d <;> simp [h]
  | _ => simp [Ptr.valid] at hx

theorem set_prev_ok (r : Registry) (x y : Ptr) (hx : x.valid = true) :
    ∃ s, r.set_prev x y = .ok s ∧ s.prev = upd r.prev x y ∧ s.next = r.next ∧ r.SameData s := by
  cases x with
  | head =>
    refine ⟨_, rfl, ?_, ?_, rfl, fun _ => ⟨rfl, rfl, rfl⟩⟩
    · funext z; cases z <;> simp [Registry.prev, upd]
    · funext z; cases z <;> simp [Registry.next]
  | node d =>
    refine ⟨_, rfl, ?_, ?_, rfl, fun k => ?_⟩
    · funext z
      cases z <;> simp [Registry.prev, upd]
      split <;> simp_all
    · funext z
      cases z <;> simp [Registry.next]
      split <;> simp_all
    · by_cases h : k = d <;> simp [h]
  | _ => simp [Ptr.valid] at hx

theorem Path.frame {f g : Ptr → Ptr} {p q : Ptr} {xs : List Ptr}
    (h : Path f p xs q) (hfg : ∀ x ∈ p :: xs, g x = f x) : Path g p xs q := by
  induction xs generalizing p with
  | nil => simpa [Path, hfg p (by simp)] using h
  | cons x xs ih =>
    refine ⟨by rw [hfg p (by simp)]; exact h.1, ih h.2 ?_⟩
    intro y hy
    exact hfg y (List.mem_cons_of_mem _ hy)

theorem Path.append_iff {f : Ptr → Ptr} {p y q : Ptr} {xs ys : List Ptr} :
    Path f p (xs ++ y :: ys) q ↔ Path f p xs y ∧ Path f y ys q := by
  induction xs generalizing p with
  | nil => simp [Path]
  | cons x xs ih => simp [Path, ih, and_assoc]

theorem Path.snoc_iff {f : Ptr → Ptr} {p y q : Ptr} {xs : List Ptr} :
    Path f p (xs ++ [y]) q ↔ Path f p xs y ∧ f y = q := by
  rw [Path.append_iff]; simp [Path]

/-- replace the start of a path -/
theorem Path.rehead {f g : Ptr → Ptr} {p p' q : Ptr} {xs : List Ptr}
    (h : Path f p xs q) (hp : g p' = f p) (hfg : ∀ x ∈ xs, g x = f x) : Path g p' xs q := by
  cases xs with
  | nil => simpa [Path, hp] using h
  | cons x xs =>
    refine ⟨by rw [hp]; exact h.1, h.2.frame hfg⟩

theorem Path.first {f : Ptr → Ptr} {p q : Ptr} {xs : List Ptr}
    (h : Path f p xs q) : f p = xs.headD q := by
  cases xs with
  | nil => exact h
  | cons x xs => exact h.1

/-- unlinking `y`: the predecessor `g y` now points to the successor `f y` -/
theorem Path.unlink {f g : Ptr → Ptr} {p y q : Ptr} {xs ys : List Ptr}
    (hf : Path f p (xs ++ y :: ys) q) (hg : Path g y xs.reverse p)
    (hnd : (p :: (xs ++ y :: ys)).Nodup) :
    Path (upd f (g y) (f y)) p (xs ++ ys) q := by
  rw [Path.append_iff] at hf
  obtain ⟨h1, h2⟩ := hf
  rcases List.eq_nil_or_concat xs with rfl | ⟨xs', z, rfl⟩
  · simp only [List.reverse_nil, Path] at hg
    simp only [List.nil_append]
    apply h2.rehead
    · simp [hg, upd]
    · intro x hx
      have : x ≠ p := by
        rintro rfl
        simp at hnd
        exact hnd.1.2 hx
      simp [hg, upd, this]
  · simp only [List.concat_eq_append, List.reverse_append, List.reverse_cons, List.reverse_nil,
      List.nil_append, List.singleton_append, Path] at hg
    have hz : g y = z := hg.1
    rw [List.concat_eq_append, Path.snoc_iff] at h1
    rw [List.concat_eq_append, List.append_assoc, List.singleton_append, Path.append_iff, hz]
    have hnd' : (p :: (xs' ++ z :: y :: ys)).Nodup := by simpa using hnd
    constructor
    · apply h1.1.frame
      intro x hx
      have : x ≠ z := by
        rintro rfl
        rw [← List.cons_append] at hnd'
        have := (List.nodup_append.1 hnd').2.2
        exact this hx (by simp) 
      simp [upd, this]
    · apply h2.rehead
      · simp [upd]
      · intro x hx
        have : x ≠ z := by
          rintro rfl
          rw [← List.cons_append] at hnd'
          have := (List.nodup_append.1 hnd').2.1
          simp at this
          exact this.1.2 hx
        simp [upd, this]


theorem node_valid (d : Nat) : (Ptr.node d).valid = true := rfl

theorem headD_valid (xs : List Ptr) (q : Ptr) (hq : q.valid = true)
    (hxs : ∀ x ∈ xs, x.valid = true) : (xs.headD q).valid = true := by
  cases xs with
  | nil => exact hq
  | cons x xs => exact hxs x (by simp)

theorem nodes_valid (l : List Nat) : ∀ x ∈ l.map Ptr.node, x.valid = true := by
  intro x hx
  obtain ⟨d, _, rfl⟩ := List.mem_map.1 hx
  rfl

theorem head_not_mem_nodes (l : List Nat) : Ptr.head ∉ l.map Ptr.node := by
  simp

theorem nodes_nodup {l : List Nat} (h : l.Nodup) : (Ptr.head :: l.map Ptr.node).Nodup := by
  refine List.nodup_cons.2 ⟨head_not_mem_nodes l, ?_⟩
  exact (List.nodup_map_iff (fun a b h => by injection h)).2 h

theorem node_mem_nodes {l : List Nat} {d : Nat} : Ptr.node d ∈ l.map Ptr.node ↔ d ∈ l := by
  simp

/-- `INIT_LIST_HEAD` on a node outside the list leaves the list alone. -/
theorem INIT_LIST_HEAD_spec {r : Registry} {l : List Nat} {d : Nat} (h : r.IsList l)
    (hd : d ∉ l) :
    ∃ s, INIT_LIST_HEAD r (.node d) = .ok s ∧ s.IsList l ∧ r.SameData s ∧
      s.next (.node d) = .node d := by
  obtain ⟨s1, e1, n1, p1, d1⟩ := set_next_ok r (.node d) (.node d) rfl
  obtain ⟨s2, e2, p2, n2, d2⟩ := set_prev_ok s1 (.node d) (.node d) rfl
  refine ⟨s2, by simp [INIT_LIST_HEAD, e1, e2, bind, Except.bind], ⟨h.1, ?_, ?_⟩,
    d1.trans d2, by simp [n2, n1, upd]⟩
  · apply h.2.1.frame
    intro x hx
    have : x ≠ .node d := by
      rintro rfl
      simp at hx
      exact hd hx
    simp [n2, n1, upd, this]
  · apply h.2.2.frame
    intro x hx
    have : x ≠ .node d := by
      rintro rfl
      simp at hx
      exact hd hx
    simp [p2, p1, upd, this]

/-- `list_add` links a node that is outside the list at its front. -/
theorem list_add_spec {r : Registry} {l : List Nat} {d : Nat} (h : r.IsList l)
    (hd : d ∉ l) :
    ∃ s, list_add r (.node d) .head = .ok s ∧ s.IsList (d :: l) ∧ r.SameData s := by
  obtain ⟨hnd, hf, hb⟩ := h
  have hn : (r.next .head).valid = true := by
    rw [hf.first]
    exact headD_valid _ _ rfl (nodes_valid l)
  obtain ⟨s1, e1, p1, n1, d1⟩ := set_prev_ok r (r.next .head) (.node d) hn
  obtain ⟨s2, e2, n2, p2, d2⟩ := set_next_ok s1 (.node d) (r.next .head) rfl
  obtain ⟨s3, e3, p3, n3, d3⟩ := set_prev_ok s2 (.node d) .head rfl
  obtain ⟨s4, e4, n4, p4, d4⟩ := set_next_ok s3 .head (.node d) rfl
  have hget : r.get .head = .ok r.misc_list := rfl
  have hnx : r.misc_list.next = r.next .head := rfl
  refine ⟨s4, by simp [list_add, __list_add, hget, hnx, e1, e2, e3, e4, bind, Except.bind],
    ⟨List.nodup_cons.2 ⟨hd, hnd⟩, ?_, ?_⟩, ((d1.trans d2).trans d3).trans d4⟩
  · have hnext : s4.next = upd (upd r.next (.node d) (r.next .head)) .head (.node d) := by
      rw [n4, n3, n2, n1]
    rw [hnext]
    refine ⟨by simp [upd], ?_⟩
    apply hf.rehead
    · simp [upd]
    · intro x hx
      have h1 : x ≠ .head := by
        rintro rfl
        exact head_not_mem_nodes l hx
      have h2 : x ≠ .node d := by
        rintro rfl
        exact hd (node_mem_nodes.1 hx)
      simp [upd, h1, h2]
  · have hprev : s4.prev = upd (upd r.prev (r.next .head) (.node d)) (.node d) .head := by
      rw [p4, p3, p2, p1]
    rw [hprev, List.map_cons, List.reverse_cons, Path.snoc_iff]
    refine ⟨?_, by simp [upd]⟩
    cases l with
    | nil =>
      have : r.next .head = .head := hf
      simp [Path, upd, this]
    | cons e l' =>
      have hne : r.next .head = .node e := hf.1
      rw [List.map_cons, List.reverse_cons, Path.snoc_iff] at hb ⊢
      have hed : e ≠ d := by
        rintro rfl
        exact hd (by simp)
      refine ⟨?_, by simp [upd, hne, hed]⟩
      apply hb.1.frame
      intro x hx
      have h1 : x ≠ .node e := by
        rintro rfl
        rcases List.mem_cons.1 hx with h | h
        · cases h
        · have := (List.nodup_cons.1 hnd).1
          exact this (by simpa using h)
      have h2 : x ≠ .node d := by
        rintro rfl
        rcases List.mem_cons.1 hx with h | h
        · cases h
        · exact hd (List.mem_cons_of_mem _ (by simpa using h))
      simp [upd, hne, h1, h2]


/-- `list_del` unlinks a member of the list and poisons its node. -/
theorem list_del_spec {r : Registry} {l : List Nat} {d : Nat} (h : r.IsList l)
    (hd : d ∈ l) :
    ∃ s, list_del r (.node d) = .ok s ∧ s.IsList (l.erase d) ∧ r.SameData s ∧
      s.next (.node d) = .poison1 := by
  obtain ⟨hnd, hf, hb⟩ := h
  obtain ⟨l1, l2, rfl⟩ := List.append_of_mem hd
  have hd1 : d ∉ l1 := by
    intro hm
    have := (List.nodup_append.1 hnd).2.2
    exact this hm (by simp)
  have hers : (l1 ++ d :: l2).erase d = l1 ++ l2 := by
    rw [List.erase_append_right _ hd1, List.erase_cons_head]
  have hnd2 : (l1 ++ l2).Nodup := by
    rw [← hers]
    exact hnd.erase d
  have hd2 : d ∉ l1 ++ l2 := by
    rw [← hers]
    exact fun hm => (List.Nodup.mem_erase_iff hnd).1 hm |>.1 rfl
  rw [hers]
  have hN : (l1 ++ d :: l2).map Ptr.node = l1.map Ptr.node ++ Ptr.node d :: l2.map Ptr.node := by
    simp
  have hN2 : (l1 ++ l2).map Ptr.node = l1.map Ptr.node ++ l2.map Ptr.node := by simp
  rw [hN] at hf hb
  have hb' : Path r.prev .head ((l2.map Ptr.node).reverse ++ Ptr.node d ::
      (l1.map Ptr.node).reverse) .head := by
    simpa using hb
  have hfD := (Path.append_iff.1 hf).2
  have hbD := (Path.append_iff.1 hb').2
  have hn : (r.next (.node d)).valid = true := by
    rw [hfD.first]
    exact headD_valid _ _ rfl (nodes_valid l2)
  have ha : (r.prev (.node d)).valid = true := by
    rw [hbD.first]
    refine headD_valid _ _ rfl ?_
    intro x hx
    exact nodes_valid l1 x (List.mem_reverse.1 hx)
  obtain ⟨s1, e1, p1, n1, d1⟩ := set_prev_ok r (r.next (.node d)) (r.prev (.node d)) hn
  obtain ⟨s2, e2, n2, p2, d2⟩ := set_next_ok s1 (r.prev (.node d)) (r.next (.node d)) ha
  obtain ⟨s3, e3, n3, p3, d3⟩ := set_next_ok s2 (.node d) .poison1 rfl
  obtain ⟨s4, e4, p4, n4, d4⟩ := set_prev_ok s3 (.node d) .poison2 rfl
  have hget : r.get (.node d) = .ok (r.devs d).list := rfl
  have hnx : (r.devs d).list.next = r.next (.node d) := rfl
  have hpv : (r.devs d).list.prev = r.prev (.node d) := rfl
  have hndN := nodes_nodup hnd
  rw [hN] at hndN
  refine ⟨s4, by simp [list_del, __list_del, hget, hnx, hpv, e1, e2, e3, e4, bind, Except.bind],
    ⟨hnd2, ?_, ?_⟩, ((d1.trans d2).trans d3).trans d4, by simp [n4, n3, upd]⟩
  · have hnext : s4.next = upd (upd r.next (r.prev (.node d)) (r.next (.node d)))
        (.node d) .poison1 := by
      rw [n4, n3, n2, n1]
    rw [hnext, hN2]
    have hu := Path.unlink hf (by simpa using hbD) hndN
    apply hu.frame
    intro x hx
    have : x ≠ .node d := by
      rintro rfl
      rcases List.mem_cons.1 hx with h | h
      · cases h
      · rw [← hN2] at h
        exact hd2 (node_mem_nodes.1 h)
    simp only [upd, this, if_false]
  · have hprev : s4.prev = upd (upd r.prev (r.next (.node d)) (r.prev (.node d)))
        (.node d) .poison2 := by
      rw [p4, p3, p2, p1]
    rw [hprev, hN2, List.reverse_append]
    have hndR : (Ptr.head :: ((l2.map Ptr.node).reverse ++ Ptr.node d ::
        (l1.map Ptr.node).reverse)).Nodup := by
      refine List.Nodup.perm hndN ?_ |> fun h => h
      refine List.Perm.cons _ ?_
      have : (l2.map Ptr.node).reverse ++ Ptr.node d :: (l1.map Ptr.node).reverse
          = (l1.map Ptr.node ++ Ptr.node d :: l2.map Ptr.node).reverse := by simp
      rw [this]
      exact (List.reverse_perm _).symm
    have hu := Path.unlink hb' (by simpa using hfD) hndR
    apply hu.frame
    intro x hx
    have : x ≠ .node d := by
      rintro rfl
      rcases List.mem_cons.1 hx with h | h
      · cases h
      · have : Ptr.node d ∈ (l1 ++ l2).map Ptr.node := by
          rw [hN2]
          rcases List.mem_append.1 h with h | h
          · exact List.mem_append_right _ (List.mem_reverse.1 h)
          · exact List.mem_append_left _ (List.mem_reverse.1 h)
        exact hd2 (node_mem_nodes.1 this)
    simp only [upd, this, if_false]

/-- The scan of a well-formed list finds the first entry with the identifier. -/
theorem list_find_minor_path (r : Registry) (m : Int) :
    ∀ (l : List Nat) (p : Ptr) (fuel : Nat), Path r.next p (l.map Ptr.node) .head →
      l.length ≤ fuel →
      list_find_minor r m fuel (r.next p) = .ok (l.find? (fun d => decide ((r.devs d).minor = m)))
  | [], p, fuel, hp, _ => by
    have : r.next p = .head := hp
    rw [this]
    cases fuel <;> rfl
  | e :: l, p, 0, _, hf => by simp at hf
  | e :: l, p, fuel + 1, hp, hf => by
    have h1 : r.next p = .node e := hp.1
    rw [h1, list_find_minor]
    by_cases hm : (r.devs e).minor = m
    · simp [hm]
    · have ih := list_find_minor_path r m l (.node e) fuel hp.2 (by simpa using hf)
      simp only [hm, if_false, List.find?_cons, decide_False]
      exact ih

theorem list_find_minor_spec {r : Registry} {l : List Nat} (h : r.IsList l) (m : Int)
    {fuel : Nat} (hf : l.length ≤ fuel) :
    list_find_minor r m fuel r.misc_list.next =
      .ok (l.find? (fun d => decide ((r.devs d).minor = m))) :=
  list_find_minor_path r m l .head fuel h.2.1 hf

/-! ## Lemmas: the bitmap -/

theorem and_bit_eq_zero_iff (x k : Nat) : x &&& (1 <<< k) = 0 ↔ x.testBit k = false := by
  rw [Nat.one_shiftLeft]
  constructor
  · intro h
    have := congrArg (fun y => y.testBit k) h
    simpa [Nat.testBit_two_pow] using this
  · intro h
    apply Nat.eq_of_testBit_eq
    intro i
    simp only [Nat.testBit_and, Nat.testBit_two_pow, Nat.zero_testBit]
    by_cases hk : k = i
    · subst hk; simp [h]
    · simp [hk]

theorem shift_mask_eq_iff (i j : Nat) : (j >>> 3 = i >>> 3 ∧ j &&& 7 = i &&& 7) ↔ j = i := by
  have h7 : ∀ x : Nat, x &&& 7 = x % 8 := fun x => Nat.and_pow_two_sub_one_eq_mod x 3
  simp only [Nat.shiftRight_eq_div_pow, h7]
  omega

theorem mask_lt (i : Nat) : i &&& 7 < 8 := by
  have h7 : i &&& 7 = i % 8 := Nat.and_pow_two_sub_one_eq_mod i 3
  omega

theorem minor_is_free_mark (r : Registry) (i j : Nat) :
    minor_is_free (r.mark_minor i).misc_minors j =
      (decide (j ≠ i) && minor_is_free r.misc_minors j) := by
  unfold minor_is_free Registry.mark_minor
  by_cases hb : j >>> 3 = i >>> 3
  · simp only [hb, if_true]
    rw [Bool.eq_iff_iff]
    simp only [decide_eq_true_eq, Bool.and_eq_true, and_bit_eq_zero_iff]
    have : (256 : Nat) = 2 ^ 8 := by norm_num
    rw [this, Nat.testBit_mod_two_pow, Nat.testBit_or, Nat.one_shiftLeft, Nat.testBit_two_pow]
    have hj := mask_lt j
    have := shift_mask_eq_iff i j
    by_cases hk : i &&& 7 = j &&& 7
    · have hji : j = i := this.1 ⟨hb, hk.symm⟩
      simp [hk, hj, hji]
    · have hji : j ≠ i := fun h => hk (by rw [h])
      simp [hk, hj, hji]
  · have hji : j ≠ i := fun h => hb (by rw [h])
    simp [hb, hji]

theorem minor_is_free_clear (r : Registry) (i j : Nat) :
    minor_is_free (r.clear_minor i i).misc_minors j =
      (decide (j = i) || minor_is_free r.misc_minors j) := by
  unfold minor_is_free Registry.clear_minor
  by_cases hb : j >>> 3 = i >>> 3
  · simp only [hb, if_true]
    rw [Bool.eq_iff_iff]
    simp only [decide_eq_true_eq, Bool.or_eq_true, and_bit_eq_zero_iff]
    have : (255 : Nat) = 2 ^ 8 - 1 := by norm_num
    rw [this, Nat.testBit_and, Nat.testBit_xor, Nat.testBit_two_pow_sub_one, Nat.one_shiftLeft,
      Nat.testBit_two_pow]
    have hj := mask_lt j
    have := shift_mask_eq_iff i j
    by_cases hk : i &&& 7 = j &&& 7
    · have hji : j = i := this.1 ⟨hb, hk.symm⟩
      simp [hk, hj, hji]
    · have hji : j ≠ i := fun h => hk (by rw [h])
      simp [hk, hj, hji]
  · have hji : j ≠ i := fun h => hb (by rw [h])
    simp [hb, hji]

theorem find_free_minor_spec (bm : Nat → Nat) (n : Nat) :
    (find_free_minor bm n = -1 ∧ ∀ j, j < n → minor_is_free bm j = false) ∨
    (∃ i : Nat, i < n ∧ find_free_minor bm n = (i : Int) ∧ minor_is_free bm i = true ∧
      ∀ j, i < j → j < n → minor_is_free bm j = false) := by
  induction n with
  | zero => left; exact ⟨rfl, fun j hj => absurd hj (Nat.not_lt_zero j)⟩
  | succ n ih =>
    unfold find_free_minor
    by_cases h : minor_is_free bm n = true
    · right
      refine ⟨n, Nat.lt_succ_self n, by simp [h], h, ?_⟩
      intro j h1 h2
      omega
    · simp only [h, if_false]
      rcases ih with ⟨e, hall⟩ | ⟨i, hi, e, hfree, hall⟩
      · left
        refine ⟨e, fun j hj => ?_⟩
        rcases Nat.lt_succ_iff_lt_or_eq.1 hj with h' | rfl
        · exact hall j h'
        · simpa using h
      · right
        refine ⟨i, Nat.lt_succ_of_lt hi, e, hfree, fun j h1 h2 => ?_⟩
        rcases Nat.lt_succ_iff_lt_or_eq.1 h2 with h' | rfl
        · exact hall j h1 h'
        · simpa using h

/-! ## Lemmas: the three functions on a well-formed list -/

theorem mutex_lock_ok {st : State} (h : st.misc_mtx = false) :
    mutex_lock st = .ok { st with misc_mtx := true, trace := st.trace ++ [.mutex_lock] } := by
  simp [mutex_lock, h]

theorem mutex_unlock_ok {st : State} (h : st.misc_mtx = true) :
    mutex_unlock st = .ok { st with misc_mtx := false, trace := st.trace ++ [.mutex_unlock] } := by
  simp [mutex_unlock, h]

theorem mutex_unlock_spec {st : State} (h : st.misc_mtx = true) :
    ∃ st', mutex_unlock st = .ok st' ∧ st'.toRegistry = st.toRegistry ∧ st'.misc_mtx = false ∧
      st'.refcount = st.refcount ∧ st'.trace = st.trace ++ [.mutex_unlock] :=
  ⟨_, mutex_unlock_ok h, rfl, rfl, rfl, rfl⟩

theorem mutex_lock_spec {st : State} (h : st.misc_mtx = false) :
    ∃ st', mutex_lock st = .ok st' ∧ st'.toRegistry = st.toRegistry ∧ st'.misc_mtx = true ∧
      st'.refcount = st.refcount ∧ st'.trace = st.trace ++ [.mutex_lock] :=
  ⟨_, mutex_lock_ok h, rfl, rfl, rfl, rfl⟩

theorem isList_of_same_links {r s : Registry} {l : List Nat} (h : r.IsList l)
    (hl : s.misc_list = r.misc_list) (hd : ∀ k, (s.devs k).list = (r.devs k).list) :
    s.IsList l := by
  have hn : s.next = r.next := by
    funext z; cases z <;> simp [Registry.next, hl, hd]
  have hp : s.prev = r.prev := by
    funext z; cases z <;> simp [Registry.prev, hl, hd]
  exact ⟨h.1, hn ▸ h.2.1, hp ▸ h.2.2⟩

/-- Lines 215-233 on a well-formed list, the mutex held, the entry outside the
list with an identifier that is not negative. -/
theorem misc_register_tail_spec {st : State} {l : List Nat} {d : Nat} (dev : Int)
    (hl : st.IsList l) (hm : st.misc_mtx = true) (hd : d ∉ l)
    (hnn : 0 ≤ (st.devs d).minor) :
    ∃ st', misc_register_tail d dev st = .ok (if IS_ERR dev then dev else 0, st') ∧
      st'.IsList (if IS_ERR dev then l else d :: l) ∧
      st'.misc_minors = (if (st.devs d).minor < DYNAMIC_MINORS
        then (st.toRegistry.mark_minor (st.devs d).minor.toNat).misc_minors
        else st.misc_minors) ∧
      (∀ k, (st'.devs k).minor = (st.devs k).minor ∧ (st'.devs k).fops = (st.devs k).fops) ∧
      (st'.devs d).this_device = dev ∧
      st'.misc_mtx = false ∧ st'.refcount = st.refcount ∧
      st'.trace = st.trace ++ [.device_create (st.devs d).minor, .mutex_unlock] ∧
      (IS_ERR dev = true → st'.next (.node d) = st.next (.node d)) := by
  -- the state after the bitmap update, the call of device_create and the store
  -- into this_device
  let st1 : State :=
    if (st.devs d).minor < DYNAMIC_MINORS
    then st.with_registry (st.toRegistry.mark_minor (st.devs d).minor.toNat) else st
  let st2 : State :=
    (st1.log (.device_create (st.devs d).minor)).with_registry
      ((st1.log (.device_create (st.devs d).minor)).toRegistry.set_this_device d dev)
  have h1l : st1.misc_list = st.misc_list ∧ st1.devs = st.devs ∧ st1.misc_mtx = st.misc_mtx ∧
      st1.refcount = st.refcount ∧ st1.trace = st.trace ∧
      st1.misc_minors = (if (st.devs d).minor < DYNAMIC_MINORS
        then (st.toRegistry.mark_minor (st.devs d).minor.toNat).misc_minors
        else st.misc_minors) := by
    simp only [st1]
    split <;> simp [State.with_registry, Registry.mark_minor]
  obtain ⟨a1, a2, a3, a4, a5, a6⟩ := h1l
  have h2 : st2.misc_list = st.misc_list ∧ (∀ k, (st2.devs k).list = (st.devs k).list) ∧
      (∀ k, (st2.devs k).minor = (st.devs k).minor ∧ (st2.devs k).fops = (st.devs k).fops) ∧
      (st2.devs d).this_device = dev ∧ st2.misc_mtx = true ∧ st2.refcount = st.refcount ∧
      st2.trace = st.trace ++ [.device_create (st.devs d).minor] ∧
      st2.misc_minors = st1.misc_minors := by
    simp only [st2, State.with_registry, State.log, Registry.set_this_device, a1, a2, a3, a4, a5,
      hm]
    refine ⟨trivial, ?_, ?_, by simp, trivial, trivial, trivial, trivial⟩
    · intro k; by_cases hk : k = d <;> simp [hk]
    · intro k; by_cases hk : k = d <;> simp [hk]
  obtain ⟨b1, b2, b3, b4, b5, b6, b7, b8⟩ := h2
  have hl2 : st2.IsList l := isList_of_same_links hl b1 b2
  have hstep : misc_register_tail d dev st =
      (if IS_ERR (st2.devs d).this_device then
        (do let st ← mutex_unlock st2
            pure (PTR_ERR (st2.devs d).this_device, st))
      else
        (do let r ← list_add st2.toRegistry (.node d) .head
            let st ← mutex_unlock (st2.with_registry r)
            pure (0, st))) := by
    unfold misc_register_tail
    by_cases hlt : (st.devs d).minor < DYNAMIC_MINORS
    · have hn : ¬ (st.devs d).minor < 0 := not_lt.2 hnn
      simp only [hlt, hn, if_true, if_false, st2, st1]
      rfl
    · simp only [hlt, if_false, st2, st1]
      rfl
  rw [hstep, b4]
  by_cases he : IS_ERR dev = true
  · obtain ⟨st3, hu, c1, c2, c3, c4⟩ := mutex_unlock_spec b5
    simp only [he, if_true, hu, PTR_ERR]
    refine ⟨st3, rfl, c1 ▸ hl2, ?_, ?_, ?_, c2, c3.trans b6, ?_, ?_⟩
    · rw [c1]; exact b8.trans a6
    · rw [c1]; exact b3
    · rw [c1]; exact b4
    · simp [c4, b7]
    · intro _
      rw [c1]
      show (st2.devs d).list.next = (st.devs d).list.next
      rw [b2]
  · obtain ⟨s, es, hs, ds⟩ := list_add_spec hl2 hd
    have hmx : (st2.with_registry s).misc_mtx = true := b5
    simp only [he, if_false, es, Bool.false_eq_true]
    obtain ⟨st3, hu, c1, c2, c3, c4⟩ := mutex_unlock_spec hmx
    have c1' : st3.toRegistry = s := c1
    have c3' : st3.refcount = st2.refcount := c3
    have c4' : st3.trace = st2.trace ++ [.mutex_unlock] := c4
    refine ⟨st3, by simp only [bind, Except.bind, hu]; rfl, c1' ▸ hs, ?_, ?_, ?_, c2,
      c3'.trans b6, ?_, ?_⟩
    · rw [c1']
      exact (ds.1.trans b8).trans a6
    · intro k
      rw [c1']
      exact ⟨(ds.2 k).1.trans (b3 k).1, (ds.2 k).2.1.trans (b3 k).2⟩
    · rw [c1']
      exact (ds.2 d).2.2.trans b4
    · simp [c4', b7]
    · intro h; simp at h


theorem misc_register_prefix {st : State} {l : List Nat} {d : Nat} (fuel : Nat) (dev : Int)
    (hl : st.IsList l) (hm : st.misc_mtx = false) (hd : d ∉ l) (hf : l.length ≤ fuel) :
    ∃ st1 : State, st1.IsList l ∧ st1.misc_mtx = true ∧ st.toRegistry.SameData st1.toRegistry ∧
      st1.next (.node d) = .node d ∧ st1.refcount = st.refcount ∧
      st1.trace = st.trace ++ [.mutex_lock] ∧
      misc_register fuel d dev st =
        misc_register_rest d dev
          (l.find? (fun c => decide ((st1.devs c).minor = (st1.devs d).minor))) st1 := by
  obtain ⟨s0, e0, hl0, d0, n0⟩ := INIT_LIST_HEAD_spec hl hd
  have hm0 : (st.with_registry s0).misc_mtx = false := hm
  obtain ⟨st1, e1, c1, c2, c3, c4⟩ := mutex_lock_spec hm0
  have c1' : st1.toRegistry = s0 := c1
  have hl1 : st1.IsList l := c1' ▸ hl0
  have hscan := list_find_minor_spec hl1 (st1.devs d).minor hf
  refine ⟨st1, hl1, c2, c1' ▸ d0, c1' ▸ n0, c3, c4, ?_⟩
  unfold misc_register
  simp only [e0, e1, hscan, bind, Except.bind]
  rfl


theorem find?_some_of_mem {l : List Nat} {p : Nat → Bool} {c : Nat} (hc : c ∈ l)
    (hp : p c = true) : ∃ e, l.find? p = some e := by
  cases h : l.find? p with
  | some e => exact ⟨e, rfl⟩
  | none =>
    rw [List.find?_eq_none] at h
    exact absurd hp (h c hc)

/-- A rejected registration: the scan met an entry with the requested
identifier. -/
theorem misc_register_busy {st : State} {l : List Nat} {d c : Nat} (fuel : Nat) (dev : Int)
    (hl : st.IsList l) (hm : st.misc_mtx = false) (hd : d ∉ l) (hf : l.length ≤ fuel)
    (hc : c ∈ l) (hcm : (st.devs c).minor = (st.devs d).minor) :
    ∃ st', misc_register fuel d dev st = .ok (-EBUSY, st') ∧ st'.IsList l ∧
      st.toRegistry.SameData st'.toRegistry ∧ st'.misc_mtx = false ∧
      st'.refcount = st.refcount ∧ st'.trace = st.trace ++ [.mutex_lock, .mutex_unlock] ∧
      st'.next (.node d) = .node d := by
  obtain ⟨st1, hl1, m1, d1, n1, r1, t1, e⟩ := misc_register_prefix fuel dev hl hm hd hf
  obtain ⟨x, hx⟩ := find?_some_of_mem (p := fun c => decide ((st1.devs c).minor = (st1.devs d).minor))
    hc (by simp [(d1.2 c).1, (d1.2 d).1, hcm])
  obtain ⟨st2, hu, c1, c2, c3, c4⟩ := mutex_unlock_spec m1
  refine ⟨st2, ?_, c1 ▸ hl1, c1 ▸ d1, c2, c3.trans r1, by simp [c4, t1], c1 ▸ n1⟩
  rw [e, hx]
  simp only [misc_register_rest, hu, bind, Except.bind]
  rfl

/-- A rejected registration: a dynamic identifier is requested and every
identifier of the pool is marked used. -/
theorem misc_register_exhausted {st : State} {l : List Nat} {d : Nat} (fuel : Nat) (dev : Int)
    (hl : st.IsList l) (hm : st.misc_mtx = false) (hd : d ∉ l) (hf : l.length ≤ fuel)
    (hc : ∀ c ∈ l, (st.devs c).minor ≠ (st.devs d).minor)
    (hdyn : (st.devs d).minor = MISC_DYNAMIC_MINOR)
    (hfull : find_free_minor st.misc_minors DYNAMIC_MINORS < 0) :
    ∃ st', misc_register fuel d dev st = .ok (-EBUSY, st') ∧ st'.IsList l ∧
      st.toRegistry.SameData st'.toRegistry ∧ st'.misc_mtx = false ∧
      st'.refcount = st.refcount ∧ st'.trace = st.trace ++ [.mutex_lock, .mutex_unlock] ∧
      st'.next (.node d) = .node d := by
  obtain ⟨st1, hl1, m1, d1, n1, r1, t1, e⟩ := misc_register_prefix fuel dev hl hm hd hf
  have hnone : l.find? (fun c => decide ((st1.devs c).minor = (st1.devs d).minor)) = none := by
    rw [List.find?_eq_none]
    intro c hcl
    simpa [(d1.2 c).1, (d1.2 d).1] using hc c hcl
  obtain ⟨st2, hu, c1, c2, c3, c4⟩ := mutex_unlock_spec m1
  refine ⟨st2, ?_, c1 ▸ hl1, c1 ▸ d1, c2, c3.trans r1, by simp [c4, t1], c1 ▸ n1⟩
  rw [e, hnone]
  have h1 : (st1.devs d).minor = MISC_DYNAMIC_MINOR := by rw [(d1.2 d).1, hdyn]
  have h2 : find_free_minor st1.misc_minors DYNAMIC_MINORS < 0 := by rw [d1.1]; exact hfull
  simp only [misc_register_rest, h1, h2, if_true, hu, bind, Except.bind]
  rfl

/-- A registration that passes the collision scan and obtains an identifier
that is not negative. -/
theorem misc_register_go {st : State} {l : List Nat} {d : Nat} (fuel : Nat) (dev : Int)
    (hl : st.IsList l) (hm : st.misc_mtx = false) (hd : d ∉ l) (hf : l.length ≤ fuel)
    (hc : ∀ c ∈ l, (st.devs c).minor ≠ (st.devs d).minor)
    (hi : 0 ≤ assigned_minor st d) :
    ∃ st', misc_register fuel d dev st = .ok (if IS_ERR dev then dev else 0, st') ∧
      st'.IsList (if IS_ERR dev then l else d :: l) ∧
      st'.misc_minors = (if assigned_minor st d < DYNAMIC_MINORS
        then (st.toRegistry.mark_minor (assigned_minor st d).toNat).misc_minors
        else st.misc_minors) ∧
      (st'.devs d).minor = assigned_minor st d ∧
      (∀ k, k ≠ d → (st'.devs k).minor = (st.devs k).minor) ∧
      (∀ k, (st'.devs k).fops = (st.devs k).fops) ∧
      (st'.devs d).this_device = dev ∧
      st'.misc_mtx = false ∧ st'.refcount = st.refcount ∧
      st'.trace = st.trace ++ [.mutex_lock, .device_create (assigned_minor st d), .mutex_unlock] ∧
      (IS_ERR dev = true → st'.next (.node d) = .node d) := by
  obtain ⟨st1, hl1, m1, d1, n1, r1, t1, e⟩ := misc_register_prefix fuel dev hl hm hd hf
  have hnone : l.find? (fun c => decide ((st1.devs c).minor = (st1.devs d).minor)) = none := by
    rw [List.find?_eq_none]
    intro c hcl
    simpa [(d1.2 c).1, (d1.2 d).1] using hc c hcl
  rw [e, hnone]
  have hmd : (st1.devs d).minor = (st.devs d).minor := (d1.2 d).1
  by_cases hdyn : (st.devs d).minor = MISC_DYNAMIC_MINOR
  · have ha : assigned_minor st d = find_free_minor st.misc_minors DYNAMIC_MINORS := by
      simp [assigned_minor, hdyn]
    rw [ha] at hi ⊢
    let st2 : State := st1.with_registry (st1.toRegistry.set_minor d
      (find_free_minor st.misc_minors DYNAMIC_MINORS))
    have hl2 : st2.IsList l := isList_of_same_links hl1 rfl (by
      intro k
      by_cases hk : k = d <;> simp [st2, State.with_registry, Registry.set_minor, hk])
    have hm2 : (st2.devs d).minor = find_free_minor st.misc_minors DYNAMIC_MINORS := by
      simp [st2, State.with_registry, Registry.set_minor]
    obtain ⟨st', e', a1, a2, a3, a4, a5, a6, a7, a8⟩ :=
      @misc_register_tail_spec st2 l d dev hl2 m1 hd (by rw [hm2]; exact hi)
    rw [hm2] at a2 a7
    refine ⟨st', ?_, a1, ?_, ?_, ?_, ?_, a4, a5, a6.trans r1, ?_, ?_⟩
    · have h1 : (st1.devs d).minor = MISC_DYNAMIC_MINOR := by rw [hmd, hdyn]
      have h2 : ¬ find_free_minor st1.misc_minors DYNAMIC_MINORS < 0 := by
        rw [d1.1]; exact not_lt.2 hi
      simp only [misc_register_rest, h1, h2, if_true, if_false]
      rw [d1.1]
      exact e'
    · rw [a2]
      have : st2.misc_minors = st.misc_minors := d1.1
      simp [Registry.mark_minor, this]
    · rw [(a3 d).1, hm2]
    · intro k hk
      rw [(a3 k).1]
      simp [st2, State.with_registry, Registry.set_minor, hk, (d1.2 k).1]
    · intro k
      rw [(a3 k).2]
      by_cases hk : k = d <;> simp [st2, State.with_registry, Registry.set_minor, hk, (d1.2 _).2.1]
    · rw [a7]
      have : st2.trace = st.trace ++ [.mutex_lock] := t1
      simp [this]
    · intro he
      rw [a8 he]
      show (st2.devs d).list.next = .node d
      have : (st2.devs d).list = (st1.devs d).list := by
        simp [st2, State.with_registry, Registry.set_minor]
      rw [this]
      exact n1
  · have ha : assigned_minor st d = (st.devs d).minor := by
      simp [assigned_minor, hdyn]
    rw [ha] at hi ⊢
    obtain ⟨st', e', a1, a2, a3, a4, a5, a6, a7, a8⟩ :=
      @misc_register_tail_spec st1 l d dev hl1 m1 hd (by rw [hmd]; exact hi)
    rw [hmd] at a2 a7
    refine ⟨st', ?_, a1, ?_, ?_, ?_, ?_, a4, a5, a6.trans r1, ?_, ?_⟩
    · have h1 : ¬ (st1.devs d).minor = MISC_DYNAMIC_MINOR := by rw [hmd]; exact hdyn
      simp only [misc_register_rest, h1, if_false]
      exact e'
    · rw [a2]
      simp [Registry.mark_minor, d1.1]
    · rw [(a3 d).1, hmd]
    · intro k _
      rw [(a3 k).1, (d1.2 k).1]
    · intro k
      rw [(a3 k).2, (d1.2 k).2.1]
    · rw [a7, t1]
      simp
    · intro he
      rw [a8 he]
      exact n1


theorem IsList.next_ne_self {r : Registry} {l : List Nat} {d : Nat} (h : r.IsList l)
    (hd : d ∈ l) : r.next (.node d) ≠ .node d := by
  obtain ⟨hnd, hf, -⟩ := h
  obtain ⟨l1, l2, rfl⟩ := List.append_of_mem hd
  have hN : (l1 ++ d :: l2).map Ptr.node = l1.map Ptr.node ++ Ptr.node d :: l2.map Ptr.node := by
    simp
  rw [hN] at hf
  have hfD := (Path.append_iff.1 hf).2
  rw [hfD.first]
  cases l2 with
  | nil => simp
  | cons e l2 =>
    have : e ≠ d := by
      rintro rfl
      have := (List.nodup_append.1 hnd).2.1
      simp at this
    simp [this]

/-- Deregistration of an entry whose node is an empty list. -/
theorem misc_deregister_unlinked {st : State} {d : Nat}
    (hs : st.next (.node d) = .node d) : misc_deregister d st = .ok (-EINVAL, st) := by
  have : (st.devs d).list.next = .node d := hs
  simp [misc_deregister, list_empty, Registry.get, this, bind, Except.bind, pure, Except.pure]

/-- Deregistration of an entry that is on the list. -/
theorem misc_deregister_linked {st : State} {l : List Nat} {d : Nat}
    (hl : st.IsList l) (hm : st.misc_mtx = false) (hd : d ∈ l) :
    ∃ st', misc_deregister d st = .ok (0, st') ∧ st'.IsList (l.erase d) ∧
      st'.misc_minors = (if (st.devs d).minor < DYNAMIC_MINORS ∧ (st.devs d).minor > 0
        then (st.toRegistry.clear_minor (st.devs d).minor.toNat
          (st.devs d).minor.toNat).misc_minors
        else st.misc_minors) ∧
      (∀ k, (st'.devs k).minor = (st.devs k).minor ∧ (st'.devs k).fops = (st.devs k).fops ∧
        (st'.devs k).this_device = (st.devs k).this_device) ∧
      st'.misc_mtx = false ∧ st'.refcount = st.refcount ∧
      st'.trace = st.trace ++
        [.mutex_lock, .device_destroy (st.devs d).minor, .mutex_unlock] ∧
      st'.next (.node d) = .poison1 := by
  have hne : (st.devs d).list.next ≠ .node d := IsList.next_ne_self hl hd
  obtain ⟨st1, e1, c1, c2, c3, c4⟩ := mutex_lock_spec hm
  obtain ⟨s, es, hs, ds, ns⟩ := list_del_spec (c1 ▸ hl : st1.IsList l) hd
  let st2 : State := (st1.with_registry s).log (.device_destroy ((st1.with_registry s).devs d).minor)
  let st3 : State :=
    if (st.devs d).minor < DYNAMIC_MINORS ∧ (st.devs d).minor > 0 then
      st2.with_registry (st2.toRegistry.clear_minor (st.devs d).minor.toNat
        (st2.devs d).minor.toNat)
    else st2
  have hmin : ∀ k, (s.devs k).minor = (st.devs k).minor ∧ (s.devs k).fops = (st.devs k).fops ∧
      (s.devs k).this_device = (st.devs k).this_device := by
    intro k
    have := ds.2 k
    rw [c1] at this
    exact this
  have h3 : st3.misc_list = s.misc_list ∧ st3.devs = s.devs ∧ st3.misc_mtx = true ∧
      st3.refcount = st.refcount ∧
      st3.trace = st.trace ++ [.mutex_lock, .device_destroy (st.devs d).minor] ∧
      st3.misc_minors = (if (st.devs d).minor < DYNAMIC_MINORS ∧ (st.devs d).minor > 0
        then (st.toRegistry.clear_minor (st.devs d).minor.toNat
          (st.devs d).minor.toNat).misc_minors
        else st.misc_minors) := by
    have hbm : s.misc_minors = st.misc_minors := by rw [ds.1, c1]
    simp only [st3, st2]
    split <;>
      simp [State.with_registry, State.log, Registry.clear_minor, c2, c3, c4, (hmin d).1, hbm]
  obtain ⟨b1, b2, b3, b4, b5, b6⟩ := h3
  obtain ⟨st4, hu, u1, u2, u3, u4⟩ := mutex_unlock_spec b3
  have hl3 : st3.IsList (l.erase d) := isList_of_same_links hs b1 (fun k => by rw [b2])
  refine ⟨st4, ?_, u1 ▸ hl3, ?_, ?_, u2, u3.trans b4, ?_, ?_⟩
  · unfold misc_deregister
    simp only [list_empty, Registry.get, hne, e1, es, bind, Except.bind, pure, Except.pure,
      decide_False, Bool.false_eq_true, if_false]
    have hu' : mutex_unlock st3 = .ok st4 := hu
    simp only [st3, st2] at hu'
    rw [hu']
  · rw [u1]; exact b6
  · intro k
    rw [u1, b2]
    exact hmin k
  · rw [u4, b5]; simp
  · rw [u1]
    show (st3.devs d).list.next = .poison1
    rw [b2]
    exact ns

/-! ## Sequences of calls with distinct explicit identifiers -/

/-- The driver's store into `misc->minor` of an entry that is not on the list. -/
theorem set_minor_spec {st : State} {l : List Nat} (d : Nat) (m : Int) (h : st.Wf l) :
    (st.with_registry (st.toRegistry.set_minor d m)).Wf l ∧
      ((st.with_registry (st.toRegistry.set_minor d m)).devs d).minor = m ∧
      (∀ k, k ≠ d → ((st.with_registry (st.toRegistry.set_minor d m)).devs k).minor =
        (st.devs k).minor) ∧
      (∀ k, ((st.with_registry (st.toRegistry.set_minor d m)).devs k).fops = (st.devs k).fops) ∧
      (st.with_registry (st.toRegistry.set_minor d m)).misc_minors = st.misc_minors ∧
      (st.with_registry (st.toRegistry.set_minor d m)).refcount = st.refcount ∧
      (st.with_registry (st.toRegistry.set_minor d m)).trace = st.trace := by
  refine ⟨⟨isList_of_same_links h.1 rfl ?_, h.2⟩, ?_, ?_, ?_, rfl, rfl, rfl⟩
  · intro k
    by_cases hk : k = d <;> simp [State.with_registry, Registry.set_minor, hk]
  · simp [State.with_registry, Registry.set_minor]
  · intro k hk
    simp [State.with_registry, Registry.set_minor, hk]
  · intro k
    by_cases hk : k = d <;> simp [State.with_registry, Registry.set_minor, hk]

theorem init_wf (devs : Nat → miscdevice) (rc : Nat → Int) : (State.init devs rc).Wf [] := by
  refine ⟨⟨List.nodup_nil, ?_, ?_⟩, rfl⟩ <;> rfl

/-- C2. In a state whose list holds an entry `e1`, `misc_register` of a second
entry `e2` that is not on the list and carries the identifier of `e1` (whatever
that identifier is, so in particular when it is not the dynamic sentinel)
returns `-EBUSY`; the only events of the call are the lock and the unlock, so
`device_create` is not called; the list still holds the same entries in the
same order and the bitmap is unchanged. -/
theorem C2_duplicate_identifier_rejected (st : State) (l : List Nat) (e1 e2 : Nat)
    (device_create : Int) (fuel : Nat) (hw : st.Wf l) (h1 : e1 ∈ l) (h2 : e2 ∉ l)
    (hm : (st.devs e2).minor = (st.devs e1).minor) (hf : l.length ≤ fuel) :
    ∃ st', misc_register fuel e2 device_create st = .ok (-EBUSY, st') ∧ st'.Wf l ∧
      st'.misc_minors = st.misc_minors ∧
      st'.trace = st.trace ++ [.mutex_lock, .mutex_unlock] := by
  obtain ⟨st', e, a1, a2, a3, -, a5, -⟩ :=
    misc_register_busy fuel device_create hw.1 hw.2 h2 hf h1 hm.symm
  exact ⟨st', e, ⟨a1, a3⟩, a2.1, a5⟩

/-- Witness of C2: entry 0 is registered with the identifier 5 and entry 1
asks for the identifier 5. -/
theorem C2_duplicate_identifier_rejected_witness :
    ∃ st', misc_register 1 1 1 witness_one = .ok (-EBUSY, st') ∧ st'.Wf [0] ∧
      st'.misc_minors = witness_one.misc_minors ∧
      st'.trace = witness_one.trace ++ [.mutex_lock, .mutex_unlock] :=
  C2_duplicate_identifier_rejected witness_one [0] 0 1 1 1 (by decide) (by decide) (by decide)
    (by decide) (by decide)

/-- C3. On a well-formed registry in which no listed entry carries the dynamic
sentinel and the pool has a free slot, `misc_register` of an unlisted entry
`d1` whose identifier is `MISC_DYNAMIC_MINOR`, device creation succeeding,
returns 0 and stores in `misc->minor` the largest `i < DYNAMIC_MINORS` whose bit
was clear before the call (every `j` with `i < j < DYNAMIC_MINORS` was set), and
bit `i` is set afterwards.  `misc_register` of an unlisted entry `d2` with an
explicit identifier that is not negative returns and leaves `misc->minor` equal
to the requested value. -/
theorem C3_dynamic_gets_highest_free (st : State) (l : List Nat) (d1 d2 : Nat)
    (dev1 dev2 : Int) (fuel : Nat) (hw : st.Wf l) (hf : l.length ≤ fuel)
    (hd1 : d1 ∉ l) (hdyn : (st.devs d1).minor = MISC_DYNAMIC_MINOR)
    (hno : ∀ c ∈ l, (st.devs c).minor ≠ MISC_DYNAMIC_MINOR)
    (hfree : ∃ j, j < DYNAMIC_MINORS ∧ minor_is_free st.misc_minors j = true)
    (hdev1 : IS_ERR dev1 = false)
    (hd2 : d2 ∉ l) (hexp : (st.devs d2).minor ≠ MISC_DYNAMIC_MINOR)
    (h0 : 0 ≤ (st.devs d2).minor) :
    (∃ (i : Nat) (st' : State), misc_register fuel d1 dev1 st = .ok (0, st') ∧
      (st'.devs d1).minor = (i : Int) ∧ i < DYNAMIC_MINORS ∧
      minor_is_free st.misc_minors i = true ∧
      (∀ j, i < j → j < DYNAMIC_MINORS → minor_is_free st.misc_minors j = false) ∧
      minor_is_free st'.misc_minors i = false) ∧
    (∃ (ret : Int) (st' : State), misc_register fuel d2 dev2 st = .ok (ret, st') ∧
      (st'.devs d2).minor = (st.devs d2).minor) := by
  constructor
  · rcases find_free_minor_spec st.misc_minors DYNAMIC_MINORS with ⟨-, hall⟩ | ⟨i, hi, e, hfr, hall⟩
    · obtain ⟨j, hj, hjf⟩ := hfree
      rw [hall j hj] at hjf
      cases hjf
    · have ha : assigned_minor st d1 = (i : Int) := by simp [assigned_minor, hdyn, e]
      have hc : ∀ c ∈ l, (st.devs c).minor ≠ (st.devs d1).minor := by
        intro c hc
        rw [hdyn]
        exact hno c hc
      obtain ⟨st', es, -, a2, a3, -⟩ :=
        misc_register_go fuel dev1 hw.1 hw.2 hd1 hf hc (by rw [ha]; omega)
      rw [ha] at a2 a3
      simp only [hdev1, Bool.false_eq_true, if_false] at es
      refine ⟨i, st', es, a3, hi, hfr, hall, ?_⟩
      have hlt : (i : Int) < (DYNAMIC_MINORS : Int) := by exact_mod_cast hi
      rw [a2]
      simp only [hlt, if_true, Int.toNat_ofNat]
      rw [minor_is_free_mark]
      simp
  · by_cases hcol : ∃ c ∈ l, (st.devs c).minor = (st.devs d2).minor
    · obtain ⟨c, hc, hcm⟩ := hcol
      obtain ⟨st', es, -, a2, -⟩ := misc_register_busy fuel dev2 hw.1 hw.2 hd2 hf hc hcm
      exact ⟨_, st', es, (a2.2 d2).1⟩
    · have hc : ∀ c ∈ l, (st.devs c).minor ≠ (st.devs d2).minor :=
        fun c hc e => hcol ⟨c, hc, e⟩
      have ha : assigned_minor st d2 = (st.devs d2).minor := by simp [assigned_minor, hexp]
      obtain ⟨st', es, -, -, a3, -⟩ :=
        misc_register_go fuel dev2 hw.1 hw.2 hd2 hf hc (by rw [ha]; exact h0)
      exact ⟨_, st', es, a3.trans ha⟩

/-- Witness of C3: in `witness_one` entry 2 asks for a dynamic identifier and
entry 3 for the identifier 7. -/
theorem C3_dynamic_gets_highest_free_witness :
    (∃ (i : Nat) (st' : State), misc_register 1 2 1 witness_one = .ok (0, st') ∧
      (st'.devs 2).minor = (i : Int) ∧ i < DYNAMIC_MINORS ∧
      minor_is_free witness_one.misc_minors i = true ∧
      (∀ j, i < j → j < DYNAMIC_MINORS → minor_is_free witness_one.misc_minors j = false) ∧
      minor_is_free st'.misc_minors i = false) ∧
    (∃ (ret : Int) (st' : State), misc_register 1 3 1 witness_one = .ok (ret, st') ∧
      (st'.devs 3).minor = (witness_one.devs 3).minor) :=
  C3_dynamic_gets_highest_free witness_one [0] 2 3 1 1 1 (by decide) (by decide) (by decide)
    (by decide) (by decide) ⟨63, by decide, by decide⟩ (by decide) (by decide) (by decide)
    (by decide)

/-! ## States reached within the contract, and a misuse scenario -/

theorem IS_ERR_neg {p : Int} (h : IS_ERR p = true) : p < 0 := by
  simp [IS_ERR] at h
  exact h.2

/-- The identifier found by the search through the bitmap is below
`DYNAMIC_MINORS` and its bit is clear. -/
theorem find_free_minor_nonneg {bm : Nat → Nat} {n : Nat}
    (h : 0 ≤ find_free_minor bm n) :
    ∃ i : Nat, find_free_minor bm n = (i : Int) ∧ i < n ∧ minor_is_free bm i = true := by
  rcases find_free_minor_spec bm n with ⟨e, -⟩ | ⟨i, hi, e, hfr, -⟩
  · rw [e] at h
    omega
  · exact ⟨i, e, hi, hfr⟩

/-- The identifier a registration ends up with is not held by a listed entry:
an explicit one has passed the collision scan, and one found in the bitmap has
its bit clear while the identifiers of the listed entries are marked. -/
theorem assigned_minor_fresh {sm : State} {l : List Nat} {d : Nat}
    (hprop : ∀ c ∈ l, 0 ≤ (sm.devs c).minor ∧ (sm.devs c).minor ≠ MISC_DYNAMIC_MINOR ∧
      ((sm.devs c).minor < DYNAMIC_MINORS →
        minor_is_free sm.misc_minors (sm.devs c).minor.toNat = false))
    (hc : ∀ c ∈ l, (sm.devs c).minor ≠ (sm.devs d).minor)
    (hi : 0 ≤ assigned_minor sm d) :
    (∀ c ∈ l, (sm.devs c).minor ≠ assigned_minor sm d) ∧
      assigned_minor sm d ≠ MISC_DYNAMIC_MINOR := by
  unfold assigned_minor at hi ⊢
  by_cases hdyn : (sm.devs d).minor = MISC_DYNAMIC_MINOR
  · simp only [hdyn, if_true] at hi ⊢
    obtain ⟨i, e, hlt, hfr⟩ := find_free_minor_nonneg hi
    rw [e]
    constructor
    · intro c hcl hcm
      obtain ⟨h0, -, hu⟩ := hprop c hcl
      have hlt' : (sm.devs c).minor < DYNAMIC_MINORS := by rw [hcm]; exact_mod_cast hlt
      have := hu hlt'
      rw [hcm, Int.toNat_ofNat, hfr] at this
      cases this
    · simp only [MISC_DYNAMIC_MINOR, DYNAMIC_MINORS] at hlt ⊢
      omega
  · simp only [hdyn, if_false]
    exact ⟨hc, hdyn⟩

/-- A registration within the contract keeps the invariant. -/
theorem Inv_register {st st' : State} {l : List Nat} {d : Nat} {m dev ret : Int} {fuel : Nat}
    (hinv : st.Inv l) (hd : d ∉ l) (hm0 : 0 ≤ m) (hfuel : l.length ≤ fuel)
    (he : (Call.register d m dev).exec fuel st = .ok (ret, st')) :
    st'.Inv (if ret = 0 then d :: l else l) := by
  obtain ⟨hw, hprop, hinj⟩ := hinv
  obtain ⟨w, s1, s2, -, s4, -, -⟩ := set_minor_spec d m hw
  -- the state the call of `misc_register` starts from
  generalize hsm : st.with_registry (st.toRegistry.set_minor d m) = sm at w s1 s2 s4
  have hex : misc_register fuel d dev sm = .ok (ret, st') := by rw [← hsm]; exact he
  have hsame : ∀ c ∈ l, (sm.devs c).minor = (st.devs c).minor :=
    fun c hc => s2 c (fun e => hd (e ▸ hc))
  have hprop' : ∀ c ∈ l, 0 ≤ (sm.devs c).minor ∧ (sm.devs c).minor ≠ MISC_DYNAMIC_MINOR ∧
      ((sm.devs c).minor < DYNAMIC_MINORS →
        minor_is_free sm.misc_minors (sm.devs c).minor.toNat = false) := by
    intro c hc
    rw [hsame c hc, s4]
    exact hprop c hc
  have hinj' : ∀ a ∈ l, ∀ b ∈ l, (sm.devs a).minor = (sm.devs b).minor → a = b := by
    intro a ha b hb
    rw [hsame a ha, hsame b hb]
    exact hinj a ha b hb
  -- a rejected call leaves everything the invariant speaks about in place
  have hrej : ∀ st'' : State, misc_register fuel d dev sm = .ok (-EBUSY, st'') →
      st''.IsList l → sm.toRegistry.SameData st''.toRegistry → st''.misc_mtx = false →
      st'.Inv (if ret = 0 then d :: l else l) := by
    intro st'' es a1 a2 a3
    rw [es] at hex
    injection hex with hex
    injection hex with h1 h2
    subst h1 h2
    have : ¬ (-EBUSY = 0) := by decide
    simp only [this, if_false]
    refine ⟨⟨a1, a3⟩, ?_, ?_⟩
    · intro c hc
      rw [(a2.2 c).1, a2.1]
      exact hprop' c hc
    · intro a ha b hb
      rw [(a2.2 a).1, (a2.2 b).1]
      exact hinj' a ha b hb
  by_cases hcol : ∃ c ∈ l, (sm.devs c).minor = (sm.devs d).minor
  · obtain ⟨c, hc, hcm⟩ := hcol
    obtain ⟨st'', es, a1, a2, a3, -⟩ := misc_register_busy fuel dev w.1 w.2 hd hfuel hc hcm
    exact hrej st'' es a1 a2 a3
  have hc : ∀ c ∈ l, (sm.devs c).minor ≠ (sm.devs d).minor := fun c hc e => hcol ⟨c, hc, e⟩
  by_cases hi : 0 ≤ assigned_minor sm d
  swap
  · have hdyn : (sm.devs d).minor = MISC_DYNAMIC_MINOR := by
      by_contra hne
      apply hi
      have : assigned_minor sm d = (sm.devs d).minor := by simp [assigned_minor, hne]
      rw [this, s1]
      exact hm0
    have hfull : find_free_minor sm.misc_minors DYNAMIC_MINORS < 0 := by
      simp only [assigned_minor, hdyn, if_true] at hi
      exact not_le.1 hi
    obtain ⟨st'', es, a1, a2, a3, -⟩ :=
      misc_register_exhausted fuel dev w.1 w.2 hd hfuel hc hdyn hfull
    exact hrej st'' es a1 a2 a3
  obtain ⟨hfresh, hne255⟩ := assigned_minor_fresh hprop' hc hi
  obtain ⟨st'', es, a1, a2, a3, a4, -, -, a7, -⟩ :=
    misc_register_go fuel dev w.1 w.2 hd hfuel hc hi
  rw [es] at hex
  injection hex with hex
  injection hex with h1 h2
  subst h1 h2
  have hsame' : ∀ c ∈ l, (st''.devs c).minor = (sm.devs c).minor :=
    fun c hc => a4 c (fun e => hd (e ▸ hc))
  -- marking a bit keeps the marked bits marked
  have hmark : ∀ c ∈ l, (sm.devs c).minor < DYNAMIC_MINORS →
      minor_is_free st''.misc_minors (sm.devs c).minor.toNat = false := by
    intro c hc hlt
    have := (hprop' c hc).2.2 hlt
    rw [a2]
    split
    · rw [minor_is_free_mark, this]
      simp
    · exact this
  have hold : ∀ c ∈ l, 0 ≤ (st''.devs c).minor ∧ (st''.devs c).minor ≠ MISC_DYNAMIC_MINOR ∧
      ((st''.devs c).minor < DYNAMIC_MINORS →
        minor_is_free st''.misc_minors (st''.devs c).minor.toNat = false) := by
    intro c hc
    rw [hsame' c hc]
    exact ⟨(hprop' c hc).1, (hprop' c hc).2.1, hmark c hc⟩
  have hinj'' : ∀ a ∈ l, ∀ b ∈ l, (st''.devs a).minor = (st''.devs b).minor → a = b := by
    intro a ha b hb
    rw [hsame' a ha, hsame' b hb]
    exact hinj' a ha b hb
  by_cases herr : IS_ERR dev = true
  · have hneg := IS_ERR_neg herr
    have hne : ¬ (dev = 0) := by omega
    simp only [herr, if_true, hne, if_false] at a1 ⊢
    exact ⟨⟨a1, a7⟩, hold, hinj''⟩
  · have herr' : IS_ERR dev = false := by simpa using herr
    simp only [herr', Bool.false_eq_true, if_false, if_true] at a1 ⊢
    refine ⟨⟨a1, a7⟩, ?_, ?_⟩
    · intro c hc
      rcases List.mem_cons.1 hc with rfl | hc
      · rw [a3]
        refine ⟨hi, hne255, fun hlt => ?_⟩
        rw [a2]
        simp only [hlt, if_true]
        rw [minor_is_free_mark]
        simp
      · exact hold c hc
    · intro a ha b hb hab
      rcases List.mem_cons.1 ha with ea | ha' <;> rcases List.mem_cons.1 hb with eb | hb'
      · rw [ea, eb]
      · rw [ea, a3, hsame' b hb'] at hab
        exact absurd hab.symm (hfresh b hb')
      · rw [eb, a3, hsame' a ha'] at hab
        exact absurd hab (hfresh a ha')
      · exact hinj'' a ha' b hb' hab

/-- A deregistration within the contract keeps the invariant. -/
theorem Inv_deregister {st st' : State} {l : List Nat} {d : Nat} {ret : Int}
    (hinv : st.Inv l) (hd : d ∈ l) (he : misc_deregister d st = .ok (ret, st')) :
    ret = 0 ∧ st'.Inv (l.erase d) := by
  obtain ⟨hw, hprop, hinj⟩ := hinv
  obtain ⟨st'', es, a1, a2, a3, a4, -, -, -⟩ := misc_deregister_linked hw.1 hw.2 hd
  rw [es] at he
  injection he with he
  injection he with h1 h2
  subst h1 h2
  refine ⟨rfl, ⟨a1, a4⟩, ?_, ?_⟩
  · intro c hc
    have hcl : c ∈ l := List.mem_of_mem_erase hc
    have hcd : c ≠ d := fun e => by
      rw [e] at hc
      exact (List.Nodup.mem_erase_iff hw.1.1).1 hc |>.1 rfl
    rw [(a3 c).1]
    obtain ⟨h0, h255, hu⟩ := hprop c hcl
    refine ⟨h0, h255, fun hlt => ?_⟩
    rw [a2]
    split
    · rw [minor_is_free_clear, hu hlt]
      have hne : (st.devs c).minor ≠ (st.devs d).minor := fun e => hcd (hinj c hcl d hd e)
      have h0d := (hprop d hd).1
      have : (st.devs c).minor.toNat ≠ (st.devs d).minor.toNat := by omega
      simp [this]
    · exact hu hlt
  · intro a ha b hb
    rw [(a3 a).1, (a3 b).1]
    exact hinj a (List.mem_of_mem_erase ha) b (List.mem_of_mem_erase hb)

theorem init_inv (devs : Nat → miscdevice) (rc : Nat → Int) : (State.init devs rc).Inv [] :=
  ⟨init_wf devs rc, by simp, by simp⟩

theorem Reachable.inv {st : State} {l : List Nat} (h : Reachable st l) : st.Inv l := by
  induction h with
  | init devs rc => exact init_inv devs rc
  | register fuel d m dev ret _ hd hm hf he ih => exact Inv_register ih hd hm hf he
  | deregister fuel d ret _ hd he ih => exact (Inv_deregister ih hd he).2


/-- Counterexample to C4 as stated (any sequence of calls): entries 0 and 1
register with the identifiers 2 and 1 and entry 2 dynamically (63).  Entry 2 is
registered again while linked: the call returns `-EBUSY`, but
`INIT_LIST_HEAD` has made its node an empty list inside the chain.
Deregistering entry 1, then entry 2 (which clears bit 63 although the head
still points to entry 2), registering entry 2 again (`-EBUSY`) and
deregistering entry 0 leaves a well-formed list that holds entry 2 alone with
bit 63 clear; the dynamic registration of entry 3 is then given 63 as well. -/
theorem C4_counterexample_double_register :
    ∃ rets st, run 4 misuse_calls (State.init witness_devs witness_refcount) = .ok (rets, st) ∧
      rets = [0, 0, 0, -EBUSY, 0, 0, -EBUSY, 0, 0] ∧
      st.Wf [3, 2] ∧ (st.devs 3).minor = 63 ∧ (st.devs 2).minor = 63 :=
  ⟨_, _, rfl, by decide, by decide, by decide, by decide⟩

/-- C4 (amended). In every state reached from the empty registry by calls that
keep to the contract (`misc_register` only on an entry that is not linked,
`misc_deregister` only on a linked entry; identifiers not negative, device
creation free to succeed or fail), the list is well formed, no two linked
entries have the same identifier, and the identifier that the search through
the bitmap would hand out to a dynamic registration is not held by any linked
entry. -/
theorem C4_unique_identifiers_within_contract (st : State) (l : List Nat)
    (h : Reachable st l) :
    st.Wf l ∧ (∀ a ∈ l, ∀ b ∈ l, (st.devs a).minor = (st.devs b).minor → a = b) ∧
      ∀ c ∈ l, (st.devs c).minor ≠ find_free_minor st.misc_minors DYNAMIC_MINORS := by
  obtain ⟨hw, hprop, hinj⟩ := h.inv
  refine ⟨hw, hinj, fun c hc e => ?_⟩
  obtain ⟨h0, -, hu⟩ := hprop c hc
  obtain ⟨i, ei, hlt, hfr⟩ := find_free_minor_nonneg (e ▸ h0)
  rw [ei] at e
  have hlt' : (st.devs c).minor < DYNAMIC_MINORS := by rw [e]; exact_mod_cast hlt
  have := hu hlt'
  rw [e, Int.toNat_ofNat, hfr] at this
  cases this

/-- Witness of C4 (amended): entry 0 registers with the identifier 62, then
the entries 1 and 2 register dynamically; they are assigned 63 and 61, the
search stepping over the identifier 62 that entry 0 holds, and the identifier
a further dynamic registration would get, 60, is held by none of them. -/
theorem C4_unique_identifiers_within_contract_witness :
    ∃ st, Reachable st [2, 1, 0] ∧
      (st.devs 0).minor = 62 ∧ (st.devs 1).minor = 63 ∧ (st.devs 2).minor = 61 ∧
      find_free_minor st.misc_minors DYNAMIC_MINORS = 60 ∧
      st.Wf [2, 1, 0] ∧
      (∀ a ∈ [2, 1, 0], ∀ b ∈ [2, 1, 0], (st.devs a).minor = (st.devs b).minor → a = b) ∧
      ∀ c ∈ [2, 1, 0], (st.devs c).minor ≠ find_free_minor st.misc_minors DYNAMIC_MINORS :=
  have hr0 : Reachable _ [0] :=
    Reachable.register 3 0 62 1 0 (Reachable.init witness_devs witness_refcount)
      (by decide) (by decide) (by decide) rfl
  have hr1 : Reachable _ [1, 0] :=
    Reachable.register 3 1 MISC_DYNAMIC_MINOR 1 0 hr0 (by decide) (by decide) (by decide) rfl
  have hr2 : Reachable _ [2, 1, 0] :=
    Reachable.register 3 2 MISC_DYNAMIC_MINOR 1 0 hr1 (by decide) (by decide) (by decide) rfl
  ⟨_, hr2, rfl, rfl, rfl, rfl, C4_unique_identifiers_within_contract _ [2, 1, 0] hr2⟩

/-! ## Filling the pool of dynamic identifiers -/

theorem run_append (fuel : Nat) : ∀ (cs1 cs2 : List Call) (st : State) (r1 : List Int)
    (s1 : State), run fuel cs1 st = .ok (r1, s1) →
    run fuel (cs1 ++ cs2) st = (run fuel cs2 s1).map (fun p => (r1 ++ p.1, p.2))
  | [], cs2, st, r1, s1, h => by
    simp only [run] at h
    injection h with h
    injection h with h1 h2
    subst h1 h2
    cases hr : run fuel cs2 st <;> simp [hr, Except.map]
  | c :: cs1, cs2, st, r1, s1, h => by
    simp only [run, bind, Except.bind] at h
    simp only [List.cons_append, run, bind, Except.bind]
    cases hc : c.exec fuel st with
    | error e => simp [hc] at h
    | ok p =>
      obtain ⟨ret, st1⟩ := p
      simp only [hc] at h ⊢
      cases hr : run fuel cs1 st1 with
      | error e => simp [hr] at h
      | ok q =>
        obtain ⟨rets, st2⟩ := q
        simp only [hr, pure, Except.pure] at h
        injection h with h
        injection h with h1 h2
        subst h1 h2
        simp only [List.append_eq]
        rw [run_append fuel cs1 cs2 st1 rets st2 hr]
        cases hr2 : run fuel cs2 st2 <;> simp [Except.map, pure, Except.pure]

/-- The search through a bitmap whose free identifiers are exactly those below
`n`. -/
theorem find_free_minor_of_prefix {bm : Nat → Nat} {n : Nat} (hn : n ≤ DYNAMIC_MINORS)
    (h : ∀ i, i < DYNAMIC_MINORS → minor_is_free bm i = decide (i < n)) :
    find_free_minor bm DYNAMIC_MINORS = (n : Int) - 1 := by
  rcases find_free_minor_spec bm DYNAMIC_MINORS with ⟨e, hall⟩ | ⟨i, hi, e, hfr, hall⟩
  · rw [e]
    rcases Nat.eq_zero_or_pos n with h0 | hpos
    · simp [h0]
    · have := hall (n - 1) (by omega)
      rw [h (n - 1) (by omega)] at this
      simp at this
      omega
  · rw [e]
    rw [h i hi] at hfr
    have hin : i < n := by simpa using hfr
    by_cases hlt : i < n - 1
    · have := hall (n - 1) hlt (by omega)
      rw [h (n - 1) (by omega)] at this
      simp at this
      omega
    · have : i = n - 1 := by omega
      omega

/-- After `k ≤ DYNAMIC_MINORS` dynamic registrations from the empty registry
the `j`-th entry holds the identifier `DYNAMIC_MINORS - 1 - j` and the free
identifiers are those below `DYNAMIC_MINORS - k`. -/
theorem run_dynamic_calls (devs : Nat → miscdevice) (rc : Nat → Int) (e : Nat → Nat)
    (dev : Nat → Int) (he : Function.Injective e) (hdev : ∀ j, IS_ERR (dev j) = false)
    (fuel : Nat) (hf : DYNAMIC_MINORS ≤ fuel) :
    ∀ k, k ≤ DYNAMIC_MINORS →
      ∃ st, run fuel (dynamic_calls e dev k) (State.init devs rc) =
          .ok (List.replicate k 0, st) ∧
        st.Wf ((List.range k).reverse.map e) ∧
        (∀ j, j < k → (st.devs (e j)).minor = (DYNAMIC_MINORS : Int) - 1 - j) ∧
        (∀ i, i < DYNAMIC_MINORS →
          minor_is_free st.misc_minors i = decide (i < DYNAMIC_MINORS - k)) := by
  intro k
  induction k with
  | zero =>
    intro _
    refine ⟨State.init devs rc, rfl, init_wf devs rc, fun j hj => absurd hj (Nat.not_lt_zero j),
      fun i hi => ?_⟩
    simp [State.init, minor_is_free, hi]
  | succ k ih =>
    intro hk
    obtain ⟨st, er, hw, hmin, hbm⟩ := ih (by omega)
    -- the next call
    obtain ⟨w, s1, s2, -, s4, -, -⟩ := set_minor_spec (e k) MISC_DYNAMIC_MINOR hw
    generalize hsm : st.with_registry (st.toRegistry.set_minor (e k) MISC_DYNAMIC_MINOR) = sm
      at w s1 s2 s4
    have hd : e k ∉ (List.range k).reverse.map e := by
      intro hm
      obtain ⟨j, hj, hje⟩ := List.mem_map.1 hm
      have : j = k := he hje
      simp at hj
      omega
    have hsame : ∀ j, j < k → (sm.devs (e j)).minor = (DYNAMIC_MINORS : Int) - 1 - j := by
      intro j hj
      rw [s2 (e j) (fun c => by have := he c; omega)]
      exact hmin j hj
    have hc : ∀ c ∈ (List.range k).reverse.map e, (sm.devs c).minor ≠ (sm.devs (e k)).minor := by
      intro c hcm
      obtain ⟨j, hj, rfl⟩ := List.mem_map.1 hcm
      have hj' : j < k := by simpa using hj
      rw [hsame j hj', s1]
      simp only [MISC_DYNAMIC_MINOR, DYNAMIC_MINORS]
      omega
    have hfind : find_free_minor sm.misc_minors DYNAMIC_MINORS =
        ((DYNAMIC_MINORS - k : Nat) : Int) - 1 := by
      rw [s4]
      exact find_free_minor_of_prefix (Nat.sub_le _ _) hbm
    have ha : assigned_minor sm (e k) = (DYNAMIC_MINORS : Int) - 1 - k := by
      simp only [assigned_minor, s1, if_true, hfind]
      omega
    have hlen : ((List.range k).reverse.map e).length ≤ fuel := by
      simp
      omega
    obtain ⟨st', es, a1, a2, a3, a4, -, -, a7, -⟩ :=
      misc_register_go fuel (dev k) w.1 w.2 hd hlen hc (by rw [ha]; simp only [DYNAMIC_MINORS] at hk ⊢; omega)
    simp only [hdev k, Bool.false_eq_true, if_false] at es a1
    rw [ha] at a2 a3
    have hrun1 : run fuel [Call.register (e k) MISC_DYNAMIC_MINOR (dev k)] st = .ok ([0], st') := by
      simp only [run, Call.exec, hsm, es, bind, Except.bind]
      rfl
    refine ⟨st', ?_, ⟨?_, a7⟩, ?_, ?_⟩
    · have : dynamic_calls e dev (k + 1) =
          dynamic_calls e dev k ++ [Call.register (e k) MISC_DYNAMIC_MINOR (dev k)] := by
        simp [dynamic_calls, List.range_succ]
      rw [this, run_append fuel _ _ _ _ _ er, hrun1]
      simp [Except.map, List.replicate_succ']
    · have : (List.range (k + 1)).reverse.map e = e k :: (List.range k).reverse.map e := by
        simp [List.range_succ]
      rw [this]
      exact a1
    · intro j hj
      rcases Nat.lt_succ_iff_lt_or_eq.1 hj with hlt | rfl
      · rw [a4 (e j) (fun c => by have := he c; omega)]
        exact hsame j hlt
      · exact a3
    · intro i hi
      rw [a2]
      have hlt : (DYNAMIC_MINORS : Int) - 1 - k < DYNAMIC_MINORS := by omega
      have htn : ((DYNAMIC_MINORS : Int) - 1 - k).toNat = DYNAMIC_MINORS - 1 - k := by
        simp only [DYNAMIC_MINORS] at hk ⊢
        omega
      simp only [hlt, if_true, htn]
      rw [minor_is_free_mark, s4, hbm i hi]
      rw [Bool.eq_iff_iff]
      simp only [Bool.and_eq_true, decide_eq_true_eq]
      simp only [DYNAMIC_MINORS] at hk hi ⊢
      omega


/-- C5. From the empty registry, `DYNAMIC_MINORS` consecutive dynamic
registrations of distinct entries, device creation succeeding, all return 0;
the `j`-th entry receives the identifier `DYNAMIC_MINORS - 1 - j`, so the
identifiers are pairwise distinct and cover `[0, DYNAMIC_MINORS)`.  One further
dynamic registration returns `-EBUSY` and leaves the list and the bitmap as
they were. -/
theorem C5_dynamic_pool_exhaustion (devs : Nat → miscdevice) (rc : Nat → Int) (e : Nat → Nat)
    (dev : Nat → Int) (he : Function.Injective e) (hdev : ∀ j, IS_ERR (dev j) = false)
    (fuel : Nat) (hf : DYNAMIC_MINORS ≤ fuel) :
    ∃ st l, run fuel (dynamic_calls e dev DYNAMIC_MINORS) (State.init devs rc) =
        .ok (List.replicate DYNAMIC_MINORS 0, st) ∧ st.Wf l ∧
      (∀ j, j < DYNAMIC_MINORS → (st.devs (e j)).minor = (DYNAMIC_MINORS : Int) - 1 - j) ∧
      (∀ j j', j < DYNAMIC_MINORS → j' < DYNAMIC_MINORS →
        (st.devs (e j)).minor = (st.devs (e j')).minor → j = j') ∧
      (∀ i : Nat, i < DYNAMIC_MINORS →
        ∃ j, j < DYNAMIC_MINORS ∧ (st.devs (e j)).minor = (i : Int)) ∧
      ∃ st', (Call.register (e DYNAMIC_MINORS) MISC_DYNAMIC_MINOR (dev DYNAMIC_MINORS)).exec
          fuel st = .ok (-EBUSY, st') ∧ st'.Wf l ∧ st'.misc_minors = st.misc_minors := by
  obtain ⟨st, er, hw, hmin, hbm⟩ :=
    run_dynamic_calls devs rc e dev he hdev fuel hf DYNAMIC_MINORS (Nat.le_refl _)
  refine ⟨st, _, er, hw, hmin, ?_, ?_, ?_⟩
  · intro j j' hj hj' hjj
    rw [hmin j hj, hmin j' hj'] at hjj
    omega
  · intro i hi
    refine ⟨DYNAMIC_MINORS - 1 - i, by omega, ?_⟩
    rw [hmin _ (by omega)]
    omega
  · obtain ⟨w, s1, s2, -, s4, -, -⟩ := set_minor_spec (e DYNAMIC_MINORS) MISC_DYNAMIC_MINOR hw
    generalize hsm : st.with_registry
      (st.toRegistry.set_minor (e DYNAMIC_MINORS) MISC_DYNAMIC_MINOR) = sm at w s1 s2 s4
    have hd : e DYNAMIC_MINORS ∉ (List.range DYNAMIC_MINORS).reverse.map e := by
      intro hm
      obtain ⟨j, hj, hje⟩ := List.mem_map.1 hm
      have : j = DYNAMIC_MINORS := he hje
      simp at hj
      omega
    have hc : ∀ c ∈ (List.range DYNAMIC_MINORS).reverse.map e,
        (sm.devs c).minor ≠ (sm.devs (e DYNAMIC_MINORS)).minor := by
      intro c hcm
      obtain ⟨j, hj, rfl⟩ := List.mem_map.1 hcm
      have hj' : j < DYNAMIC_MINORS := by simpa using hj
      rw [s2 (e j) (fun c => by have := he c; omega), hmin j hj', s1]
      simp only [MISC_DYNAMIC_MINOR, DYNAMIC_MINORS]
      omega
    have hfull : find_free_minor sm.misc_minors DYNAMIC_MINORS < 0 := by
      rw [s4, find_free_minor_of_prefix (Nat.zero_le _) (by simpa using hbm)]
      decide
    have hlen : ((List.range DYNAMIC_MINORS).reverse.map e).length ≤ fuel := by
      simpa using hf
    obtain ⟨st', es, a1, a2, a3, -⟩ :=
      misc_register_exhausted fuel (dev DYNAMIC_MINORS) w.1 w.2 hd hlen hc s1 hfull
    refine ⟨st', ?_, ⟨a1, a3⟩, a2.1.trans s4⟩
    simp only [Call.exec, hsm]
    exact es

/-- Witness of C5: the entries 0, 1, 2, ... register in this order. -/
theorem C5_dynamic_pool_exhaustion_witness :
    ∃ st l, run 64 (dynamic_calls id (fun _ => 1) DYNAMIC_MINORS)
        (State.init witness_devs witness_refcount) =
        .ok (List.replicate DYNAMIC_MINORS 0, st) ∧ st.Wf l ∧
      (∀ j, j < DYNAMIC_MINORS → (st.devs (id j)).minor = (DYNAMIC_MINORS : Int) - 1 - j) ∧
      (∀ j j', j < DYNAMIC_MINORS → j' < DYNAMIC_MINORS →
        (st.devs (id j)).minor = (st.devs (id j')).minor → j = j') ∧
      (∀ i : Nat, i < DYNAMIC_MINORS →
        ∃ j, j < DYNAMIC_MINORS ∧ (st.devs (id j)).minor = (i : Int)) ∧
      ∃ st', (Call.register (id DYNAMIC_MINORS) MISC_DYNAMIC_MINOR 1).exec
          64 st = .ok (-EBUSY, st') ∧ st'.Wf l ∧ st'.misc_minors = st.misc_minors :=
  C5_dynamic_pool_exhaustion witness_devs witness_refcount id (fun _ => 1)
    Function.injective_id (fun _ => rfl) 64 (by decide)

/-! ## Release and reuse of identifiers, the scenario, deregistration -/

set_option maxRecDepth 100000 in
/-- Counterexample to C6 as stated (any identifier from 0 on): 64 dynamic
registrations fill the pool, the last entry (63) receives the identifier 0.
Deregistering it returns 0 but leaves bit 0 marked, because the guard of
`misc_deregister` is `i > 0`; the following dynamic registration finds no free
identifier and returns `-EBUSY`. -/
theorem C6_counterexample_identifier_zero :
    ∃ rets st, run 64 (dynamic_calls id (fun _ => 1) 64 ++
        [.deregister 63, .register 64 MISC_DYNAMIC_MINOR 1])
        (State.init witness_devs witness_refcount) = .ok (rets, st) ∧
      rets = List.replicate 64 0 ++ [0, -EBUSY] ∧
      (st.devs 63).minor = 0 ∧ minor_is_free st.misc_minors 0 = false :=
  ⟨_, _, rfl, by decide, by decide, by decide⟩

/-- The states that a series of dynamic registrations from the empty registry
passes through are reached within the contract. -/
theorem reachable_dynamic_calls (devs : Nat → miscdevice) (rc : Nat → Int) (e : Nat → Nat)
    (dev : Nat → Int) (he : Function.Injective e) (hdev : ∀ j, IS_ERR (dev j) = false)
    (fuel : Nat) (hf : DYNAMIC_MINORS ≤ fuel) :
    ∀ k, k ≤ DYNAMIC_MINORS → ∀ st,
      run fuel (dynamic_calls e dev k) (State.init devs rc) = .ok (List.replicate k 0, st) →
      Reachable st ((List.range k).reverse.map e) := by
  intro k
  induction k with
  | zero =>
    intro _ st h
    simp only [dynamic_calls, List.range_zero, List.map_nil, run] at h
    injection h with h
    injection h with _ h
    subst h
    exact Reachable.init devs rc
  | succ k ih =>
    intro hk st h
    obtain ⟨sk, er, -, -, -⟩ := run_dynamic_calls devs rc e dev he hdev fuel hf k (by omega)
    have hr := ih (by omega) sk er
    have hd : e k ∉ (List.range k).reverse.map e := by
      intro hm
      obtain ⟨j, hj, hje⟩ := List.mem_map.1 hm
      have : j = k := he hje
      simp at hj
      omega
    have hlen : ((List.range k).reverse.map e).length ≤ fuel := by
      simp
      omega
    have hcalls : dynamic_calls e dev (k + 1) =
        dynamic_calls e dev k ++ [Call.register (e k) MISC_DYNAMIC_MINOR (dev k)] := by
      simp [dynamic_calls, List.range_succ]
    rw [hcalls, run_append fuel _ _ _ _ _ er] at h
    cases hc : (Call.register (e k) MISC_DYNAMIC_MINOR (dev k)).exec fuel sk with
    | error x => simp [run, hc, bind, Except.bind, Except.map] at h
    | ok p =>
      obtain ⟨ret, s'⟩ := p
      simp only [run, hc, bind, Except.bind, pure, Except.pure, Except.map] at h
      injection h with h
      injection h with h1 h2
      subst h2
      have hret : ret = 0 := by
        rw [List.replicate_succ'] at h1
        have := List.append_cancel_left h1
        injection this
      subst hret
      have hlist : (List.range (k + 1)).reverse.map e = e k :: (List.range k).reverse.map e := by
        simp [List.range_succ]
      rw [hlist]
      exact Reachable.register fuel (e k) MISC_DYNAMIC_MINOR (dev k) 0 hr hd (by decide) hlen hc

/-- C6 (amended). In a state reached within the contract, deregistering a
linked entry whose identifier `i` satisfies `0 < i < DYNAMIC_MINORS` returns 0,
leaves bit `i` clear and every other bit as it was; and if every other
identifier of the pool is marked used, the next dynamic registration of an
unlinked entry, device creation succeeding, returns 0 and is assigned `i`. -/
theorem C6_release_makes_identifier_reusable (st : State) (l : List Nat) (d : Nat)
    (h : Reachable st l) (hd : d ∈ l) (hpos : 0 < (st.devs d).minor)
    (hlt : (st.devs d).minor < DYNAMIC_MINORS) :
    ∃ st', misc_deregister d st = .ok (0, st') ∧
      minor_is_free st'.misc_minors (st.devs d).minor.toNat = true ∧
      (∀ j, j ≠ (st.devs d).minor.toNat →
        minor_is_free st'.misc_minors j = minor_is_free st.misc_minors j) ∧
      ∀ (d' : Nat) (dev : Int) (fuel : Nat), d' ∉ l.erase d → IS_ERR dev = false →
        (l.erase d).length ≤ fuel →
        (∀ j, j < DYNAMIC_MINORS → j ≠ (st.devs d).minor.toNat →
          minor_is_free st'.misc_minors j = false) →
        ∃ st'', (Call.register d' MISC_DYNAMIC_MINOR dev).exec fuel st' = .ok (0, st'') ∧
          (st''.devs d').minor = (st.devs d).minor := by
  have hinv := h.inv
  obtain ⟨st', es, a1, a2, a3, a4, -⟩ := misc_deregister_linked hinv.1.1 hinv.1.2 hd
  have hinv' : st'.Inv (l.erase d) := (Inv_deregister hinv hd es).2
  have hfree : minor_is_free st'.misc_minors (st.devs d).minor.toNat = true := by
    rw [a2]
    simp only [hlt, hpos, gt_iff_lt, and_self, if_true]
    rw [minor_is_free_clear]
    simp
  have hframe : ∀ j, j ≠ (st.devs d).minor.toNat →
      minor_is_free st'.misc_minors j = minor_is_free st.misc_minors j := by
    intro j hj
    rw [a2]
    simp only [hlt, hpos, gt_iff_lt, and_self, if_true]
    rw [minor_is_free_clear]
    simp [hj]
  refine ⟨st', es, hfree, hframe, ?_⟩
  intro d' dev fuel hd' hdev hfuel hothers
  obtain ⟨w, s1, s2, -, s4, -, -⟩ := set_minor_spec d' MISC_DYNAMIC_MINOR hinv'.1
  generalize hsm : st'.with_registry (st'.toRegistry.set_minor d' MISC_DYNAMIC_MINOR) = sm
    at w s1 s2 s4
  have hc : ∀ c ∈ l.erase d, (sm.devs c).minor ≠ (sm.devs d').minor := by
    intro c hc
    rw [s1, s2 c (fun e => hd' (e ▸ hc))]
    exact (hinv'.2.1 c hc).2.1
  have hin : (st.devs d).minor.toNat < DYNAMIC_MINORS := by omega
  have hfind : find_free_minor sm.misc_minors DYNAMIC_MINORS = (st.devs d).minor := by
    rw [s4]
    rcases find_free_minor_spec st'.misc_minors DYNAMIC_MINORS with ⟨-, hall⟩ | ⟨i, hi, e, hfr, -⟩
    · rw [hall _ hin] at hfree
      cases hfree
    · rw [e]
      by_cases hie : i = (st.devs d).minor.toNat
      · omega
      · rw [hothers i hi hie] at hfr
        cases hfr
  have ha : assigned_minor sm d' = (st.devs d).minor := by
    simp only [assigned_minor, s1, if_true, hfind]
  obtain ⟨st'', es', -, -, b3, -⟩ :=
    misc_register_go fuel dev w.1 w.2 hd' hfuel hc (by rw [ha]; omega)
  simp only [hdev, Bool.false_eq_true, if_false] at es'
  refine ⟨st'', ?_, b3.trans ha⟩
  simp only [Call.exec, hsm]
  exact es'

/-- Witness of C6 (amended): 64 dynamic registrations of the entries 0, 1, ...,
63 fill the pool; entry 58 holds the identifier 5.  After its deregistration
bit 5 is the only clear bit, and the dynamic registration of entry 64 returns 0
and is assigned 5. -/
theorem C6_release_makes_identifier_reusable_witness :
    ∃ st st' st'', run 64 (dynamic_calls id (fun _ => 1) 64)
        (State.init witness_devs witness_refcount) = .ok (List.replicate 64 0, st) ∧
      Reachable st ((List.range 64).reverse.map id) ∧ (st.devs 58).minor = 5 ∧
      (∀ j, j < DYNAMIC_MINORS → minor_is_free st.misc_minors j = false) ∧
      misc_deregister 58 st = .ok (0, st') ∧ minor_is_free st'.misc_minors 5 = true ∧
      (∀ j, j < DYNAMIC_MINORS → j ≠ 5 → minor_is_free st'.misc_minors j = false) ∧
      (Call.register 64 MISC_DYNAMIC_MINOR 1).exec 64 st' = .ok (0, st'') ∧
      (st''.devs 64).minor = 5 := by
  obtain ⟨st, er, -, hmin, hbm⟩ := run_dynamic_calls witness_devs witness_refcount id
    (fun _ => 1) Function.injective_id (fun _ => rfl) 64 (by decide) 64 (by decide)
  have hr := reachable_dynamic_calls witness_devs witness_refcount id (fun _ => 1)
    Function.injective_id (fun _ => rfl) 64 (by decide) 64 (by decide) st er
  have h5 : (st.devs 58).minor = 5 := by
    have := hmin 58 (by decide)
    simpa [DYNAMIC_MINORS] using this
  have hfull : ∀ j, j < DYNAMIC_MINORS → minor_is_free st.misc_minors j = false := by
    intro j hj
    rw [hbm j hj]
    simp [DYNAMIC_MINORS]
  obtain ⟨st', ed, hfree, hframe, hreuse⟩ :=
    C6_release_makes_identifier_reusable st _ 58 hr (by decide) (by rw [h5]; decide)
      (by rw [h5]; decide)
  rw [h5] at hfree hframe hreuse
  have hothers : ∀ j, j < DYNAMIC_MINORS → j ≠ 5 → minor_is_free st'.misc_minors j = false :=
    fun j hj hne => (hframe j hne).trans (hfull j hj)
  obtain ⟨st'', e2, hm⟩ := hreuse 64 1 64 (by decide) rfl (by decide) hothers
  exact ⟨st, st', st'', er, hr, h5, hfull, ed, hfree, hothers, e2, hm⟩

/-- C7. The scenario with the pool of `DYNAMIC_MINORS = 64` identifiers, from
the empty registry with device creation succeeding: A (entry 0) registers with
the explicit identifier 2, B (entry 1) and C (entry 2) register dynamically and
receive 63 and 62; B is deregistered; D (entry 3) registers dynamically and
receives 63 again.  All five calls return 0, and the scan then finds A for 2,
C for 62, D for 63 and nothing for 3. -/
theorem C7_concrete_scenario :
    ∃ rets1 st1 rets2 st2,
      run 3 [.register 0 2 1, .register 1 MISC_DYNAMIC_MINOR 1,
          .register 2 MISC_DYNAMIC_MINOR 1]
        (State.init witness_devs witness_refcount) = .ok (rets1, st1) ∧
      rets1 = [0, 0, 0] ∧
      (st1.devs 1).minor = (DYNAMIC_MINORS : Int) - 1 ∧
      (st1.devs 2).minor = (DYNAMIC_MINORS : Int) - 2 ∧
      run 3 [.deregister 1, .register 3 MISC_DYNAMIC_MINOR 1] st1 = .ok (rets2, st2) ∧
      rets2 = [0, 0] ∧
      (st2.devs 3).minor = (DYNAMIC_MINORS : Int) - 1 ∧
      list_find_minor st2.toRegistry 2 3 st2.misc_list.next = .ok (some 0) ∧
      list_find_minor st2.toRegistry ((DYNAMIC_MINORS : Int) - 2) 3 st2.misc_list.next =
        .ok (some 2) ∧
      list_find_minor st2.toRegistry ((DYNAMIC_MINORS : Int) - 1) 3 st2.misc_list.next =
        .ok (some 3) ∧
      list_find_minor st2.toRegistry 3 3 st2.misc_list.next = .ok none :=
  ⟨_, _, _, _, rfl, by decide, by decide, by decide, rfl, by decide, by decide, rfl, rfl, rfl,
    rfl⟩

/-- C8, evaluated at the failing inputs. Entry 0 registers with the identifier
5 and is deregistered; both calls return 0 and the list is empty again.  The
repeated `misc_deregister` of entry 0 does not return `-EINVAL`: `list_del` has
not left an empty list in the node, the test `list_empty` of line 250 is false,
and the second `list_del` dereferences what the node holds (the poison
values).  Nor does `misc_deregister` of entry 1, which was never registered and
whose node holds `NULL` pointers as in a zero-initialised `struct miscdevice`,
return `-EINVAL`: `list_empty` is false for it as well and `list_del`
dereferences `NULL`. -/
theorem C8_unlinked_deregister_faults :
    ∃ st, run 1 [.register 0 5 1, .deregister 0]
        (State.init witness_devs witness_refcount) = .ok ([0, 0], st) ∧ st.Wf [] ∧
      list_empty st.toRegistry (.node 0) = .ok false ∧
      misc_deregister 0 st = .error .bad_pointer ∧
      (st.devs 1).list = { next := .null, prev := .null } ∧
      list_empty st.toRegistry (.node 1) = .ok false ∧
      misc_deregister 1 st = .error .bad_pointer :=
  ⟨_, rfl, by decide, rfl, rfl, rfl, rfl, rfl⟩

/-- What `misc_deregister` does on a well-formed registry for an entry that is
linked or whose node is an empty list (the state in which `misc_register`
leaves the node of an entry it did not link): it returns `-EINVAL` exactly when
the entry is not linked, and then the whole state is unchanged; when the entry
is linked it returns 0, the list holds the other entries in the same order, the
entry is not among them, and its node holds the poison value, not an empty
list. -/
theorem misc_deregister_cases (st : State) (l : List Nat) (d : Nat) (hw : st.Wf l)
    (hd : d ∈ l ∨ st.next (.node d) = .node d) :
    ∃ ret st', misc_deregister d st = .ok (ret, st') ∧
      (ret = -EINVAL ↔ d ∉ l) ∧ (d ∉ l → st' = st) ∧
      (d ∈ l → ret = 0 ∧ st'.Wf (l.erase d) ∧ d ∉ l.erase d ∧
        st'.next (.node d) = .poison1) := by
  by_cases hm : d ∈ l
  · obtain ⟨st', es, a1, -, -, a4, -, -, a7⟩ := misc_deregister_linked hw.1 hw.2 hm
    refine ⟨0, st', es, ?_, fun h => absurd hm h, fun _ => ⟨rfl, ⟨a1, a4⟩, ?_, a7⟩⟩
    · constructor
      · intro h
        exact absurd h (by decide)
      · intro h
        exact absurd hm h
    · intro h
      exact ((List.Nodup.mem_erase_iff hw.1.1).1 h).1 rfl
  · have hs : st.next (.node d) = .node d := hd.resolve_left hm
    exact ⟨-EINVAL, st, misc_deregister_unlinked hs, ⟨fun _ => hm, fun _ => rfl⟩,
      fun _ => rfl, fun h => absurd h hm⟩

/-- C9. When `misc_register` of an unlisted entry passes the collision scan and
obtains an identifier that is not negative (the requested one, or the one found
in the pool for the dynamic sentinel) and `device_create` returns an error
pointer, the call returns that error unchanged, the list holds the same
entries as before, the entry's node is an empty list (it is not linked), and
the identifier stays marked used in the bitmap when it is below
`DYNAMIC_MINORS`. -/
theorem C9_device_create_failure (st : State) (l : List Nat) (d : Nat) (device_create : Int)
    (fuel : Nat) (hw : st.Wf l) (hf : l.length ≤ fuel) (hd : d ∉ l)
    (hc : ∀ c ∈ l, (st.devs c).minor ≠ (st.devs d).minor)
    (hi : 0 ≤ assigned_minor st d) (he : IS_ERR device_create = true) :
    ∃ st', misc_register fuel d device_create st = .ok (PTR_ERR device_create, st') ∧
      PTR_ERR device_create = device_create ∧
      st'.Wf l ∧ list_empty st'.toRegistry (.node d) = .ok true ∧
      (st'.devs d).minor = assigned_minor st d ∧
      ((st'.devs d).minor < DYNAMIC_MINORS →
        minor_is_free st'.misc_minors (st'.devs d).minor.toNat = false) ∧
      st'.trace = st.trace ++
        [.mutex_lock, .device_create (assigned_minor st d), .mutex_unlock] := by
  obtain ⟨st', es, a1, a2, a3, -, -, -, a7, -, a9, a10⟩ :=
    misc_register_go fuel device_create hw.1 hw.2 hd hf hc hi
  simp only [he, if_true] at es a1
  refine ⟨st', es, rfl, ⟨a1, a7⟩, ?_, a3, ?_, a9⟩
  · have : (st'.devs d).list.next = .node d := a10 he
    simp [list_empty, Registry.get, this, bind, Except.bind, pure, Except.pure]
  · intro hlt
    rw [a3] at hlt ⊢
    rw [a2]
    simp only [hlt, if_true]
    rw [minor_is_free_mark]
    simp

/-- Witness of C9: in `witness_one` entry 3 asks for the identifier 7 and
`device_create` fails with -12. -/
theorem C9_device_create_failure_witness :
    ∃ st', misc_register 1 3 (-12) witness_one = .ok (PTR_ERR (-12), st') ∧
      PTR_ERR (-12) = -12 ∧
      st'.Wf [0] ∧ list_empty st'.toRegistry (.node 3) = .ok true ∧
      (st'.devs 3).minor = assigned_minor witness_one 3 ∧
      ((st'.devs 3).minor < DYNAMIC_MINORS →
        minor_is_free st'.misc_minors (st'.devs 3).minor.toNat = false) ∧
      st'.trace = witness_one.trace ++
        [.mutex_lock, .device_create (assigned_minor witness_one 3), .mutex_unlock] :=
  C9_device_create_failure witness_one [0] 3 (-12) 1 (by decide) (by decide) (by decide)
    (by decide) (by decide) (by decide)

/-! ## Dispatch: `misc_open` -/

/-- Lines 147-161 with the mutex held: the call returns with the mutex free,
the registry untouched, and the events of the hook, the unlock and
`unlock_kernel` in the trace; without a hook, or with a hook that returns 0,
the value is 0 and the session is bound to the new table. -/
theorem misc_open_bind_spec (tables : Nat → file_operations) (t : Nat) (f : file) {st : State}
    (hm : st.misc_mtx = true) :
    ∃ ret f' st', misc_open_bind tables t f st = .ok (ret, f', st') ∧
      st'.toRegistry = st.toRegistry ∧ st'.misc_mtx = false ∧
      st'.trace = st.trace ++ hook_events tables t ++ [.mutex_unlock, .unlock_kernel] ∧
      (((tables t).open_hook = none ∨ (tables t).open_hook = some 0) →
        ret = 0 ∧ f' = { f_op := some t }) := by
  unfold misc_open_bind hook_events
  cases hh : (tables t).open_hook with
  | none =>
    have hm' : (fops_put st f.f_op).misc_mtx = true := by
      cases f.f_op <;> simpa [fops_put] using hm
    obtain ⟨st2, hu, c1, c2, c3, c4⟩ := mutex_unlock_spec hm'
    refine ⟨0, _, st2.log .unlock_kernel, by simp only [hu, bind, Except.bind]; rfl, ?_, c2, ?_,
      fun _ => ⟨rfl, rfl⟩⟩
    · show st2.toRegistry = _
      rw [c1]
      cases f.f_op <;> rfl
    · show st2.trace ++ [Event.unlock_kernel] = _
      rw [c4]
      cases f.f_op <;> simp [fops_put]
  | some e =>
    by_cases he : e = 0
    · have hm' : (fops_put (st.log (.open_hook t)) f.f_op).misc_mtx = true := by
        cases f.f_op <;> simpa [fops_put, State.log] using hm
      obtain ⟨st2, hu, c1, c2, c3, c4⟩ := mutex_unlock_spec hm'
      refine ⟨e, _, st2.log .unlock_kernel, ?_, ?_, c2, ?_, fun _ => ⟨he, rfl⟩⟩
      · simp only [he, ne_eq, not_true_eq_false, if_false, hu, bind, Except.bind]
        rfl
      · show st2.toRegistry = _
        rw [c1]
        cases f.f_op <;> rfl
      · show st2.trace ++ [Event.unlock_kernel] = _
        rw [c4]
        cases f.f_op <;> simp [fops_put, State.log]
    · have hm' : (fops_put (fops_get (fops_put (st.log (.open_hook t)) (some t)) f.f_op).2
          f.f_op).misc_mtx = true := by
        cases f.f_op <;> simpa [fops_put, fops_get, State.log] using hm
      obtain ⟨st2, hu, c1, c2, c3, c4⟩ := mutex_unlock_spec hm'
      refine ⟨e, { f_op := (fops_get (fops_put (st.log (.open_hook t)) (some t)) f.f_op).1 },
        st2.log .unlock_kernel, ?_, ?_, c2, ?_, ?_⟩
      · simp only [ne_eq, he, not_false_eq_true, if_true, hu, bind, Except.bind]
        rfl
      · show st2.toRegistry = _
        rw [c1]
        cases f.f_op <;> rfl
      · show st2.trace ++ [Event.unlock_kernel] = _
        rw [c4]
        cases f.f_op <;> simp [fops_put, fops_get, State.log]
      · rintro (h | h)
        · cases h
        · injection h with h
          exact absurd h he

/-- The lookup of `misc_open` on a well-formed list. -/
theorem misc_open_lookup_spec {st : State} {l : List Nat} (h : st.IsList l) (minor : Int)
    {fuel : Nat} (hf : l.length ≤ fuel) :
    misc_open_lookup fuel minor st =
      .ok (match l.find? (fun c => decide ((st.devs c).minor = minor)) with
        | some c => fops_get st (some (st.devs c).fops)
        | none => (none, st)) := by
  unfold misc_open_lookup
  rw [list_find_minor_spec h minor hf]
  cases l.find? (fun c => decide ((st.devs c).minor = minor)) <;> rfl


/-- C10. Dispatch on a well-formed registry with the mutex free.
If the first scan finds an entry for `minor`, `misc_open` returns and its events
are `lock_kernel`, the lock, the hook of that entry's table if it has one, the
unlock and `unlock_kernel`: the loader is not called.  Otherwise the loader is
called exactly once, between an unlock and a second lock, and one further scan
runs on the registry the loader leaves (assumed well formed).  If that scan
finds nothing, `misc_open` returns `-ENODEV`, calls no hook, and leaves the
session's table and every reference count unchanged.  If it finds an entry,
the session is bound to that entry's table and, when the table has no `open`
hook or its hook returns 0, `misc_open` returns 0. -/
theorem C10_dispatch_load_retry (st : State) (l : List Nat) (tables : Nat → file_operations)
    (request_module : Int → Int → Registry → Registry) (minor : Int) (f : file) (fuel : Nat)
    (hw : st.Wf l) (hf : l.length ≤ fuel) :
    (∀ c, l.find? (fun c => decide ((st.devs c).minor = minor)) = some c →
      ∃ ret f' st', misc_open fuel tables request_module minor f st = .ok (ret, f', st') ∧
        st'.trace = st.trace ++ [.lock_kernel, .mutex_lock] ++
          hook_events tables (st.devs c).fops ++ [.mutex_unlock, .unlock_kernel]) ∧
    (l.find? (fun c => decide ((st.devs c).minor = minor)) = none →
      ∀ l2, (request_module MISC_MAJOR minor st.toRegistry).IsList l2 → l2.length ≤ fuel →
        (l2.find? (fun c => decide
            (((request_module MISC_MAJOR minor st.toRegistry).devs c).minor = minor)) = none →
          ∃ st', misc_open fuel tables request_module minor f st = .ok (-ENODEV, f, st') ∧
            st'.refcount = st.refcount ∧
            st'.toRegistry = request_module MISC_MAJOR minor st.toRegistry ∧
            st'.trace = st.trace ++ [.lock_kernel, .mutex_lock, .mutex_unlock,
              .request_module MISC_MAJOR minor, .mutex_lock, .mutex_unlock, .unlock_kernel]) ∧
        (∀ c, l2.find? (fun c => decide
            (((request_module MISC_MAJOR minor st.toRegistry).devs c).minor = minor)) = some c →
          ∃ ret f' st', misc_open fuel tables request_module minor f st = .ok (ret, f', st') ∧
            st'.trace = st.trace ++ [.lock_kernel, .mutex_lock, .mutex_unlock,
              .request_module MISC_MAJOR minor, .mutex_lock] ++
              hook_events tables ((request_module MISC_MAJOR minor st.toRegistry).devs c).fops ++
              [.mutex_unlock, .unlock_kernel] ∧
            (((tables ((request_module MISC_MAJOR minor st.toRegistry).devs c).fops).open_hook
                  = none ∨
                (tables ((request_module MISC_MAJOR minor st.toRegistry).devs c).fops).open_hook
                  = some 0) →
              ret = 0 ∧
              f' = { f_op := some ((request_module MISC_MAJOR minor st.toRegistry).devs c).fops
                   }))) := by
  have hm0 : (st.log .lock_kernel).misc_mtx = false := hw.2
  obtain ⟨st1, e1, c1, c2, c3, c4⟩ := mutex_lock_spec hm0
  have c1' : st1.toRegistry = st.toRegistry := c1
  have c4' : st1.trace = st.trace ++ [.lock_kernel, .mutex_lock] := by
    rw [c4]
    simp [State.log]
  have hl1 : st1.IsList l := c1' ▸ hw.1
  have hlook := misc_open_lookup_spec hl1 minor hf
  rw [c1'] at hlook
  constructor
  · intro c hc
    rw [hc] at hlook
    have hm2 : (fops_get st1 (some (st.devs c).fops)).2.misc_mtx = true := c2
    obtain ⟨ret, f', st', eb, -, -, b3, -⟩ :=
      misc_open_bind_spec tables (st.devs c).fops f hm2
    refine ⟨ret, f', st', ?_, ?_⟩
    · unfold misc_open
      simp only [e1, hlook, bind, Except.bind]
      exact eb
    · rw [b3]
      show st1.trace ++ _ ++ _ = _
      rw [c4']
  · intro hnone l2 hl2 hf2
    rw [hnone] at hlook
    obtain ⟨st3, e3, g1, g2, g3, g4⟩ := mutex_unlock_spec c2
    -- the state after the loader has run
    have hm5 : ((st3.log (.request_module MISC_MAJOR minor)).with_registry
        (request_module MISC_MAJOR minor
          (st3.log (.request_module MISC_MAJOR minor)).toRegistry)).misc_mtx = false := g2
    obtain ⟨st6, e6, k1, k2, k3, k4⟩ := mutex_lock_spec hm5
    have hreg3 : (st3.log (.request_module MISC_MAJOR minor)).toRegistry = st.toRegistry := by
      show st3.toRegistry = _
      rw [g1, c1']
    rw [hreg3] at e6 k1
    have k1' : st6.toRegistry = request_module MISC_MAJOR minor st.toRegistry := k1
    have k4' : st6.trace = st.trace ++ [.lock_kernel, .mutex_lock, .mutex_unlock,
        .request_module MISC_MAJOR minor, .mutex_lock] := by
      rw [k4]
      show st3.trace ++ _ ++ _ = _
      rw [g4, c4']
      simp
    have k3' : st6.refcount = st.refcount := by
      rw [k3]
      show st3.refcount = _
      rw [g3, c3]
      rfl
    have hl6 : st6.IsList l2 := k1' ▸ hl2
    have hlook2 := misc_open_lookup_spec hl6 minor hf2
    rw [k1'] at hlook2
    have hopen : misc_open fuel tables request_module minor f st =
        (do
          let (new_fops, st) ← misc_open_lookup fuel minor st6
          match new_fops with
          | some t => misc_open_bind tables t f st
          | none =>
            let st ← mutex_unlock st
            pure (-ENODEV, f, st.log .unlock_kernel)) := by
      unfold misc_open
      simp only [e1, hlook, e3, hreg3, e6, bind, Except.bind]
    rw [hopen]
    constructor
    · intro hnone2
      rw [hnone2] at hlook2
      obtain ⟨st7, e7, u1, u2, u3, u4⟩ := mutex_unlock_spec k2
      refine ⟨st7.log .unlock_kernel, ?_, ?_, ?_, ?_⟩
      · simp only [hlook2, e7, bind, Except.bind]
        rfl
      · show st7.refcount = _
        rw [u3, k3']
      · show st7.toRegistry = _
        rw [u1, k1']
      · show st7.trace ++ _ = _
        rw [u4, k4']
        simp
    · intro c hc
      rw [hc] at hlook2
      have hm7 : (fops_get st6
          (some ((request_module MISC_MAJOR minor st.toRegistry).devs c).fops)).2.misc_mtx
          = true := k2
      obtain ⟨ret, f', st', eb, -, -, b3, b4⟩ :=
        misc_open_bind_spec tables ((request_module MISC_MAJOR minor st.toRegistry).devs c).fops
          f hm7
      refine ⟨ret, f', st', ?_, ?_, b4⟩
      · simp only [hlook2, bind, Except.bind]
        exact eb
      · rw [b3]
        show st6.trace ++ _ ++ _ = _
        rw [k4']

/-- Witness of C10: in `witness_one` dispatch for the identifier 5 finds entry 0
at once; dispatch for 9 with a loader that registers nothing returns
`-ENODEV`; from the empty registry, dispatch for 5 with a loader during whose
run entry 0 is registered binds to the table of entry 0 and returns 0. -/
theorem C10_dispatch_load_retry_witness :
    (∃ ret f' st', misc_open 1 witness_tables witness_idle_loader 5 { f_op := none }
        witness_one = .ok (ret, f', st') ∧
      st'.trace = witness_one.trace ++ [.lock_kernel, .mutex_lock] ++
        hook_events witness_tables (witness_one.devs 0).fops ++
        [.mutex_unlock, .unlock_kernel]) ∧
    (∃ st', misc_open 1 witness_tables witness_idle_loader 9 { f_op := none }
        witness_one = .ok (-ENODEV, { f_op := none }, st') ∧
      st'.refcount = witness_one.refcount ∧
      st'.toRegistry = witness_idle_loader MISC_MAJOR 9 witness_one.toRegistry ∧
      st'.trace = witness_one.trace ++ [.lock_kernel, .mutex_lock, .mutex_unlock,
        .request_module MISC_MAJOR 9, .mutex_lock, .mutex_unlock, .unlock_kernel]) ∧
    (∃ ret f' st', misc_open 1 witness_tables witness_loader 5 { f_op := none }
        (State.init witness_devs witness_refcount) = .ok (ret, f', st') ∧
      st'.trace = (State.init witness_devs witness_refcount).trace ++
        [.lock_kernel, .mutex_lock, .mutex_unlock, .request_module MISC_MAJOR 5,
          .mutex_lock] ++
        hook_events witness_tables
          ((witness_loader MISC_MAJOR 5
            (State.init witness_devs witness_refcount).toRegistry).devs 0).fops ++
        [.mutex_unlock, .unlock_kernel] ∧
      (((witness_tables ((witness_loader MISC_MAJOR 5
            (State.init witness_devs witness_refcount).toRegistry).devs 0).fops).open_hook
            = none ∨
          (witness_tables ((witness_loader MISC_MAJOR 5
            (State.init witness_devs witness_refcount).toRegistry).devs 0).fops).open_hook
            = some 0) →
        ret = 0 ∧
        f' = { f_op := some ((witness_loader MISC_MAJOR 5
            (State.init witness_devs witness_refcount).toRegistry).devs 0).fops })) :=
  ⟨(C10_dispatch_load_retry witness_one [0] witness_tables witness_idle_loader 5
      { f_op := none } 1 (by decide) (by decide)).1 0 (by decide),
    ((C10_dispatch_load_retry witness_one [0] witness_tables witness_idle_loader 9
      { f_op := none } 1 (by decide) (by decide)).2 (by decide) [0] (by decide)
      (by decide)).1 (by decide),
    ((C10_dispatch_load_retry (State.init witness_devs witness_refcount) [] witness_tables
      witness_loader 5 { f_op := none } 1 (by decide) (by decide)).2 (by decide) [0]
      (by decide) (by decide)).2 0 (by decide)⟩

/-! ## Lemmas: the phases of `misc_open` -/

theorem fops_put_get_put_refcount (st : State) (t : Nat) (old : Option Nat) :
    (fops_put (fops_get (fops_put st (some t)) old).2 old).refcount =
      (fops_put st (some t)).refcount := by
  cases old with
  | none => rfl
  | some o =>
    funext k
    simp only [fops_put, fops_get]
    by_cases hk : k = o
    · subst hk
      simp
    · simp [hk]

theorem fops_get_fst (st : State) (old : Option Nat) : (fops_get st old).1 = old := by
  cases old <;> rfl

/-- Lines 147-161 with the mutex held, when the table has no hook or its hook
returns 0: the session keeps the new table and the reference of the previous
table is dropped. -/
theorem misc_open_bind_success (tables : Nat → file_operations) (t : Nat) (f : file)
    {st : State} (hm : st.misc_mtx = true)
    (hh : (tables t).open_hook = none ∨ (tables t).open_hook = some 0) :
    ∃ st', misc_open_bind tables t f st = .ok (0, { f_op := some t }, st') ∧
      st'.toRegistry = st.toRegistry ∧ st'.misc_mtx = false ∧
      st'.refcount = (fops_put st f.f_op).refcount ∧
      st'.trace = st.trace ++ hook_events tables t ++ [.mutex_unlock, .unlock_kernel] := by
  unfold misc_open_bind hook_events
  rcases hh with hh | hh
  · have hm' : (fops_put st f.f_op).misc_mtx = true := by
      cases f.f_op <;> simpa [fops_put] using hm
    obtain ⟨st2, hu, c1, c2, c3, c4⟩ := mutex_unlock_spec hm'
    refine ⟨st2.log .unlock_kernel, by simp only [hh, hu, bind, Except.bind]; rfl, ?_, c2, c3, ?_⟩
    · show st2.toRegistry = _
      rw [c1]
      cases f.f_op <;> rfl
    · show st2.trace ++ [Event.unlock_kernel] = _
      rw [c4, hh]
      cases f.f_op <;> simp [fops_put]
  · have hm' : (fops_put (st.log (.open_hook t)) f.f_op).misc_mtx = true := by
      cases f.f_op <;> simpa [fops_put, State.log] using hm
    obtain ⟨st2, hu, c1, c2, c3, c4⟩ := mutex_unlock_spec hm'
    refine ⟨st2.log .unlock_kernel, ?_, ?_, c2, ?_, ?_⟩
    · simp only [hh, ne_eq, not_true_eq_false, if_false, hu, bind, Except.bind]
      rfl
    · show st2.toRegistry = _
      rw [c1]
      cases f.f_op <;> rfl
    · show st2.refcount = _
      rw [c3]
      cases f.f_op <;> rfl
    · show st2.trace ++ [Event.unlock_kernel] = _
      rw [c4, hh]
      cases f.f_op <;> simp [fops_put, State.log]

/-- Lines 147-161 with the mutex held, when the hook returns an error: the
error is returned, the session has its previous table again, and of the
reference counts only that of the new table has changed, by the release of the
reference taken by the lookup. -/
theorem misc_open_bind_failure (tables : Nat → file_operations) (t : Nat) (f : file)
    {st : State} {e : Int} (hm : st.misc_mtx = true) (hh : (tables t).open_hook = some e)
    (he : e ≠ 0) :
    ∃ st', misc_open_bind tables t f st = .ok (e, f, st') ∧
      st'.toRegistry = st.toRegistry ∧ st'.misc_mtx = false ∧
      st'.refcount = (fops_put st (some t)).refcount ∧
      st'.trace = st.trace ++ hook_events tables t ++ [.mutex_unlock, .unlock_kernel] := by
  unfold misc_open_bind hook_events
  have hm' : (fops_put (fops_get (fops_put (st.log (.open_hook t)) (some t)) f.f_op).2
      f.f_op).misc_mtx = true := by
    cases f.f_op <;> simpa [fops_put, fops_get, State.log] using hm
  obtain ⟨st2, hu, c1, c2, c3, c4⟩ := mutex_unlock_spec hm'
  refine ⟨st2.log .unlock_kernel, ?_, ?_, c2, ?_, ?_⟩
  · simp only [hh, ne_eq, he, not_false_eq_true, if_true, hu, bind, Except.bind, fops_get_fst]
    rfl
  · show st2.toRegistry = _
    rw [c1]
    cases f.f_op <;> rfl
  · show st2.refcount = _
    rw [c3, fops_put_get_put_refcount]
    rfl
  · show st2.trace ++ [Event.unlock_kernel] = _
    rw [c4, hh]
    cases f.f_op <;> simp [fops_put, fops_get, State.log]


theorem fops_get_some_snd (st : State) (t : Nat) :
    (fops_get st (some t)).2.toRegistry = st.toRegistry ∧
      (fops_get st (some t)).2.misc_mtx = st.misc_mtx ∧
      (fops_get st (some t)).2.trace = st.trace ∧
      (fops_get st (some t)).2.refcount =
        fun k => if k = t then st.refcount t + 1 else st.refcount k :=
  ⟨rfl, rfl, rfl, rfl⟩

/-- The first part of `misc_open` (lines 122-135) on a well-formed registry:
after `lock_kernel` and the lock, either the first scan finds an entry and the
call continues with the binding, or the mutex is released, the loader runs on
the registry with the mutex free, the mutex is taken again and the call
continues with the second scan. -/
theorem misc_open_first_scan {st : State} {l : List Nat} (tables : Nat → file_operations)
    (request_module : Int → Int → Registry → Registry) (minor : Int) (f : file) {fuel : Nat}
    (hw : st.Wf l) (hf : l.length ≤ fuel) :
    ∃ st1 : State, st1.toRegistry = st.toRegistry ∧ st1.misc_mtx = true ∧
      st1.refcount = st.refcount ∧ st1.trace = st.trace ++ [.lock_kernel, .mutex_lock] ∧
      (∀ c, l.find? (fun c => decide ((st.devs c).minor = minor)) = some c →
        misc_open fuel tables request_module minor f st =
          misc_open_bind tables (st.devs c).fops f (fops_get st1 (some (st.devs c).fops)).2) ∧
      (l.find? (fun c => decide ((st.devs c).minor = minor)) = none →
        ∃ st3 st6 : State, st3.toRegistry = st.toRegistry ∧ st3.misc_mtx = false ∧
          st3.trace = st.trace ++ [.lock_kernel, .mutex_lock, .mutex_unlock] ∧
          st6.toRegistry = request_module MISC_MAJOR minor st3.toRegistry ∧
          st6.misc_mtx = true ∧ st6.refcount = st.refcount ∧
          st6.trace = st3.trace ++ [.request_module MISC_MAJOR minor, .mutex_lock] ∧
          misc_open fuel tables request_module minor f st =
            misc_open_retry fuel tables minor f st6) := by
  have hm0 : (st.log .lock_kernel).misc_mtx = false := hw.2
  obtain ⟨st1, e1, c1, c2, c3, c4⟩ := mutex_lock_spec hm0
  have c1' : st1.toRegistry = st.toRegistry := c1
  have c4' : st1.trace = st.trace ++ [.lock_kernel, .mutex_lock] := by
    rw [c4]
    simp [State.log]
  have hl1 : st1.IsList l := c1' ▸ hw.1
  have hlook := misc_open_lookup_spec hl1 minor hf
  rw [c1'] at hlook
  refine ⟨st1, c1', c2, c3, c4', ?_, ?_⟩
  · intro c hc
    rw [hc] at hlook
    unfold misc_open
    simp only [e1, hlook, bind, Except.bind]
    first | done | rfl
  · intro hnone
    rw [hnone] at hlook
    obtain ⟨st3, e3, g1, g2, g3, g4⟩ := mutex_unlock_spec c2
    have hm5 : ((st3.log (.request_module MISC_MAJOR minor)).with_registry
        (request_module MISC_MAJOR minor
          (st3.log (.request_module MISC_MAJOR minor)).toRegistry)).misc_mtx = false := g2
    obtain ⟨st6, e6, k1, k2, k3, k4⟩ := mutex_lock_spec hm5
    refine ⟨st3, st6, g1.trans c1', g2, ?_, k1, k2, ?_, ?_, ?_⟩
    · rw [g4, c4']
      simp
    · rw [k3]
      show st3.refcount = _
      rw [g3, c3]
      rfl
    · rw [k4]
      show st3.trace ++ _ ++ _ = _
      simp
    · unfold misc_open misc_open_retry
      simp only [e1, hlook, e3, e6, bind, Except.bind]

/-- The second scan of `misc_open` (lines 137-145) with the mutex held, on a
well-formed registry. -/
theorem misc_open_retry_spec {st : State} {l : List Nat} (tables : Nat → file_operations)
    (minor : Int) (f : file) {fuel : Nat} (hl : st.IsList l) (hm : st.misc_mtx = true)
    (hf : l.length ≤ fuel) :
    (∀ c, l.find? (fun c => decide ((st.devs c).minor = minor)) = some c →
      misc_open_retry fuel tables minor f st =
        misc_open_bind tables (st.devs c).fops f (fops_get st (some (st.devs c).fops)).2) ∧
    (l.find? (fun c => decide ((st.devs c).minor = minor)) = none →
      ∃ st', misc_open_retry fuel tables minor f st = .ok (-ENODEV, f, st') ∧
        st'.toRegistry = st.toRegistry ∧ st'.misc_mtx = false ∧ st'.refcount = st.refcount ∧
        st'.trace = st.trace ++ [.mutex_unlock, .unlock_kernel]) := by
  have hlook := misc_open_lookup_spec hl minor hf
  constructor
  · intro c hc
    rw [hc] at hlook
    unfold misc_open_retry
    simp only [hlook, bind, Except.bind]
    first | done | rfl
  · intro hnone
    rw [hnone] at hlook
    obtain ⟨st7, e7, u1, u2, u3, u4⟩ := mutex_unlock_spec hm
    refine ⟨st7.log .unlock_kernel, ?_, u1, u2, u3, ?_⟩
    · unfold misc_open_retry
      simp only [hlook, e7, bind, Except.bind]
      first | done | rfl
    · show st7.trace ++ _ = _
      rw [u4]
      simp

/-! ## Dispatch: binding, roll-back, deregistration under open sessions -/

theorem fops_put_get_cancel (st : State) (t : Nat) :
    (fops_put (fops_get st (some t)).2 (some t)).refcount = st.refcount := by
  funext k
  simp only [fops_put, fops_get]
  by_cases hk : k = t
  · subst hk
    simp
  · simp [hk]

/-- The reference counts after the reference of the lookup is taken on `t` and
the reference of the session's previous table is dropped. -/
theorem fops_get_put_refcount (st : State) (t : Nat) (old : Option Nat) (k : Nat) :
    (fops_put (fops_get st (some t)).2 old).refcount k =
      st.refcount k + (if k = t then 1 else 0) - (if old = some k then 1 else 0) := by
  cases old with
  | none => by_cases hk : k = t <;> simp [fops_put, fops_get, hk]
  | some o =>
    by_cases hko : k = o
    · subst hko
      by_cases hk : k = t <;> simp [fops_put, fops_get, hk]
    · have hok : ¬ (o = k) := fun h => hko h.symm
      by_cases hk : k = t
      · subst hk
        simp [fops_put, fops_get, hko, hok]
      · simp [fops_put, fops_get, hk, hko, hok]

/-- The binding after a lookup that found the table `t`, when the hook fails. -/
theorem misc_open_found_failure (tables : Nat → file_operations) (t : Nat) (f : file)
    {s : State} {e : Int} (hm : s.misc_mtx = true) (hh : (tables t).open_hook = some e)
    (he : e ≠ 0) :
    ∃ st', misc_open_bind tables t f (fops_get s (some t)).2 = .ok (e, f, st') ∧
      st'.toRegistry = s.toRegistry ∧ st'.misc_mtx = false ∧ st'.refcount = s.refcount ∧
      st'.trace = s.trace ++ hook_events tables t ++ [.mutex_unlock, .unlock_kernel] := by
  have hm' : (fops_get s (some t)).2.misc_mtx = true := hm
  obtain ⟨st', eb, b1, b2, b3, b4⟩ := misc_open_bind_failure tables t f hm' hh he
  exact ⟨st', eb, b1, b2, b3.trans (fops_put_get_cancel s t), b4⟩

/-- The binding after a lookup that found the table `t`, when there is no hook
or the hook returns 0. -/
theorem misc_open_found_success (tables : Nat → file_operations) (t : Nat) (f : file)
    {s : State} (hm : s.misc_mtx = true)
    (hh : (tables t).open_hook = none ∨ (tables t).open_hook = some 0) :
    ∃ st', misc_open_bind tables t f (fops_get s (some t)).2 = .ok (0, { f_op := some t }, st') ∧
      st'.toRegistry = s.toRegistry ∧ st'.misc_mtx = false ∧
      (∀ k, st'.refcount k =
        s.refcount k + (if k = t then 1 else 0) - (if f.f_op = some k then 1 else 0)) ∧
      st'.trace = s.trace ++ hook_events tables t ++ [.mutex_unlock, .unlock_kernel] := by
  have hm' : (fops_get s (some t)).2.misc_mtx = true := hm
  obtain ⟨st', eb, b1, b2, b3, b4⟩ := misc_open_bind_success tables t f hm' hh
  refine ⟨st', eb, b1, b2, fun k => ?_, b4⟩
  rw [b3]
  exact fops_get_put_refcount s t f.f_op k

/-- C11. Dispatch on a well-formed registry that finds an entry, on the first
scan or on the scan after the loader, whose `open` hook returns an error `e`:
`misc_open` returns exactly `e`, the session's `f_op` is the table it had before
the call, and the reference count of every table is what it was before the
call. -/
theorem C11_open_failure_rolls_back (st : State) (l : List Nat)
    (tables : Nat → file_operations) (request_module : Int → Int → Registry → Registry)
    (minor : Int) (f : file) (fuel : Nat) (e : Int) (hw : st.Wf l) (hf : l.length ≤ fuel)
    (he : e ≠ 0) :
    (∀ c, l.find? (fun c => decide ((st.devs c).minor = minor)) = some c →
      (tables (st.devs c).fops).open_hook = some e →
      ∃ st', misc_open fuel tables request_module minor f st = .ok (e, f, st') ∧
        st'.refcount = st.refcount) ∧
    (l.find? (fun c => decide ((st.devs c).minor = minor)) = none →
      ∀ l2, (request_module MISC_MAJOR minor st.toRegistry).IsList l2 → l2.length ≤ fuel →
        ∀ c, l2.find? (fun c => decide
            (((request_module MISC_MAJOR minor st.toRegistry).devs c).minor = minor)) = some c →
          (tables ((request_module MISC_MAJOR minor st.toRegistry).devs c).fops).open_hook
            = some e →
          ∃ st', misc_open fuel tables request_module minor f st = .ok (e, f, st') ∧
            st'.refcount = st.refcount) := by
  obtain ⟨st1, a1, a2, a3, -, hhit, hmiss⟩ :=
    misc_open_first_scan tables request_module minor f hw hf
  constructor
  · intro c hc hh
    obtain ⟨st', eb, -, -, b3, -⟩ := misc_open_found_failure tables (st.devs c).fops f a2 hh he
    exact ⟨st', (hhit c hc).trans eb, b3.trans a3⟩
  · intro hnone l2 hl2 hf2 c hc hh
    obtain ⟨st3, st6, g1, -, -, k1, k2, k3, -, eo⟩ := hmiss hnone
    rw [g1] at k1
    have hl6 : st6.IsList l2 := k1 ▸ hl2
    have hr := (misc_open_retry_spec tables minor f hl6 k2 hf2).1 c (by rw [k1]; exact hc)
    rw [k1] at hr
    obtain ⟨st', eb, -, -, b3, -⟩ := misc_open_found_failure tables
      ((request_module MISC_MAJOR minor st.toRegistry).devs c).fops f k2 hh he
    exact ⟨st', (eo.trans hr).trans eb, b3.trans k3⟩

/-- Witness of C11: in `witness_one`, with tables whose hook fails with -5,
dispatch for the identifier 5 finds entry 0; from the empty registry dispatch
for 5 finds it after the loader has run. -/
theorem C11_open_failure_rolls_back_witness :
    (∃ st', misc_open 1 witness_failing_tables witness_idle_loader 5 { f_op := some 7 }
        witness_one = .ok (-5, { f_op := some 7 }, st') ∧
      st'.refcount = witness_one.refcount) ∧
    (∃ st', misc_open 1 witness_failing_tables witness_loader 5 { f_op := some 7 }
        (State.init witness_devs witness_refcount) = .ok (-5, { f_op := some 7 }, st') ∧
      st'.refcount = (State.init witness_devs witness_refcount).refcount) :=
  ⟨(C11_open_failure_rolls_back witness_one [0] witness_failing_tables witness_idle_loader 5
      { f_op := some 7 } 1 (-5) (by decide) (by decide) (by decide)).1 0 (by decide) rfl,
    (C11_open_failure_rolls_back (State.init witness_devs witness_refcount) []
      witness_failing_tables witness_loader 5 { f_op := some 7 } 1 (-5) (by decide)
      (by decide) (by decide)).2 (by decide) [0] (by decide) (by decide) 0 (by decide) rfl⟩

/-- C12. Dispatch on a well-formed registry that finds an entry, on the first
scan or on the scan after the loader, whose table `t` has no `open` hook or a
hook that returns 0: `misc_open` returns 0, the session's `f_op` is `t`, and the
reference counts are those from before the call with one reference added to
`t` and one removed from the session's previous table.  So when the previous
table is a different table, `t` holds exactly one reference more and the
previous table exactly one less. -/
theorem C12_open_success_binds (st : State) (l : List Nat)
    (tables : Nat → file_operations) (request_module : Int → Int → Registry → Registry)
    (minor : Int) (f : file) (fuel : Nat) (hw : st.Wf l) (hf : l.length ≤ fuel) :
    (∀ c, l.find? (fun c => decide ((st.devs c).minor = minor)) = some c →
      ((tables (st.devs c).fops).open_hook = none ∨
        (tables (st.devs c).fops).open_hook = some 0) →
      ∃ st', misc_open fuel tables request_module minor f st =
          .ok (0, { f_op := some (st.devs c).fops }, st') ∧
        (∀ k, st'.refcount k = st.refcount k + (if k = (st.devs c).fops then 1 else 0) -
          (if f.f_op = some k then 1 else 0)) ∧
        (∀ o, f.f_op = some o → o ≠ (st.devs c).fops →
          st'.refcount (st.devs c).fops = st.refcount (st.devs c).fops + 1 ∧
          st'.refcount o = st.refcount o - 1)) ∧
    (l.find? (fun c => decide ((st.devs c).minor = minor)) = none →
      ∀ l2, (request_module MISC_MAJOR minor st.toRegistry).IsList l2 → l2.length ≤ fuel →
        ∀ c, l2.find? (fun c => decide
            (((request_module MISC_MAJOR minor st.toRegistry).devs c).minor = minor)) = some c →
          ((tables ((request_module MISC_MAJOR minor st.toRegistry).devs c).fops).open_hook
              = none ∨
            (tables ((request_module MISC_MAJOR minor st.toRegistry).devs c).fops).open_hook
              = some 0) →
          ∃ st', misc_open fuel tables request_module minor f st =
              .ok (0, { f_op := some ((request_module MISC_MAJOR minor st.toRegistry).devs c).fops },
                st') ∧
            (∀ k, st'.refcount k = st.refcount k +
              (if k = ((request_module MISC_MAJOR minor st.toRegistry).devs c).fops then 1
                else 0) - (if f.f_op = some k then 1 else 0)) ∧
            (∀ o, f.f_op = some o →
              o ≠ ((request_module MISC_MAJOR minor st.toRegistry).devs c).fops →
              st'.refcount ((request_module MISC_MAJOR minor st.toRegistry).devs c).fops =
                st.refcount ((request_module MISC_MAJOR minor st.toRegistry).devs c).fops + 1 ∧
              st'.refcount o = st.refcount o - 1)) := by
  -- the two consequences of the formula for a previous table that differs
  have hcor : ∀ (r r' : Nat → Int) (t : Nat),
      (∀ k, r' k = r k + (if k = t then 1 else 0) - (if f.f_op = some k then 1 else 0)) →
      ∀ o, f.f_op = some o → o ≠ t → r' t = r t + 1 ∧ r' o = r o - 1 := by
    intro r r' t h o ho hot
    have hto : ¬ (o = t) := hot
    have hto' : ¬ (t = o) := fun h => hot h.symm
    constructor
    · rw [h t, ho]
      simp [hto]
    · rw [h o, ho]
      simp [hto]
  obtain ⟨st1, a1, a2, a3, -, hhit, hmiss⟩ :=
    misc_open_first_scan tables request_module minor f hw hf
  constructor
  · intro c hc hh
    obtain ⟨st', eb, -, -, b3, -⟩ := misc_open_found_success tables (st.devs c).fops f a2 hh
    rw [a3] at b3
    exact ⟨st', (hhit c hc).trans eb, b3, hcor _ _ _ b3⟩
  · intro hnone l2 hl2 hf2 c hc hh
    obtain ⟨st3, st6, g1, -, -, k1, k2, k3, -, eo⟩ := hmiss hnone
    rw [g1] at k1
    have hl6 : st6.IsList l2 := k1 ▸ hl2
    have hr := (misc_open_retry_spec tables minor f hl6 k2 hf2).1 c (by rw [k1]; exact hc)
    rw [k1] at hr
    obtain ⟨st', eb, -, -, b3, -⟩ := misc_open_found_success tables
      ((request_module MISC_MAJOR minor st.toRegistry).devs c).fops f k2 hh
    rw [k3] at b3
    exact ⟨st', (eo.trans hr).trans eb, b3, hcor _ _ _ b3⟩

/-- Witness of C12: in `witness_one`, with tables without a hook and a session
that holds table 7, dispatch for the identifier 5 finds entry 0; from the empty
registry dispatch for 5 finds it after the loader has run. -/
theorem C12_open_success_binds_witness :
    (∃ st', misc_open 1 witness_tables witness_idle_loader 5 { f_op := some 7 }
        witness_one = .ok (0, { f_op := some (witness_one.devs 0).fops }, st') ∧
      (∀ k, st'.refcount k = witness_one.refcount k +
        (if k = (witness_one.devs 0).fops then 1 else 0) -
        (if ({ f_op := some 7 } : file).f_op = some k then 1 else 0)) ∧
      (∀ o, ({ f_op := some 7 } : file).f_op = some o → o ≠ (witness_one.devs 0).fops →
        st'.refcount (witness_one.devs 0).fops = witness_one.refcount (witness_one.devs 0).fops + 1 ∧
        st'.refcount o = witness_one.refcount o - 1)) ∧
    (∃ st', misc_open 1 witness_tables witness_loader 5 { f_op := some 7 }
        (State.init witness_devs witness_refcount) = .ok (0, { f_op := some 0 }, st') ∧
      st'.refcount 0 = 1 ∧ st'.refcount 7 = -1) :=
  ⟨(C12_open_success_binds witness_one [0] witness_tables witness_idle_loader 5
      { f_op := some 7 } 1 (by decide) (by decide)).1 0 (by decide) (Or.inl rfl),
    (match (C12_open_success_binds (State.init witness_devs witness_refcount) []
      witness_tables witness_loader 5 { f_op := some 7 } 1 (by decide)
      (by decide)).2 (by decide) [0] (by decide) (by decide) 0 (by decide) (Or.inl rfl) with
    | ⟨st', h1, _, h3⟩ => ⟨st', h1, h3 7 rfl (by decide)⟩)⟩

/-- C13. On a well-formed registry in which `E` is the only entry with the
identifier `minor`: after a dispatch for `minor` has bound a session to the
table of `E`, `misc_deregister(E)` returns 0 and changes neither the table of
`E` nor any reference count (it does not touch the session at all), so the
session's handle stays valid; and a fresh dispatch for `minor` whose loader
registers nothing returns `-ENODEV`. -/
theorem C13_deregister_keeps_open_sessions (st : State) (l : List Nat) (E : Nat)
    (tables : Nat → file_operations) (request_module idle : Int → Int → Registry → Registry)
    (minor : Int) (f f2 : file) (fuel : Nat) (hw : st.Wf l) (hf : l.length ≤ fuel)
    (hfind : l.find? (fun c => decide ((st.devs c).minor = minor)) = some E)
    (hh : (tables (st.devs E).fops).open_hook = none ∨
      (tables (st.devs E).fops).open_hook = some 0)
    (huniq : ∀ c ∈ l, (st.devs c).minor = minor → c = E)
    (hidle : ∀ r, idle MISC_MAJOR minor r = r) :
    ∃ st1 st2 st3, misc_open fuel tables request_module minor f st =
        .ok (0, { f_op := some (st.devs E).fops }, st1) ∧
      misc_deregister E st1 = .ok (0, st2) ∧ st2.refcount = st1.refcount ∧
      (st2.devs E).fops = (st.devs E).fops ∧
      misc_open fuel tables idle minor f2 st2 = .ok (-ENODEV, f2, st3) := by
  obtain ⟨s1, a1, a2, a3, -, hhit, -⟩ :=
    misc_open_first_scan tables request_module minor f hw hf
  obtain ⟨st1, eb, b1, b2, -, -⟩ := misc_open_found_success tables (st.devs E).fops f a2 hh
  have r1 : st1.toRegistry = st.toRegistry := b1.trans a1
  have hw1 : st1.Wf l := ⟨r1 ▸ hw.1, b2⟩
  have hE : E ∈ l := List.mem_of_find?_eq_some hfind
  obtain ⟨st2, ed, d1, -, d3, d4, d5, -, -⟩ := misc_deregister_linked hw1.1 hw1.2 hE
  have hw2 : st2.Wf (l.erase E) := ⟨d1, d4⟩
  have hmin : ∀ k, (st2.devs k).minor = (st.devs k).minor := by
    intro k
    rw [(d3 k).1, r1]
  have hnone : (l.erase E).find? (fun c => decide ((st2.devs c).minor = minor)) = none := by
    rw [List.find?_eq_none]
    intro c hc hcm
    have hcl : c ∈ l := List.mem_of_mem_erase hc
    have : c = E := huniq c hcl (by simpa [hmin c] using hcm)
    rw [this] at hc
    exact ((List.Nodup.mem_erase_iff hw.1.1).1 hc).1 rfl
  have hf2 : (l.erase E).length ≤ fuel := le_trans (List.length_erase_le E l) hf
  obtain ⟨-, -, -, -, -, -, hmiss⟩ := misc_open_first_scan tables idle minor f2 hw2 hf2
  obtain ⟨st3, st6, g1, -, -, k1, k2, -, -, eo⟩ := hmiss hnone
  rw [g1, hidle] at k1
  have hl6 : st6.IsList (l.erase E) := k1 ▸ hw2.1
  obtain ⟨st', er, -⟩ := (misc_open_retry_spec tables minor f2 hl6 k2 hf2).2
    (by rw [k1]; exact hnone)
  refine ⟨st1, st2, st', (hhit E hfind).trans eb, ed, d5, ?_, eo.trans er⟩
  rw [(d3 E).2.1, r1]

/-- Witness of C13: in `witness_one` entry 0 is the only entry with the
identifier 5. -/
theorem C13_deregister_keeps_open_sessions_witness :
    ∃ st1 st2 st3, misc_open 1 witness_tables witness_idle_loader 5 { f_op := none }
        witness_one = .ok (0, { f_op := some (witness_one.devs 0).fops }, st1) ∧
      misc_deregister 0 st1 = .ok (0, st2) ∧ st2.refcount = st1.refcount ∧
      (st2.devs 0).fops = (witness_one.devs 0).fops ∧
      misc_open 1 witness_tables witness_idle_loader 5 { f_op := some 0 } st2 =
        .ok (-ENODEV, { f_op := some 0 }, st3) :=
  C13_deregister_keeps_open_sessions witness_one [0] 0 witness_tables witness_idle_loader
    witness_idle_loader 5 { f_op := none } { f_op := some 0 } 1 (by decide) (by decide)
    (by decide) (Or.inl rfl) (by decide) (fun _ => rfl)

/-! ## Insertion at the front, first match, removal -/

theorem path_unique {f : Ptr → Ptr} {q : Ptr} :
    ∀ {xs ys : List Ptr} {p : Ptr}, Path f p xs q → Path f p ys q → q ∉ xs → q ∉ ys → xs = ys
  | [], [], _, _, _, _, _ => rfl
  | [], y :: ys, p, h1, h2, _, hy => by
    have e1 : f p = q := h1
    have e2 : f p = y := h2.1
    exact absurd (by rw [← e1, e2]; simp) hy
  | x :: xs, [], p, h1, h2, hx, _ => by
    have e1 : f p = x := h1.1
    have e2 : f p = q := h2
    exact absurd (by rw [← e2, e1]; simp) hx
  | x :: xs, y :: ys, p, h1, h2, hx, hy => by
    have e1 : f p = x := h1.1
    have e2 : f p = y := h2.1
    have hxy : x = y := by rw [← e1, e2]
    subst hxy
    have := path_unique h1.2 h2.2 (fun h => hx (List.mem_cons_of_mem _ h))
      (fun h => hy (List.mem_cons_of_mem _ h))
    rw [this]

/-- The list determines the entries it holds. -/
theorem isList_unique {r : Registry} {l l' : List Nat} (h : r.IsList l) (h' : r.IsList l') :
    l = l' := by
  have := path_unique h.2.1 h'.2.1 (head_not_mem_nodes l) (head_not_mem_nodes l')
  exact List.map_injective_iff.2 (fun a b hab => by injection hab) this

/-- With an identifier that is not negative `misc_register` of an unlinked
entry returns, and it returns 0 exactly when it has put the entry at the front
of the list. -/
theorem misc_register_total {st : State} {l : List Nat} {d : Nat} (fuel : Nat) (dev : Int)
    (hw : st.Wf l) (hd : d ∉ l) (hf : l.length ≤ fuel) (h0 : 0 ≤ (st.devs d).minor) :
    ∃ ret st', misc_register fuel d dev st = .ok (ret, st') ∧
      st'.Wf (if ret = 0 then d :: l else l) := by
  have hbusy : ¬ (-EBUSY = 0) := by decide
  by_cases hcol : ∃ c ∈ l, (st.devs c).minor = (st.devs d).minor
  · obtain ⟨c, hc, hcm⟩ := hcol
    obtain ⟨st', es, a1, -, a3, -⟩ := misc_register_busy fuel dev hw.1 hw.2 hd hf hc hcm
    refine ⟨_, st', es, ?_⟩
    simp only [hbusy, if_false]
    exact ⟨a1, a3⟩
  have hc : ∀ c ∈ l, (st.devs c).minor ≠ (st.devs d).minor := fun c hc e => hcol ⟨c, hc, e⟩
  by_cases hi : 0 ≤ assigned_minor st d
  · obtain ⟨st', es, a1, -, -, -, -, -, a7, -⟩ := misc_register_go fuel dev hw.1 hw.2 hd hf hc hi
    refine ⟨_, st', es, ?_⟩
    by_cases herr : IS_ERR dev = true
    · have hneg := IS_ERR_neg herr
      have hne : ¬ (dev = 0) := by omega
      simp only [herr, if_true, hne, if_false] at a1 ⊢
      exact ⟨a1, a7⟩
    · have herr' : IS_ERR dev = false := by simpa using herr
      simp only [herr', Bool.false_eq_true, if_false, if_true] at a1 ⊢
      exact ⟨a1, a7⟩
  · have hdyn : (st.devs d).minor = MISC_DYNAMIC_MINOR := by
      by_contra hne
      apply hi
      have : assigned_minor st d = (st.devs d).minor := by simp [assigned_minor, hne]
      rw [this]
      exact h0
    have hfull : find_free_minor st.misc_minors DYNAMIC_MINORS < 0 := by
      simp only [assigned_minor, hdyn, if_true] at hi
      exact not_le.1 hi
    obtain ⟨st', es, a1, -, a3, -⟩ :=
      misc_register_exhausted fuel dev hw.1 hw.2 hd hf hc hdyn hfull
    refine ⟨_, st', es, ?_⟩
    simp only [hbusy, if_false]
    exact ⟨a1, a3⟩

theorem find?_first_match {l1 l2 : List Nat} {c : Nat} {p : Nat → Bool} (hc : p c = true)
    (h1 : ∀ x ∈ l1, p x = false) : (l1 ++ c :: l2).find? p = some c := by
  induction l1 with
  | nil => simp [hc]
  | cons x l1 ih =>
    rw [List.cons_append, List.find?_cons, h1 x (by simp)]
    exact ih (fun y hy => h1 y (List.mem_cons_of_mem _ hy))

/-- With an identifier that is not negative `misc_register` of an unlinked
entry returns 0 exactly when no linked entry carries the identifier, the
dynamic identifier asked for could be found in the pool, and `device_create`
did not fail; it then has put the entry at the front of the list, and
otherwise has left the list as it was. -/
theorem misc_register_cases {st : State} {l : List Nat} {d : Nat} (fuel : Nat) (dev : Int)
    (hw : st.Wf l) (hd : d ∉ l) (hf : l.length ≤ fuel) (h0 : 0 ≤ (st.devs d).minor) :
    ∃ ret st', misc_register fuel d dev st = .ok (ret, st') ∧
      st'.Wf (if ret = 0 then d :: l else l) ∧
      (ret = 0 ↔ ((∀ c ∈ l, (st.devs c).minor ≠ (st.devs d).minor) ∧
        0 ≤ assigned_minor st d ∧ IS_ERR dev = false)) := by
  have hbusy : ¬ (-EBUSY = 0) := by decide
  by_cases hcol : ∃ c ∈ l, (st.devs c).minor = (st.devs d).minor
  · obtain ⟨c, hc, hcm⟩ := hcol
    obtain ⟨st', es, a1, -, a3, -⟩ := misc_register_busy fuel dev hw.1 hw.2 hd hf hc hcm
    refine ⟨_, st', es, ?_, ?_⟩
    · simp only [hbusy, if_false]
      exact ⟨a1, a3⟩
    · exact ⟨fun h => absurd h hbusy, fun h => absurd hcm (h.1 c hc)⟩
  have hc : ∀ c ∈ l, (st.devs c).minor ≠ (st.devs d).minor := fun c hc e => hcol ⟨c, hc, e⟩
  by_cases hi : 0 ≤ assigned_minor st d
  · obtain ⟨st', es, a1, -, -, -, -, -, a7, -⟩ := misc_register_go fuel dev hw.1 hw.2 hd hf hc hi
    refine ⟨_, st', es, ?_, ?_⟩
    · by_cases herr : IS_ERR dev = true
      · have hneg := IS_ERR_neg herr
        have hne : ¬ (dev = 0) := by omega
        simp only [herr, if_true, hne, if_false] at a1 ⊢
        exact ⟨a1, a7⟩
      · have herr' : IS_ERR dev = false := by simpa using herr
        simp only [herr', Bool.false_eq_true, if_false, if_true] at a1 ⊢
        exact ⟨a1, a7⟩
    · by_cases herr : IS_ERR dev = true
      · have hneg := IS_ERR_neg herr
        have hne : ¬ (dev = 0) := by omega
        simp only [herr, if_true]
        exact ⟨fun h => absurd h hne, fun h => by simp at h⟩
      · have herr' : IS_ERR dev = false := by simpa using herr
        simp only [herr', Bool.false_eq_true, if_false]
        exact ⟨fun _ => ⟨hc, hi, by trivial⟩, fun _ => by trivial⟩
  · have hdyn : (st.devs d).minor = MISC_DYNAMIC_MINOR := by
      by_contra hne
      apply hi
      have : assigned_minor st d = (st.devs d).minor := by simp [assigned_minor, hne]
      rw [this]
      exact h0
    have hfull : find_free_minor st.misc_minors DYNAMIC_MINORS < 0 := by
      simp only [assigned_minor, hdyn, if_true] at hi
      exact not_le.1 hi
    obtain ⟨st', es, a1, -, a3, -⟩ :=
      misc_register_exhausted fuel dev hw.1 hw.2 hd hf hc hdyn hfull
    refine ⟨_, st', es, ?_, ?_⟩
    · simp only [hbusy, if_false]
      exact ⟨a1, a3⟩
    · exact ⟨fun h => absurd h hbusy, fun h => absurd h.2.1 hi⟩

/-- C14. On a well-formed registry, `misc_register` of an entry that is not
linked, with an identifier that is not negative, returns.  It returns 0 exactly
when no linked entry carries the identifier, the pool has a free identifier if
a dynamic one is asked for, and `device_create` does not fail; and it returns 0
if and only if the entry is on the list afterwards.  After a return of 0 the
list is the entry followed by the previous list in its previous order, and
after any other return the list is the previous list.  The scan of `misc_open`
runs front to back: for a list `l1 ++ c :: l2` in which `c` has the identifier
`minor` and no entry of `l1` has it, the scan returns `c` whatever `l2` holds,
and dispatch binds the session to the table of `c` (returning 0 when that table
has no hook or its hook returns 0). -/
theorem C14_front_insertion_first_match (st : State) (l : List Nat) (d : Nat)
    (device_create : Int) (fuel : Nat) (hw : st.Wf l) (hd : d ∉ l) (hf : l.length ≤ fuel)
    (h0 : 0 ≤ (st.devs d).minor) :
    (∃ ret st', misc_register fuel d device_create st = .ok (ret, st') ∧
      st'.Wf (if ret = 0 then d :: l else l) ∧
      (ret = 0 ↔ ∃ l', st'.Wf l' ∧ d ∈ l') ∧
      (ret = 0 ↔ ((∀ c ∈ l, (st.devs c).minor ≠ (st.devs d).minor) ∧
        0 ≤ assigned_minor st d ∧ IS_ERR device_create = false))) ∧
    (∀ (minor : Int) (l1 l2 : List Nat) (c : Nat), l = l1 ++ c :: l2 →
      (st.devs c).minor = minor → (∀ x ∈ l1, (st.devs x).minor ≠ minor) →
      list_find_minor st.toRegistry minor fuel st.misc_list.next = .ok (some c) ∧
      ∀ (tables : Nat → file_operations) (request_module : Int → Int → Registry → Registry)
        (f : file), ((tables (st.devs c).fops).open_hook = none ∨
          (tables (st.devs c).fops).open_hook = some 0) →
        ∃ st', misc_open fuel tables request_module minor f st =
          .ok (0, { f_op := some (st.devs c).fops }, st')) := by
  constructor
  · obtain ⟨ret, st', es, hw', hiff⟩ := misc_register_cases fuel device_create hw hd hf h0
    refine ⟨ret, st', es, hw', ?_, hiff⟩
    constructor
    · intro hr
      rw [if_pos hr] at hw'
      exact ⟨d :: l, hw', by simp⟩
    · rintro ⟨l', hl', hdl'⟩
      by_contra hr
      rw [if_neg hr] at hw'
      have := isList_unique hw'.1 hl'.1
      exact hd (this ▸ hdl')
  · intro minor l1 l2 c hl hcm hl1
    have hfind : l.find? (fun c => decide ((st.devs c).minor = minor)) = some c := by
      rw [hl]
      exact find?_first_match (by simpa using hcm) (fun x hx => by simpa using hl1 x hx)
    refine ⟨by rw [list_find_minor_spec hw.1 minor hf, hfind], ?_⟩
    intro tables request_module f hh
    obtain ⟨s1, -, a2, -, -, hhit, -⟩ := misc_open_first_scan tables request_module minor f hw hf
    obtain ⟨st', eb, -⟩ := misc_open_found_success tables (st.devs c).fops f a2 hh
    exact ⟨st', (hhit c hfind).trans eb⟩

/-- Witness of C14: in `witness_one` (list `[0]`, entry 0 with the identifier
5) entry 3 registers with the identifier 7, which no linked entry carries, and
`device_create` succeeds: `misc_register` returns 0 and the list is `[3, 0]`;
the scan for 5 on `witness_one` returns entry 0. -/
theorem C14_front_insertion_first_match_witness :
    (∃ st', misc_register 1 3 1 witness_one = .ok (0, st') ∧ st'.Wf [3, 0] ∧
      ∃ l', st'.Wf l' ∧ 3 ∈ l') ∧
    (list_find_minor witness_one.toRegistry 5 1 witness_one.misc_list.next = .ok (some 0) ∧
      ∀ (tables : Nat → file_operations) (request_module : Int → Int → Registry → Registry)
        (f : file), ((tables (witness_one.devs 0).fops).open_hook = none ∨
          (tables (witness_one.devs 0).fops).open_hook = some 0) →
        ∃ st', misc_open 1 tables request_module 5 f witness_one =
          .ok (0, { f_op := some (witness_one.devs 0).fops }, st')) := by
  obtain ⟨⟨ret, st', e, hw, h1, h2⟩, hscan⟩ :=
    C14_front_insertion_first_match witness_one [0] 3 1 1 (by decide) (by decide) (by decide)
      (by decide)
  have hr : ret = 0 := h2.2 ⟨by decide, by decide, by decide⟩
  subst hr
  exact ⟨⟨st', e, hw, h1.1 rfl⟩, hscan 5 [] [] 0 rfl rfl (by simp)⟩

/-- C15. On a well-formed registry, `misc_deregister` of a linked entry with the
identifier `i` returns 0 and removes exactly that entry: the list afterwards
holds the other entries in their previous order.  If `0 < i < DYNAMIC_MINORS`
bit `i` of the bitmap is clear afterwards and every other bit is unchanged; if
not (so for `i = 0`, for negative `i` and for `i ≥ DYNAMIC_MINORS`) the array
`misc_minors` is unchanged. -/
theorem C15_deregister_frame (st : State) (l : List Nat) (d : Nat) (hw : st.Wf l)
    (hd : d ∈ l) :
    ∃ st', misc_deregister d st = .ok (0, st') ∧ st'.Wf (l.erase d) ∧
      l.erase d = l.filter (fun x => x != d) ∧
      ((0 < (st.devs d).minor ∧ (st.devs d).minor < DYNAMIC_MINORS) →
        minor_is_free st'.misc_minors (st.devs d).minor.toNat = true ∧
        ∀ j, j ≠ (st.devs d).minor.toNat →
          minor_is_free st'.misc_minors j = minor_is_free st.misc_minors j) ∧
      (¬ (0 < (st.devs d).minor ∧ (st.devs d).minor < DYNAMIC_MINORS) →
        st'.misc_minors = st.misc_minors) := by
  obtain ⟨st', es, a1, a2, -, a4, -⟩ := misc_deregister_linked hw.1 hw.2 hd
  refine ⟨st', es, ⟨a1, a4⟩, hw.1.1.erase_eq_filter d, ?_, ?_⟩
  · intro hr
    rw [a2]
    simp only [hr.1, hr.2, gt_iff_lt, and_self, if_true]
    constructor
    · rw [minor_is_free_clear]
      simp
    · intro j hj
      rw [minor_is_free_clear]
      simp [hj]
  · intro hr
    rw [a2]
    have : ¬ ((st.devs d).minor < DYNAMIC_MINORS ∧ (st.devs d).minor > 0) :=
      fun h => hr ⟨h.2, h.1⟩
    simp only [this, if_false]

/-- Witness of C15: in `witness_one` entry 0, with the identifier 5, is
linked. -/
theorem C15_deregister_frame_witness :
    ∃ st', misc_deregister 0 witness_one = .ok (0, st') ∧ st'.Wf ([0].erase 0) ∧
      [0].erase 0 = [0].filter (fun x => x != 0) ∧
      ((0 < (witness_one.devs 0).minor ∧ (witness_one.devs 0).minor < DYNAMIC_MINORS) →
        minor_is_free st'.misc_minors (witness_one.devs 0).minor.toNat = true ∧
        ∀ j, j ≠ (witness_one.devs 0).minor.toNat →
          minor_is_free st'.misc_minors j = minor_is_free witness_one.misc_minors j) ∧
      (¬ (0 < (witness_one.devs 0).minor ∧ (witness_one.devs 0).minor < DYNAMIC_MINORS) →
        st'.misc_minors = witness_one.misc_minors) :=
  C15_deregister_frame witness_one [0] 0 (by decide) (by decide)

/-! ## The mutex on every return path -/


/-- Lines 215-233 entered with the mutex held, from any state: if they return,
the mutex is free and the events are the call of `device_create` and the
unlock. -/
theorem misc_register_tail_released {s s' : State} {d : Nat} {dev ret : Int}
    (hm : s.misc_mtx = true) (h : misc_register_tail d dev s = .ok (ret, s')) :
    s'.misc_mtx = false ∧
      s'.trace = s.trace ++ [.device_create (s.devs d).minor, .mutex_unlock] := by
  unfold misc_register_tail at h
  -- the state after the bitmap update
  have key : ∀ s1 : State, s1.misc_mtx = true → s1.trace = s.trace →
      (do
        let st := s1.log (.device_create (s.devs d).minor)
        let st := st.with_registry (st.toRegistry.set_this_device d dev)
        if IS_ERR (st.devs d).this_device then
          let err := PTR_ERR (st.devs d).this_device
          let st ← mutex_unlock st
          pure (err, st)
        else
          let r ← list_add st.toRegistry (.node d) .head
          let st ← mutex_unlock (st.with_registry r)
          pure (0, st)) = Except.ok (ret, s') →
      s'.misc_mtx = false ∧
        s'.trace = s.trace ++ [.device_create (s.devs d).minor, .mutex_unlock] := by
    intro s1 hm1 ht1 h1
    simp only [] at h1
    split at h1
    · have hm2 : ((s1.log (.device_create (s.devs d).minor)).with_registry
          ((s1.log (.device_create (s.devs d).minor)).toRegistry.set_this_device d dev)).misc_mtx
          = true := hm1
      obtain ⟨s3, hu, -, c2, -, c4⟩ := mutex_unlock_spec hm2
      simp only [hu, bind, Except.bind, pure, Except.pure] at h1
      injection h1 with h1
      injection h1 with _ h1
      subst h1
      refine ⟨c2, ?_⟩
      rw [c4]
      show s1.trace ++ _ ++ _ = _
      rw [ht1]
      simp
    · cases hla : list_add ((s1.log (.device_create (s.devs d).minor)).with_registry
          ((s1.log (.device_create (s.devs d).minor)).toRegistry.set_this_device d
            dev)).toRegistry (.node d) .head with
      | error e => simp [hla, bind, Except.bind] at h1
      | ok r =>
        have hm2 : (((s1.log (.device_create (s.devs d).minor)).with_registry
          ((s1.log (.device_create (s.devs d).minor)).toRegistry.set_this_device d
            dev)).with_registry r).misc_mtx = true := hm1
        obtain ⟨s3, hu, -, c2, -, c4⟩ := mutex_unlock_spec hm2
        simp only [hla, hu, bind, Except.bind, pure, Except.pure] at h1
        injection h1 with h1
        injection h1 with _ h1
        subst h1
        refine ⟨c2, ?_⟩
        rw [c4]
        show s1.trace ++ _ ++ _ = _
        rw [ht1]
        simp
  by_cases hlt : (s.devs d).minor < DYNAMIC_MINORS
  · by_cases hneg : (s.devs d).minor < 0
    · simp [hlt, hneg, bind, Except.bind] at h
    · simp only [hlt, hneg, if_true, if_false, bind, Except.bind, pure, Except.pure] at h
      exact key (s.with_registry (s.toRegistry.mark_minor (s.devs d).minor.toNat)) hm rfl h
  · simp only [hlt, if_false, bind, Except.bind, pure, Except.pure] at h
    exact key s hm rfl h


theorem lock_released_of_events {st st' : State} (evs : List Event) (hm : st'.misc_mtx = false)
    (ht : st'.trace = st.trace ++ evs)
    (hc : lock_steps false evs = some false) : lock_released st st' :=
  ⟨hm, evs, ht, hc⟩

/-- `misc_register` entered with the mutex free, from any state: on every
return path the mutex is free again and the lock taken has been released. -/
theorem misc_register_released {st st' : State} {fuel d : Nat} {dev ret : Int}
    (hm : st.misc_mtx = false) (h : misc_register fuel d dev st = .ok (ret, st')) :
    lock_released st st' := by
  unfold misc_register at h
  obtain ⟨r0, e0⟩ : ∃ r0, INIT_LIST_HEAD st.toRegistry (.node d) = .ok r0 := ⟨_, rfl⟩
  have hm0 : (st.with_registry r0).misc_mtx = false := hm
  obtain ⟨st1, e1, -, c2, -, c4⟩ := mutex_lock_spec hm0
  have c4' : st1.trace = st.trace ++ [.mutex_lock] := c4
  simp only [e0, e1, bind, Except.bind] at h
  -- a return through the unlock right after the scan
  have hunlock : ∀ x : Int, (do let s ← mutex_unlock st1; pure (x, s)) = Except.ok (ret, st') →
      lock_released st st' := by
    intro x hx
    obtain ⟨s2, hu, -, u2, -, u4⟩ := mutex_unlock_spec c2
    simp only [hu, bind, Except.bind, pure, Except.pure] at hx
    injection hx with hx
    injection hx with _ hx
    subst hx
    refine lock_released_of_events [.mutex_lock, .mutex_unlock] u2 ?_ rfl
    rw [u4, c4']
    simp
  -- a return through lines 215-233
  have htail : ∀ s : State, misc_register_tail d dev s = Except.ok (ret, st') →
      s.misc_mtx = true → s.trace = st1.trace → lock_released st st' := by
    intro s hx hs ht
    obtain ⟨t1, t2⟩ := misc_register_tail_released hs hx
    refine lock_released_of_events
      [.mutex_lock, .device_create (s.devs d).minor, .mutex_unlock] t1 ?_ rfl
    rw [t2, ht, c4']
    simp
  cases hscan : list_find_minor st1.toRegistry (st1.devs d).minor fuel st1.misc_list.next with
  | error e => simp [hscan] at h
  | ok found =>
    simp only [hscan] at h
    cases found with
    | some c => exact hunlock _ h
    | none =>
      simp only [] at h
      split at h
      · split at h
        · exact hunlock _ h
        · exact htail (st1.with_registry (st1.toRegistry.set_minor d
            (find_free_minor st1.misc_minors DYNAMIC_MINORS))) h c2 rfl
      · exact htail st1 h c2 rfl

/-- `misc_deregister` entered with the mutex free, from any state: on every
return path the mutex is free and the lock, if it was taken, has been
released. -/
theorem misc_deregister_released {st st' : State} {d : Nat} {ret : Int}
    (hm : st.misc_mtx = false) (h : misc_deregister d st = .ok (ret, st')) :
    lock_released st st' := by
  unfold misc_deregister at h
  simp only [list_empty, Registry.get, bind, Except.bind, pure, Except.pure] at h
  split at h
  · injection h with h
    injection h with _ h
    subst h
    exact lock_released_of_events [] hm (by simp) rfl
  · obtain ⟨st1, e1, -, c2, -, c4⟩ := mutex_lock_spec hm
    simp only [e1] at h
    cases hdel : list_del st1.toRegistry (.node d) with
    | error e => simp [hdel] at h
    | ok r =>
      simp only [hdel] at h
      have hst : ∀ s s2 : State, mutex_unlock s = .ok s2 → s.misc_mtx = true →
          s.trace = st1.trace ++ [.device_destroy ((st1.with_registry r).devs d).minor] →
          lock_released st s2 := by
        intro s s2 hx hs ht
        obtain ⟨s3, hu, -, u2, -, u4⟩ := mutex_unlock_spec hs
        rw [hu] at hx
        injection hx with hx
        subst hx
        refine lock_released_of_events
          [.mutex_lock, .device_destroy ((st1.with_registry r).devs d).minor, .mutex_unlock]
          u2 ?_ rfl
        rw [u4, ht, c4]
        simp
      by_cases hcond : (st.devs d).minor < DYNAMIC_MINORS ∧ (st.devs d).minor > 0
      · simp only [hcond, and_self, if_true] at h
        split at h
        · exact absurd h (by simp)
        · next v heq =>
          injection h with h
          injection h with _ h
          subst h
          exact hst _ _ heq c2 rfl
      · simp only [hcond, if_false] at h
        split at h
        · exact absurd h (by simp)
        · next v heq =>
          injection h with h
          injection h with _ h
          subst h
          exact hst _ _ heq c2 rfl

/-- The lookup of `misc_open` neither touches the mutex nor the trace. -/
theorem misc_open_lookup_keeps {st s : State} {fuel : Nat} {minor : Int} {nf : Option Nat}
    (h : misc_open_lookup fuel minor st = .ok (nf, s)) :
    s.misc_mtx = st.misc_mtx ∧ s.trace = st.trace := by
  unfold misc_open_lookup at h
  simp only [bind, Except.bind] at h
  cases hscan : list_find_minor st.toRegistry minor fuel st.misc_list.next with
  | error e => simp [hscan] at h
  | ok found =>
    simp only [hscan] at h
    cases found with
    | some c =>
      simp only [pure, Except.pure, fops_get] at h
      injection h with h
      injection h with _ h
      subst h
      exact ⟨rfl, rfl⟩
    | none =>
      simp only [pure, Except.pure] at h
      injection h with h
      injection h with _ h
      subst h
      exact ⟨rfl, rfl⟩

/-- Lines 147-161 entered with the mutex held: a return leaves the mutex free
and has logged the hook, the unlock and `unlock_kernel`. -/
theorem misc_open_bind_released {s s' : State} {tables : Nat → file_operations} {t : Nat}
    {f f' : file} {ret : Int} (hm : s.misc_mtx = true)
    (h : misc_open_bind tables t f s = .ok (ret, f', s')) :
    s'.misc_mtx = false ∧
      s'.trace = s.trace ++ hook_events tables t ++ [.mutex_unlock, .unlock_kernel] := by
  obtain ⟨ret2, f2, s2, e, -, c2, c3, -⟩ := misc_open_bind_spec tables t f hm
  rw [e] at h
  injection h with h
  injection h with _ h
  injection h with _ h
  subst h
  exact ⟨c2, c3⟩

/-- `misc_open` entered with the mutex free, from any state: if the call
returns, the mutex is free and the events logged have one of the three shapes
of `misc_open_events`. -/
theorem misc_open_trace {st st' : State} {fuel : Nat} {tables : Nat → file_operations}
    {request_module : Int → Int → Registry → Registry} {minor : Int} {f f' : file} {ret : Int}
    (hm : st.misc_mtx = false)
    (h : misc_open fuel tables request_module minor f st = .ok (ret, f', st')) :
    st'.misc_mtx = false ∧
      ∃ evs, st'.trace = st.trace ++ evs ∧ misc_open_events tables minor evs := by
  unfold misc_open at h
  have hm0 : (st.log .lock_kernel).misc_mtx = false := hm
  obtain ⟨st1, e1, -, c2, -, c4⟩ := mutex_lock_spec hm0
  have c4' : st1.trace = st.trace ++ [.lock_kernel, .mutex_lock] := by
    rw [c4]
    show st.trace ++ _ ++ _ = _
    simp
  simp only [e1, bind, Except.bind] at h
  cases hl : misc_open_lookup fuel minor st1 with
  | error e => simp [hl] at h
  | ok p =>
    obtain ⟨nf, s2⟩ := p
    obtain ⟨k1, k2⟩ := misc_open_lookup_keeps hl
    simp only [hl] at h
    cases nf with
    | some t =>
      simp only [] at h
      obtain ⟨b1, b2⟩ := misc_open_bind_released (k1.trans c2) h
      refine ⟨b1, _, ?_, Or.inl ⟨t, rfl⟩⟩
      rw [b2, k2, c4']
      simp
    | none =>
      simp only [] at h
      obtain ⟨s3, hu, -, u2, -, u4⟩ := mutex_unlock_spec (k1.trans c2)
      simp only [hu] at h
      have hm4 : ((s3.log (.request_module MISC_MAJOR minor)).with_registry
          (request_module MISC_MAJOR minor
            (s3.log (.request_module MISC_MAJOR minor)).toRegistry)).misc_mtx = false := u2
      obtain ⟨s5, e5, -, d2, -, d4⟩ := mutex_lock_spec hm4
      have d4' : s5.trace = st.trace ++ [.lock_kernel, .mutex_lock, .mutex_unlock,
          .request_module MISC_MAJOR minor, .mutex_lock] := by
        rw [d4]
        show s3.trace ++ _ ++ _ = _
        rw [u4, k2, c4']
        simp
      simp only [e5] at h
      cases hl2 : misc_open_lookup fuel minor s5 with
      | error e => simp [hl2] at h
      | ok p2 =>
        obtain ⟨nf2, s6⟩ := p2
        obtain ⟨m1, m2⟩ := misc_open_lookup_keeps hl2
        simp only [hl2] at h
        cases nf2 with
        | some t =>
          simp only [] at h
          obtain ⟨b1, b2⟩ := misc_open_bind_released (m1.trans d2) h
          refine ⟨b1, _, ?_, Or.inr (Or.inl ⟨t, rfl⟩)⟩
          rw [b2, m2, d4']
          simp
        | none =>
          simp only [] at h
          obtain ⟨s7, hu7, -, w2, -, w4⟩ := mutex_unlock_spec (m1.trans d2)
          simp only [hu7, pure, Except.pure] at h
          injection h with h
          injection h with _ h
          injection h with _ h
          subst h
          refine ⟨w2, _, ?_, Or.inr (Or.inr rfl)⟩
          show s7.trace ++ _ = _
          rw [w4, m2, d4']
          simp

/-- In each of the shapes of `misc_open_events` every lock is followed by its
unlock. -/
theorem misc_open_events_lock_steps {tables : Nat → file_operations} {minor : Int}
    {evs : List Event} (h : misc_open_events tables minor evs) :
    lock_steps false evs = some false := by
  rcases h with ⟨t, rfl⟩ | ⟨t, rfl⟩ | rfl
  · unfold hook_events
    cases (tables t).open_hook <;> rfl
  · unfold hook_events
    cases (tables t).open_hook <;> rfl
  · rfl

/-- In each of the shapes of `misc_open_events` the hook, if it is called, is
called with the mutex held. -/
theorem misc_open_events_hook {tables : Nat → file_operations} {minor : Int}
    {evs : List Event} (h : misc_open_events tables minor evs) :
    ∀ b ∈ hook_lock_states false evs, b = true := by
  rcases h with ⟨t, rfl⟩ | ⟨t, rfl⟩ | rfl
  · unfold hook_events
    cases (tables t).open_hook <;> simp [hook_lock_states]
  · unfold hook_events
    cases (tables t).open_hook <;> simp [hook_lock_states]
  · simp [hook_lock_states]

/-- In each of the shapes of `misc_open_events` the loader, if it is called, is
called with the mutex free. -/
theorem misc_open_events_loader {tables : Nat → file_operations} {minor : Int}
    {evs : List Event} (h : misc_open_events tables minor evs) :
    ∀ b ∈ loader_lock_states false evs, b = false := by
  rcases h with ⟨t, rfl⟩ | ⟨t, rfl⟩ | rfl
  · unfold hook_events
    cases (tables t).open_hook <;> simp [loader_lock_states]
  · unfold hook_events
    cases (tables t).open_hook <;> simp [loader_lock_states]
  · simp [loader_lock_states]

/-- `misc_open` entered with the mutex free, from any state: on every return
path the mutex is free and every lock taken has been released. -/
theorem misc_open_released {st st' : State} {fuel : Nat} {tables : Nat → file_operations}
    {request_module : Int → Int → Registry → Registry} {minor : Int} {f f' : file} {ret : Int}
    (hm : st.misc_mtx = false)
    (h : misc_open fuel tables request_module minor f st = .ok (ret, f', st')) :
    lock_released st st' := by
  obtain ⟨a, evs, b, c⟩ := misc_open_trace hm h
  exact ⟨a, evs, b, misc_open_events_lock_steps c⟩

/-! ## Where the mutex is while the hook and the loader run -/

/-- C16, counterexample. In `witness_one` (entry 0 linked with the identifier 5)
with tables whose `open` hook returns 0, `misc_open` for 5 returns 0 and its
events are `lock_kernel`, `mutex_lock`, the hook, `mutex_unlock`,
`unlock_kernel`: the hook is called once, and the mutex is held at that
moment. -/
theorem C16_counterexample_hook_under_lock :
    ∃ f' st', misc_open 1 witness_hook_tables witness_idle_loader 5 { f_op := none }
        witness_one = .ok (0, f', st') ∧
      st'.trace = [.lock_kernel, .mutex_lock, .open_hook 0, .mutex_unlock, .unlock_kernel] ∧
      hook_lock_states false st'.trace = [true] :=
  ⟨_, _, rfl, rfl, rfl⟩

/-- C16 (amended). Dispatch entered with the mutex free.  In every call of
`misc_open` that returns, each call of a driver's `open` hook is made with
`misc_mtx` held: the mutex taken before the scan is released only at the exit,
after the hook has returned.  On a well-formed registry, when the first scan,
or the scan after the loader, finds an entry whose table has an `open` hook,
`misc_open` does return and the hook is called exactly once, with the mutex
held. -/
theorem C16_hook_called_under_lock (st : State) (l : List Nat)
    (tables : Nat → file_operations) (request_module : Int → Int → Registry → Registry)
    (minor : Int) (f : file) (fuel : Nat) (hw : st.Wf l) (hf : l.length ≤ fuel) :
    (∀ ret f' st', misc_open fuel tables request_module minor f st = .ok (ret, f', st') →
      ∃ evs, st'.trace = st.trace ++ evs ∧ ∀ b ∈ hook_lock_states false evs, b = true) ∧
    (∀ c, l.find? (fun c => decide ((st.devs c).minor = minor)) = some c →
      (tables (st.devs c).fops).open_hook ≠ none →
      ∃ ret f' st' evs, misc_open fuel tables request_module minor f st = .ok (ret, f', st') ∧
        st'.trace = st.trace ++ evs ∧ hook_lock_states false evs = [true]) ∧
    (l.find? (fun c => decide ((st.devs c).minor = minor)) = none →
      ∀ l2, (request_module MISC_MAJOR minor st.toRegistry).IsList l2 → l2.length ≤ fuel →
        ∀ c, l2.find? (fun c => decide
            (((request_module MISC_MAJOR minor st.toRegistry).devs c).minor = minor)) = some c →
          (tables ((request_module MISC_MAJOR minor st.toRegistry).devs c).fops).open_hook
            ≠ none →
          ∃ ret f' st' evs,
            misc_open fuel tables request_module minor f st = .ok (ret, f', st') ∧
            st'.trace = st.trace ++ evs ∧ hook_lock_states false evs = [true]) := by
  obtain ⟨st1, c1, c2, c3, c4, hhit, hmiss⟩ :=
    misc_open_first_scan tables request_module minor f hw hf
  refine ⟨?_, ?_, ?_⟩
  · intro ret f' st' h
    obtain ⟨-, evs, e, sh⟩ := misc_open_trace hw.2 h
    exact ⟨evs, e, misc_open_events_hook sh⟩
  · intro c hc hh
    have hm2 : (fops_get st1 (some (st.devs c).fops)).2.misc_mtx = true := c2
    obtain ⟨ret, f', st', eb, -, -, b3, -⟩ :=
      misc_open_bind_spec tables (st.devs c).fops f hm2
    refine ⟨ret, f', st', [.lock_kernel, .mutex_lock] ++ hook_events tables (st.devs c).fops ++
      [.mutex_unlock, .unlock_kernel], (hhit c hc).trans eb, ?_, ?_⟩
    · rw [b3]
      show st1.trace ++ _ ++ _ = _
      rw [c4]
      simp
    · unfold hook_events
      cases hk : (tables (st.devs c).fops).open_hook with
      | none => exact absurd hk hh
      | some e => rfl
  · intro hnone l2 hl2 hf2 c hc hh
    obtain ⟨st3, st6, g1, g2, g3, k1, k2, k3, k4, hopen⟩ := hmiss hnone
    rw [g1] at k1
    have hl6 : st6.IsList l2 := k1 ▸ hl2
    have hret := (misc_open_retry_spec tables minor f hl6 k2 hf2).1 c (by rw [k1]; exact hc)
    have hd : st6.devs = (request_module MISC_MAJOR minor st.toRegistry).devs := by rw [k1]
    rw [hd] at hret
    have hm7 : (fops_get st6
        (some ((request_module MISC_MAJOR minor st.toRegistry).devs c).fops)).2.misc_mtx
        = true := k2
    obtain ⟨ret, f', st', eb, -, -, b3, -⟩ :=
      misc_open_bind_spec tables ((request_module MISC_MAJOR minor st.toRegistry).devs c).fops
        f hm7
    refine ⟨ret, f', st', [.lock_kernel, .mutex_lock, .mutex_unlock,
      .request_module MISC_MAJOR minor, .mutex_lock] ++
      hook_events tables ((request_module MISC_MAJOR minor st.toRegistry).devs c).fops ++
      [.mutex_unlock, .unlock_kernel], hopen.trans (hret.trans eb), ?_, ?_⟩
    · rw [b3]
      show st6.trace ++ _ ++ _ = _
      rw [k4, g3]
      simp
    · unfold hook_events
      cases hk : (tables ((request_module MISC_MAJOR minor st.toRegistry).devs c).fops).open_hook
        with
      | none => exact absurd hk hh
      | some e => rfl

/-- Witness of C16 (amended): in `witness_one` with tables whose hook returns 0
the first scan for 5 finds entry 0. -/
theorem C16_hook_called_under_lock_witness :
    ∃ ret f' st' evs, misc_open 1 witness_hook_tables witness_idle_loader 5 { f_op := none }
        witness_one = .ok (ret, f', st') ∧
      st'.trace = witness_one.trace ++ evs ∧ hook_lock_states false evs = [true] :=
  (C16_hook_called_under_lock witness_one [0] witness_hook_tables witness_idle_loader 5
    { f_op := none } 1 (by decide) (by decide)).2.1 0 (by decide) (by decide)

/-- On a well-formed registry with the mutex free `misc_open` returns: at once
when the first scan finds an entry, and after one run of the loader when it
does not and the loader leaves a well-formed registry.  The events logged are
those of the path taken. -/
theorem misc_open_returns {st : State} {l : List Nat} (tables : Nat → file_operations)
    (request_module : Int → Int → Registry → Registry) (minor : Int) (f : file) {fuel : Nat}
    (hw : st.Wf l) (hf : l.length ≤ fuel) :
    (∀ c, l.find? (fun c => decide ((st.devs c).minor = minor)) = some c →
      ∃ ret f' st', misc_open fuel tables request_module minor f st = .ok (ret, f', st') ∧
        st'.trace = st.trace ++ ([.lock_kernel, .mutex_lock] ++
          hook_events tables (st.devs c).fops ++ [.mutex_unlock, .unlock_kernel])) ∧
    (l.find? (fun c => decide ((st.devs c).minor = minor)) = none →
      ∀ l2, (request_module MISC_MAJOR minor st.toRegistry).IsList l2 → l2.length ≤ fuel →
        ∃ ret f' st', misc_open fuel tables request_module minor f st = .ok (ret, f', st') ∧
          st'.trace = st.trace ++ ([.lock_kernel, .mutex_lock, .mutex_unlock,
            .request_module MISC_MAJOR minor, .mutex_lock] ++
            (match l2.find? (fun c => decide
                (((request_module MISC_MAJOR minor st.toRegistry).devs c).minor = minor)) with
              | some c => hook_events tables
                  ((request_module MISC_MAJOR minor st.toRegistry).devs c).fops
              | none => []) ++ [.mutex_unlock, .unlock_kernel])) := by
  obtain ⟨st1, c1, c2, c3, c4, hhit, hmiss⟩ :=
    misc_open_first_scan tables request_module minor f hw hf
  refine ⟨?_, ?_⟩
  · intro c hc
    have hm2 : (fops_get st1 (some (st.devs c).fops)).2.misc_mtx = true := c2
    obtain ⟨ret, f', st', eb, -, -, b3, -⟩ :=
      misc_open_bind_spec tables (st.devs c).fops f hm2
    refine ⟨ret, f', st', (hhit c hc).trans eb, ?_⟩
    rw [b3]
    show st1.trace ++ _ ++ _ = _
    rw [c4]
    simp
  · intro hnone l2 hl2 hf2
    obtain ⟨st3, st6, g1, g2, g3, k1, k2, k3, k4, hopen⟩ := hmiss hnone
    rw [g1] at k1
    have hl6 : st6.IsList l2 := k1 ▸ hl2
    have hd : st6.devs = (request_module MISC_MAJOR minor st.toRegistry).devs := by rw [k1]
    have hspec := misc_open_retry_spec tables minor f hl6 k2 hf2
    rw [hd] at hspec
    cases hfind : l2.find? (fun c => decide
        (((request_module MISC_MAJOR minor st.toRegistry).devs c).minor = minor)) with
    | none =>
      obtain ⟨st', e, -, -, -, t⟩ := hspec.2 hfind
      refine ⟨_, _, st', hopen.trans e, ?_⟩
      rw [t, k4, g3]
      simp
    | some c =>
      have hret := hspec.1 c hfind
      have hm7 : (fops_get st6
          (some ((request_module MISC_MAJOR minor st.toRegistry).devs c).fops)).2.misc_mtx
          = true := k2
      obtain ⟨ret, f', st', eb, -, -, b3, -⟩ :=
        misc_open_bind_spec tables ((request_module MISC_MAJOR minor st.toRegistry).devs c).fops
          f hm7
      refine ⟨ret, f', st', hopen.trans (hret.trans eb), ?_⟩
      rw [b3]
      show st6.trace ++ _ ++ _ = _
      rw [k4, g3]
      simp

/-- C17. Dispatch on a well-formed registry, entered with the mutex free, whose
first scan finds no entry for `minor`.  The call passes through a state `st3`
in which `misc_mtx` is free, reached by the unlock that follows the scan; the
loader is called on that state; then the mutex is taken again, and what
remains of the call (the second scan and what follows it) runs from a state
`st6` in which `misc_mtx` is held and the registry is the one the loader left.
When the loader leaves a well-formed registry, `misc_open` returns, the loader
has been called exactly once, and the mutex was free at that moment. -/
theorem C17_loader_runs_unlocked (st : State) (l : List Nat)
    (tables : Nat → file_operations) (request_module : Int → Int → Registry → Registry)
    (minor : Int) (f : file) (fuel : Nat) (hw : st.Wf l) (hf : l.length ≤ fuel)
    (hmiss : l.find? (fun c => decide ((st.devs c).minor = minor)) = none) :
    (∃ st3 st6 : State, st3.toRegistry = st.toRegistry ∧ st3.misc_mtx = false ∧
      st3.trace = st.trace ++ [.lock_kernel, .mutex_lock, .mutex_unlock] ∧
      st6.toRegistry = request_module MISC_MAJOR minor st3.toRegistry ∧
      st6.misc_mtx = true ∧
      st6.trace = st3.trace ++ [.request_module MISC_MAJOR minor, .mutex_lock] ∧
      misc_open fuel tables request_module minor f st =
        misc_open_retry fuel tables minor f st6) ∧
    (∀ l2, (request_module MISC_MAJOR minor st.toRegistry).IsList l2 → l2.length ≤ fuel →
      ∃ ret f' st' evs, misc_open fuel tables request_module minor f st = .ok (ret, f', st') ∧
        st'.trace = st.trace ++ evs ∧ loader_lock_states false evs = [false]) := by
  constructor
  · obtain ⟨st1, -, -, -, -, -, h⟩ := misc_open_first_scan tables request_module minor f hw hf
    obtain ⟨st3, st6, g1, g2, g3, k1, k2, -, k4, e⟩ := h hmiss
    exact ⟨st3, st6, g1, g2, g3, k1, k2, k4, e⟩
  · intro l2 hl2 hf2
    obtain ⟨ret, f', st', e, t⟩ :=
      (misc_open_returns tables request_module minor f hw hf).2 hmiss l2 hl2 hf2
    refine ⟨ret, f', st', _, e, t, ?_⟩
    cases l2.find? (fun c => decide
        (((request_module MISC_MAJOR minor st.toRegistry).devs c).minor = minor)) with
    | none => rfl
    | some c =>
      simp only [hook_events]
      cases (tables ((request_module MISC_MAJOR minor st.toRegistry).devs c).fops).open_hook
        <;> rfl

/-- Witness of C17: in `witness_one` no entry carries the identifier 9; the
loader registers nothing. -/
theorem C17_loader_runs_unlocked_witness :
    ∃ ret f' st' evs, misc_open 1 witness_tables witness_idle_loader 9 { f_op := none }
        witness_one = .ok (ret, f', st') ∧
      st'.trace = witness_one.trace ++ evs ∧ loader_lock_states false evs = [false] :=
  (C17_loader_runs_unlocked witness_one [0] witness_tables witness_idle_loader 9
    { f_op := none } 1 (by decide) (by decide) (by decide)).2 [0] (by decide) (by decide)

/-- C18. Calls entered with `misc_mtx` free.  Whenever `misc_register`,
`misc_deregister` or `misc_open` returns, whatever the value returned, the
mutex is free again and in the events of the call every `mutex_lock` is followed
by its own `mutex_unlock` before the next lock and before the return.  On a
well-formed registry the calls do return: `misc_register` of an entry that is
not linked and carries a non-negative identifier, `misc_deregister` of an entry
that is linked or whose node is an empty list, and `misc_open` when its first
scan finds an entry or the loader leaves a well-formed registry. -/
theorem C18_lock_released_on_every_return (st : State) (l : List Nat) (hw : st.Wf l) :
    (∀ fuel d dev ret st', misc_register fuel d dev st = .ok (ret, st') →
      lock_released st st') ∧
    (∀ d ret st', misc_deregister d st = .ok (ret, st') → lock_released st st') ∧
    (∀ fuel tables request_module minor f ret f' st',
      misc_open fuel tables request_module minor f st = .ok (ret, f', st') →
      lock_released st st') ∧
    (∀ fuel d dev, d ∉ l → l.length ≤ fuel → 0 ≤ (st.devs d).minor →
      ∃ ret st', misc_register fuel d dev st = .ok (ret, st')) ∧
    (∀ d, d ∈ l ∨ st.next (.node d) = .node d →
      ∃ ret st', misc_deregister d st = .ok (ret, st')) ∧
    (∀ fuel tables request_module minor f, l.length ≤ fuel →
      (l.find? (fun c => decide ((st.devs c).minor = minor)) ≠ none ∨
        ∃ l2, (request_module MISC_MAJOR minor st.toRegistry).IsList l2 ∧ l2.length ≤ fuel) →
      ∃ ret f' st', misc_open fuel tables request_module minor f st = .ok (ret, f', st')) := by
  refine ⟨?_, ?_, ?_, ?_, ?_, ?_⟩
  · intro fuel d dev ret st' h
    exact misc_register_released hw.2 h
  · intro d ret st' h
    exact misc_deregister_released hw.2 h
  · intro fuel tables request_module minor f ret f' st' h
    exact misc_open_released hw.2 h
  · intro fuel d dev hd hf h0
    obtain ⟨ret, st', e, -⟩ := misc_register_total fuel dev hw hd hf h0
    exact ⟨ret, st', e⟩
  · rintro d (hd | hd)
    · obtain ⟨st', e, -⟩ := misc_deregister_linked hw.1 hw.2 hd
      exact ⟨_, st', e⟩
    · exact ⟨_, _, misc_deregister_unlinked hd⟩
  · intro fuel tables request_module minor f hf h
    have hr := misc_open_returns tables request_module minor f hw hf
    cases hfind : l.find? (fun c => decide ((st.devs c).minor = minor)) with
    | some c =>
      obtain ⟨ret, f', st', e, -⟩ := hr.1 c hfind
      exact ⟨ret, f', st', e⟩
    | none =>
      rcases h with h | ⟨l2, hl2, hf2⟩
      · exact absurd hfind h
      · obtain ⟨ret, f', st', e, -⟩ := hr.2 hfind l2 hl2 hf2
        exact ⟨ret, f', st', e⟩

/-- Witness of C18: in `witness_one` the registration of entry 1, which carries
the identifier 5 of the linked entry 0, returns `-EBUSY` with the mutex
released. -/
theorem C18_lock_released_on_every_return_witness :
    ∃ st', misc_register 1 1 1 witness_one = .ok (-EBUSY, st') ∧
      lock_released witness_one st' :=
  ⟨_, rfl, (C18_lock_released_on_every_return witness_one [0] (by decide)).1 1 1 1 _ _ rfl⟩

/-! ## Registration of an entry that is already linked -/

/-- `INIT_LIST_HEAD` on any node: the node's two pointers point to the node,
every other pointer and all other data stay as they are. -/
theorem INIT_LIST_HEAD_node (r : Registry) (d : Nat) :
    ∃ s, INIT_LIST_HEAD r (.node d) = .ok s ∧ s.next = upd r.next (.node d) (.node d) ∧
      s.prev = upd r.prev (.node d) (.node d) ∧ r.SameData s := by
  obtain ⟨s1, e1, n1, p1, d1⟩ := set_next_ok r (.node d) (.node d) rfl
  obtain ⟨s2, e2, p2, n2, d2⟩ := set_prev_ok s1 (.node d) (.node d) rfl
  refine ⟨s2, by simp [INIT_LIST_HEAD, e1, e2, bind, Except.bind], ?_, ?_, d1.trans d2⟩
  · rw [n2, n1]
  · rw [p2, p1]

/-- The scan started in front of a chain of nodes that ends at an entry with
the identifier looked for stops with a match. -/
theorem list_find_minor_reaches (r : Registry) (m : Int) (d : Nat)
    (hm : (r.devs d).minor = m) :
    ∀ (l1 : List Nat) (p : Ptr) (fuel : Nat), Path r.next p (l1.map Ptr.node) (.node d) →
      l1.length < fuel → ∃ c, list_find_minor r m fuel (r.next p) = .ok (some c)
  | [], p, 0, _, hf => by simp at hf
  | [], p, fuel + 1, hp, _ => by
    have : r.next p = .node d := hp
    rw [this, list_find_minor]
    exact ⟨d, by simp [hm]⟩
  | e :: l1, p, 0, _, hf => by simp at hf
  | e :: l1, p, fuel + 1, hp, hf => by
    have h1 : r.next p = .node e := hp.1
    rw [h1, list_find_minor]
    by_cases he : (r.devs e).minor = m
    · exact ⟨e, by simp [he]⟩
    · obtain ⟨c, hc⟩ := list_find_minor_reaches r m d hm l1 (.node e) fuel hp.2
        (by simpa using hf)
      refine ⟨c, ?_⟩
      simp only [he, if_false]
      exact hc

/-- What `misc_register` does on a well-formed registry for an entry `E`
that is linked: it returns `-EBUSY`, the scan reaching `E` itself at the
latest.  The bitmap, the identifier, table and device of every entry, and the
list pointers of the head and of every other entry are as before, and
`device_create` is not called.  The node of `E`, however, has been made an
empty list by the `INIT_LIST_HEAD` that opens `misc_register`, so the following
`misc_deregister(E)` returns `-EINVAL`. -/
theorem misc_register_linked (st : State) (l : List Nat) (E : Nat) (dev : Int)
    (fuel : Nat) (hw : st.Wf l) (hE : E ∈ l) (hf : l.length ≤ fuel) :
    ∃ st', misc_register fuel E dev st = .ok (-EBUSY, st') ∧
      st'.misc_minors = st.misc_minors ∧
      (∀ k, (st'.devs k).minor = (st.devs k).minor ∧ (st'.devs k).fops = (st.devs k).fops ∧
        (st'.devs k).this_device = (st.devs k).this_device) ∧
      (∀ p, p ≠ .node E → st'.next p = st.next p ∧ st'.prev p = st.prev p) ∧
      st'.next (.node E) = .node E ∧ st'.prev (.node E) = .node E ∧
      st'.misc_mtx = false ∧ st'.refcount = st.refcount ∧
      st'.trace = st.trace ++ [.mutex_lock, .mutex_unlock] ∧
      misc_deregister E st' = .ok (-EINVAL, st') := by
  obtain ⟨r0, e0, n0, p0, d0⟩ := INIT_LIST_HEAD_node st.toRegistry E
  have hm0 : (st.with_registry r0).misc_mtx = false := hw.2
  obtain ⟨st1, e1, c1, c2, c3, c4⟩ := mutex_lock_spec hm0
  have c1' : st1.toRegistry = r0 := c1
  -- the chain from the head to `E` is untouched
  obtain ⟨l1, l2, rfl⟩ := List.append_of_mem hE
  have hpath : Path st.next .head (l1.map Ptr.node) (.node E) := by
    have := hw.1.2.1
    rw [List.map_append, List.map_cons, Path.append_iff] at this
    exact this.1
  have hnot : ∀ x ∈ Ptr.head :: l1.map Ptr.node, x ≠ .node E := by
    intro x hx hxe
    subst hxe
    simp only [List.mem_cons, List.mem_map] at hx
    rcases hx with hx | ⟨a, ha, hae⟩
    · cases hx
    · injection hae with hae
      subst hae
      have := hw.1.1
      rw [List.nodup_append] at this
      exact this.2.2 ha (List.mem_cons_self _ _)
  have hpath0 : Path r0.next .head (l1.map Ptr.node) (.node E) := by
    apply hpath.frame
    intro x hx
    rw [n0]
    simp [upd, hnot x hx]
  have hlen : l1.length < fuel := by
    have : (l1 ++ E :: l2).length = l1.length + (l2.length + 1) := by simp
    omega
  obtain ⟨c, hc⟩ := list_find_minor_reaches r0 (r0.devs E).minor E rfl l1 .head fuel hpath0 hlen
  have hscan : list_find_minor st1.toRegistry (st1.devs E).minor fuel st1.misc_list.next =
      .ok (some c) := by
    rw [c1']
    exact hc
  obtain ⟨st2, hu, u1, u2, u3, u4⟩ := mutex_unlock_spec c2
  have hreg : st2.toRegistry = r0 := u1.trans c1'
  have hnext : st2.next (.node E) = .node E := by
    rw [hreg, n0]
    simp [upd]
  refine ⟨st2, ?_, ?_, ?_, ?_, hnext, ?_, u2, ?_, ?_, misc_deregister_unlinked hnext⟩
  · unfold misc_register
    simp only [e0, e1, hscan, hu, bind, Except.bind]
    rfl
  · rw [hreg]
    exact d0.1
  · intro k
    rw [hreg]
    exact d0.2 k
  · intro p hp
    rw [hreg, n0, p0]
    simp [upd, hp]
  · rw [hreg, p0]
    simp [upd]
  · rw [u3, c3]
    rfl
  · rw [u4, c4]
    show st.trace ++ _ ++ _ = _
    simp

/-- No list is well formed when the head points to a node that points to
itself. -/
theorem not_isList_of_self_loop {r : Registry} {d : Nat} (h1 : r.next .head = .node d)
    (h2 : r.next (.node d) = .node d) : ¬ ∃ l, r.IsList l := by
  rintro ⟨l, hnd, hp, -⟩
  cases l with
  | nil =>
    have : r.next .head = .head := hp
    rw [h1] at this
    cases this
  | cons x xs =>
    have hx : r.next .head = .node x := hp.1
    rw [h1] at hx
    injection hx with hx
    subst hx
    cases xs with
    | nil =>
      have : r.next (.node d) = .head := hp.2
      rw [h2] at this
      cases this
    | cons y ys =>
      have hy : r.next (.node d) = .node y := hp.2.1
      rw [h2] at hy
      injection hy with hy
      subst hy
      simp at hnd

/-- The scan that enters a node which points to itself and does not carry the
identifier looked for uses up any number of steps. -/
theorem list_find_minor_self_loop {r : Registry} {d : Nat} {m : Int}
    (h2 : (r.devs d).list.next = .node d) (hm : (r.devs d).minor ≠ m) :
    ∀ fuel, list_find_minor r m fuel (.node d) = .error .out_of_fuel
  | 0 => rfl
  | fuel + 1 => by
    rw [list_find_minor]
    simp only [hm, if_false, h2]
    exact list_find_minor_self_loop h2 hm fuel

/-- C19, evaluated at the failing input. In `witness_one` entry 0 is linked:
the list is `[0]` and `list_empty` on its node is false.  `misc_register` of
entry 0 returns `-EBUSY`, but its `INIT_LIST_HEAD` (line 193) has made the node
point to itself while the head still points to the node: afterwards
`list_empty` on the node is true and the following `misc_deregister` of entry 0
returns `-EINVAL` instead of 0; the pointers form no well-formed list any more;
and the scan for an identifier that entry 0 does not carry never comes back to
the head, whatever the number of steps. -/
theorem C19_register_linked_corrupts_list :
    ∃ st', witness_one.Wf [0] ∧ list_empty witness_one.toRegistry (.node 0) = .ok false ∧
      misc_register 1 0 1 witness_one = .ok (-EBUSY, st') ∧
      list_empty st'.toRegistry (.node 0) = .ok true ∧
      misc_deregister 0 st' = .ok (-EINVAL, st') ∧
      (¬ ∃ l, st'.IsList l) ∧
      (∀ fuel, list_find_minor st'.toRegistry 9 fuel st'.misc_list.next =
        .error .out_of_fuel) :=
  ⟨_, by decide, rfl, rfl, rfl, rfl, not_isList_of_self_loop rfl rfl,
    fun fuel => list_find_minor_self_loop rfl (by decide) fuel⟩

/-! ## Identifiers outside the range of the bitmap -/

/-- C20, evaluated at the failing input. From the empty registry, entry 0 is
given the identifier -1 and registered: the scan finds no collision, -1 is not
the dynamic sentinel, the test `misc->minor < DYNAMIC_MINORS` of line 215 holds
and line 216 indexes `misc_minors` at `-1 >> 3`, below the array.  The sibling
test of `misc_deregister` (line 256) has the lower bound `i>0`. -/
theorem C20_negative_identifier_out_of_bounds :
    (Call.register 0 (-1) 1).exec 1 (State.init witness_devs witness_refcount) =
      .error .out_of_bounds ∧
    ((-1 : Int) < DYNAMIC_MINORS ∧ ¬ (0 ≤ (-1 : Int))) :=
  ⟨rfl, by decide⟩

end Misc
